import Mathlib

/-!
# goreload: watcher filter, runner, engine and debounce loop

A shallow embedding of `internal/watcher/filter.go`, `internal/runner/runner.go`,
`internal/engine/engine.go` and the event loop of `internal/watcher/watcher.go`.

Strings are lists of characters.  The functions of Go's `path/filepath` and
`strings` packages that the filter calls are modelled for the Unix build
(separator `/`, no volume names).
-/

namespace Goreload

/-- Go strings, as lists of characters. -/
abbrev Str := List Char

/-! ## Go standard library: `strings` and `path/filepath` (Unix) -/

namespace GoStrings

/-- Go `strings.HasPrefix(s, prefix)`. -/
def HasPrefix : Str → Str → Bool
  | _, [] => true
  | [], _ :: _ => false
  | c :: s, d :: p => c == d && HasPrefix s p

/-- Worker of `Split` on a one-character separator: `cur` is the segment being
read, kept reversed. -/
def splitAux (sep : Char) : Str → Str → List Str
  | [], cur => [cur.reverse]
  | c :: cs, cur =>
    if c = sep then cur.reverse :: splitAux sep cs [] else splitAux sep cs (c :: cur)

/-- Go `strings.Split(s, "/")`: the segments between separators; never empty. -/
def Split (s : Str) (sep : Char) : List Str := splitAux sep s []

end GoStrings

namespace Filepath

/-- The Unix path separator. -/
def Separator : Char := '/'

/-- Go `filepath.ToSlash`: the identity where the separator is already `/`. -/
def ToSlash (p : Str) : Str := p

/-- Go `filepath.IsAbs` on Unix. -/
def IsAbs (p : Str) : Bool := GoStrings.HasPrefix p [Separator]

/-- Path elements: the pieces between separators. -/
def elems (p : Str) : List Str := GoStrings.Split p Separator

/-- The loop of `Clean` over the path elements.  `out` holds the elements kept
so far, last one first; leading `..` elements of a relative path are kept in
`out` too and `dd` counts them (they cannot be backtracked over). -/
def cleanLoop (rooted : Bool) : List Str → List Str → Nat → List Str
  | [], out, _ => out.reverse
  | e :: es, out, dd =>
    if e = [] ∨ e = ['.'] then cleanLoop rooted es out dd
    else if e = ['.', '.'] then
      if out.length > dd then cleanLoop rooted es out.tail dd
      else if rooted then cleanLoop rooted es out dd
      else cleanLoop rooted es (e :: out) (dd + 1)
    else cleanLoop rooted es (e :: out) dd

/-- Join path elements with the separator. -/
def joinElems : List Str → Str
  | [] => []
  | [e] => e
  | e :: es => e ++ Separator :: joinElems es

/-- Go `filepath.Clean` on Unix. -/
def Clean (p : Str) : Str :=
  if p = [] then ['.']
  else
    let rooted := IsAbs p
    let kept := cleanLoop rooted (elems p) [] 0
    if rooted then Separator :: joinElems kept
    else if kept = [] then ['.'] else joinElems kept

/-- Drop the longest common prefix of two element lists. -/
def dropCommon : List Str → List Str → List Str × List Str
  | b :: bs, t :: ts => if b = t then dropCommon bs ts else (b :: bs, t :: ts)
  | bs, ts => (bs, ts)

/-- Elements of a cleaned path after its leading separator, if any.  For the
base path `.` stands for no element (`Rel` replaces it by the empty string);
for the target it is kept. -/
def cleanElems (isBase : Bool) (c : Str) : List Str :=
  if IsAbs c then (if c.tail = [] then [] else elems c.tail)
  else if isBase ∧ c = ['.'] then [] else elems c

/-- Go `filepath.Rel(basepath, targpath)` on Unix; `none` is the error
result. -/
def Rel (basepath targpath : Str) : Option Str :=
  let base := Clean basepath
  let targ := Clean targpath
  if targ = base then some ['.']
  else if IsAbs base ≠ IsAbs targ then none
  else
    let bt := dropCommon (cleanElems true base) (cleanElems false targ)
    if bt.1.head? = some ['.', '.'] then none
    else if bt.1 ≠ [] then
      some (joinElems (bt.1.map (fun _ => ['.', '.']) ++ bt.2))
    else some (joinElems bt.2)

/-- Strip trailing separators. -/
def stripTrailing (p : Str) : Str :=
  (p.reverse.dropWhile (fun c => c == Separator)).reverse

/-- Go `filepath.Base` on Unix. -/
def Base (p : Str) : Str :=
  if p = [] then ['.']
  else
    let q := stripTrailing p
    let last := (q.reverse.takeWhile (fun c => c != Separator)).reverse
    if last = [] then [Separator] else last

/-- Worker of `Ext`: scan the reversed path; `acc` is the suffix read so far. -/
def extAux : Str → Str → Str
  | [], _ => []
  | c :: cs, acc =>
    if c = Separator then []
    else if c = '.' then c :: acc
    else extAux cs (c :: acc)

/-- Go `filepath.Ext`: the suffix from the last dot of the last element. -/
def Ext (p : Str) : Str := extAux p.reverse []

/-! ### `filepath.Match` -/

/-- Go `scanChunk`, the scan after the leading stars: split the pattern before
the first `*` that stands outside a character class. -/
def scanAux : Str → Bool → Str → Str × Str
  | [], _, acc => (acc.reverse, [])
  | '\\' :: c :: cs, inrange, acc => scanAux cs inrange (c :: '\\' :: acc)
  | '[' :: cs, _, acc => scanAux cs true ('[' :: acc)
  | ']' :: cs, _, acc => scanAux cs false (']' :: acc)
  | '*' :: cs, inrange, acc =>
    if inrange then scanAux cs inrange ('*' :: acc) else (acc.reverse, '*' :: cs)
  | c :: cs, inrange, acc => scanAux cs inrange (c :: acc)

/-- Go `scanChunk`: whether the chunk is preceded by stars, the chunk, and the
rest of the pattern. -/
def scanChunk (pattern : Str) : Bool × Str × Str :=
  let p := pattern.dropWhile (fun c => c == '*')
  (p.length < pattern.length, scanAux p false [])

/-- Go `getEsc`: one possibly escaped character of a character class and the
rest of the chunk; `none` is `ErrBadPattern`. -/
def getEsc : Str → Option (Char × Str)
  | [] => none
  | '-' :: _ => none
  | ']' :: _ => none
  | '\\' :: [] => none
  | '\\' :: _ :: [] => none
  | '\\' :: r :: c :: cs => some (r, c :: cs)
  | _ :: [] => none
  | r :: c :: cs => some (r, c :: cs)

/-- The range loop of a character class in `matchChunk`: whether `r` lies in
one of the ranges, and the chunk after the closing bracket; `none` is
`ErrBadPattern`. -/
def classLoop : Nat → Str → Char → Bool → Nat → Option (Bool × Str)
  | 0, _, _, _, _ => none
  | fuel + 1, chunk, r, found, nrange =>
    if chunk.head? = some ']' ∧ nrange > 0 then some (found, chunk.tail)
    else
      match getEsc chunk with
      | none => none
      | some (lo, chunk1) =>
        if chunk1.head? = some '-' then
          match getEsc chunk1.tail with
          | none => none
          | some (hi, chunk2) =>
            classLoop fuel chunk2 r (found || (lo.toNat ≤ r.toNat ∧ r.toNat ≤ hi.toNat))
              (nrange + 1)
        else
          classLoop fuel chunk1 r (found || lo = r) (nrange + 1)

/-- Go `matchChunk`: match a star-free chunk at the start of `s`.  `none` is
`ErrBadPattern`, `some none` a failed match, `some (some rest)` a match that
leaves `rest`. -/
def matchChunkAux : Nat → Str → Str → Bool → Option (Option Str)
  | 0, _, _, _ => none
  | _ + 1, [], s, failed => if failed then some none else some (some s)
  | fuel + 1, c :: chunk, s, failed0 =>
    let failed := failed0 || s.isEmpty
    if c = '[' then
      let r := if failed then Char.ofNat 0 else s.headD (Char.ofNat 0)
      let s1 := if failed then s else s.tail
      let negated := chunk.head? = some '^'
      let chunk1 := if negated then chunk.tail else chunk
      match classLoop (chunk1.length + 1) chunk1 r false 0 with
      | none => none
      | some (found, chunk2) =>
        matchChunkAux fuel chunk2 s1 (failed || (found == decide negated))
    else if c = '?' then
      if failed then matchChunkAux fuel chunk s failed
      else matchChunkAux fuel chunk s.tail (s.head? = some Separator)
    else if c = '\\' then
      match chunk with
      | [] => none
      | d :: chunk1 =>
        if failed then matchChunkAux fuel chunk1 s failed
        else matchChunkAux fuel chunk1 s.tail (s.head? ≠ some d)
    else
      if failed then matchChunkAux fuel chunk s failed
      else matchChunkAux fuel chunk s.tail (s.head? ≠ some c)

/-- Go `matchChunk`. -/
def matchChunk (chunk s : Str) : Option (Option Str) :=
  matchChunkAux (chunk.length + 1) chunk s false

/-- The loop of `Match` that, after a star, retries the chunk at each later
position of `name` up to the first separator.  The result is the rest of the
name after a match; `none` stands for every way the loop ends in `false`. -/
def starLoop (chunk : Str) (lastChunk : Bool) : Str → Option Str
  | [] => none
  | c :: cs =>
    if c = Separator then none
    else
      match matchChunk chunk cs with
      | none => none
      | some (some t) => if lastChunk ∧ t ≠ [] then starLoop chunk lastChunk cs else some t
      | some none => starLoop chunk lastChunk cs

/-- The chunk loop of `Match`. -/
def matchLoop : Nat → Str → Str → Bool
  | 0, _, _ => false
  | fuel + 1, pattern, name =>
    if pattern = [] then name = []
    else
      let sc := scanChunk pattern
      let star := sc.1
      let chunk := sc.2.1
      let rest := sc.2.2
      if star ∧ chunk = [] then !(name.contains Separator)
      else
        match matchChunk chunk name with
        | none => false
        | some r =>
          if r.isSome ∧ (r = some [] ∨ rest ≠ []) then matchLoop fuel rest (r.getD [])
          else if star then
            match starLoop chunk (rest = []) name with
            | none => false
            | some t => matchLoop fuel rest t
          else false

/-- Go `filepath.Match(pattern, name)`, as the test `err == nil && matched`
the filter applies to its two results. -/
def Match (pattern name : Str) : Bool :=
  matchLoop (pattern.length + 1) pattern name

end Filepath

/-! ## `internal/watcher/filter.go` -/

/-- A Go `map[string]bool`, as an association list with distinct keys. -/
abbrev BoolMap := List (Str × Bool)

namespace BoolMap

/-- Indexing `m[k]`: the stored value, or the zero value `false` for a
missing key. -/
def get : BoolMap → Str → Bool
  | [], _ => false
  | (k, v) :: m, key => if k = key then v else get m key

/-- Assignment `m[k] = v`. -/
def set : BoolMap → Str → Bool → BoolMap
  | [], key, v => [(key, v)]
  | (k, w) :: m, key, v => if k = key then (k, v) :: m else (k, w) :: set m key v

/-- The built-in `len(m)`. -/
def len (m : BoolMap) : Nat := m.length

end BoolMap

/-- The configuration a filter is built from. -/
structure FilterConfig where
  /-- File suffixes to accept, with or without the leading dot. -/
  Extensions : List Str
  /-- Directory names to reject. -/
  ExcludeDirs : List Str
  /-- Glob patterns of files to reject. -/
  ExcludeFiles : List Str
  /-- Base directory of relative paths. -/
  Root : Str

/-- The filter built by `NewFilter`. -/
structure filter where
  /-- Set of accepted suffixes, each starting with a dot. -/
  extensions : BoolMap
  /-- Set of rejected directory names. -/
  excludeDirs : BoolMap
  /-- Glob patterns of rejected files. -/
  excludeFiles : List Str
  /-- Base directory of relative paths. -/
  root : Str

/-- The body of the first loop of `NewFilter`: add the dot when missing. -/
def normExt (ext : Str) : Str :=
  if !GoStrings.HasPrefix ext ['.'] then '.' :: ext else ext

/-- `NewFilter`. -/
def NewFilter (cfg : FilterConfig) : filter :=
  { extensions := cfg.Extensions.foldl (fun m ext => BoolMap.set m (normExt ext) true) []
    excludeDirs := cfg.ExcludeDirs.foldl (fun m dir => BoolMap.set m dir true) []
    excludeFiles := cfg.ExcludeFiles
    root := cfg.Root }

namespace filter

/-- The loop of `isInExcludedDir` over the parts. -/
def anyExcludedPart (f : filter) : List Str → Bool
  | [] => false
  | part :: parts => if f.excludeDirs.get part then true else anyExcludedPart f parts

/-- `filter.isInExcludedDir`. -/
def isInExcludedDir (f : filter) (relPath : Str) : Bool :=
  anyExcludedPart f (GoStrings.Split (Filepath.ToSlash relPath) '/')

/-- The loop of `matchesExcludedFile` over the patterns. -/
def anyPattern (base relPath : Str) : List Str → Bool
  | [] => false
  | pattern :: patterns =>
    if Filepath.Match pattern base then true
    else if Filepath.Match pattern relPath then true
    else anyPattern base relPath patterns

/-- `filter.matchesExcludedFile`. -/
def matchesExcludedFile (f : filter) (relPath : Str) : Bool :=
  anyPattern (Filepath.Base relPath) relPath f.excludeFiles

/-- The path relative to the root that `Match` computes first. -/
def relPath (f : filter) (path : Str) : Str :=
  if f.root ≠ [] then
    match Filepath.Rel f.root path with
    | some rel => rel
    | none => path
  else path

/-- `filter.Match`. -/
def Match (f : filter) (path : Str) : Bool :=
  let relPath := f.relPath path
  if f.isInExcludedDir relPath then false
  else if f.matchesExcludedFile relPath then false
  else
    let ext := Filepath.Ext path
    if f.extensions.len > 0 ∧ !f.extensions.get ext then false
    else true

end filter

/-! ## The filter contract, in the words of the specification -/

/-- The path relative to the root: the path itself when the root is empty or
no relative path can be computed. -/
def rootRelative (root p : Str) : Str :=
  if root = [] then p else (Filepath.Rel root p).getD p

/-- No slash-separated segment of `rel` is an excluded directory name. -/
def noExcludedSegment (cfg : FilterConfig) (rel : Str) : Prop :=
  ∀ seg ∈ GoStrings.Split rel '/', seg ∉ cfg.ExcludeDirs

/-- No exclude pattern glob-matches the file name `base` or the path `rel`. -/
def noExcludedFile (cfg : FilterConfig) (base rel : Str) : Prop :=
  ∀ pat ∈ cfg.ExcludeFiles, Filepath.Match pat base = false ∧ Filepath.Match pat rel = false

/-- The extension list is empty or the suffix of `p` is one of the
dot-normalised extensions. -/
def extensionAccepted (cfg : FilterConfig) (p : Str) : Prop :=
  cfg.Extensions = [] ∨ Filepath.Ext p ∈ cfg.Extensions.map normExt

/-- The acceptance condition with the glob patterns tried on the basename of
the path itself. -/
def acceptedAsStated (cfg : FilterConfig) (p : Str) : Prop :=
  noExcludedSegment cfg (rootRelative cfg.Root p) ∧
  noExcludedFile cfg (Filepath.Base p) (rootRelative cfg.Root p) ∧
  extensionAccepted cfg p

/-- The acceptance condition with the glob patterns tried on the basename of
the root-relative path. -/
def accepted (cfg : FilterConfig) (p : Str) : Prop :=
  noExcludedSegment cfg (rootRelative cfg.Root p) ∧
  noExcludedFile cfg (Filepath.Base (rootRelative cfg.Root p)) (rootRelative cfg.Root p) ∧
  extensionAccepted cfg p

/-! ## `internal/runner/runner.go` and `process_unix.go` -/

namespace Filepath

/-- Go `filepath.Join` of two elements: the non-empty elements from the first
non-empty one on, joined by the separator and cleaned. -/
def Join (a b : Str) : Str :=
  if a ≠ [] then Clean (a ++ Separator :: b)
  else if b ≠ [] then Clean b
  else []

end Filepath

/-- A duration in nanoseconds, Go `time.Duration`. -/
abbrev Duration := Int

/-- Go `time.Millisecond`. -/
def Millisecond : Duration := 1000000

/-- Go `time.Second`. -/
def Second : Duration := 1000 * Millisecond

/-- The error of a context whose `Done` channel is closed. -/
inductive CtxErr where
  | Canceled
  | DeadlineExceeded
  deriving DecidableEq, Repr

/-- The errors the runner returns. -/
inductive RunnerErr where
  /-- `process already running`. -/
  | alreadyRunning
  /-- `binary not found: <path>`. -/
  | binaryNotFound (binPath : Str)
  /-- `start process: <err>`. -/
  | startProcess
  /-- `process did not exit after SIGKILL`. -/
  | didNotExit
  /-- The error of the context, `ctx.Err()`. -/
  | ctx (e : CtxErr)
  deriving DecidableEq, Repr

/-- Where the output of the child goes. -/
inductive Writer where
  | osStdout
  | osStderr
  | custom (id : Nat)
  deriving DecidableEq, Repr

/-- A started process, `os.Process`. -/
structure Process where
  /-- Process id. -/
  Pid : Nat
  deriving DecidableEq, Repr

/-- The fields of `exec.Cmd` the runner sets, and the process once started. -/
structure Cmd where
  /-- Path of the executable. -/
  Path : Str
  /-- Arguments after the executable. -/
  Args : List Str
  /-- Working directory. -/
  Dir : Str
  /-- Standard output. -/
  Stdout : Option Writer
  /-- Standard error. -/
  Stderr : Option Writer
  /-- `SysProcAttr.Setpgid`: run the child in a process group of its own. -/
  Setpgid : Bool
  /-- The process, set by a successful `Start`. -/
  Process : Option Process
  deriving DecidableEq, Repr

namespace Runner

/-- The runner configuration. -/
structure Config where
  /-- Path of the binary, absolute or relative to `Root`. -/
  Bin : Str
  /-- Arguments of the binary. -/
  Args : List Str
  /-- Working directory and base of a relative `Bin`. -/
  Root : Str
  /-- Time between the interrupt and the kill. -/
  KillDelay : Duration
  /-- Standard output of the child, `nil` for the default. -/
  Stdout : Option Writer
  /-- Standard error of the child, `nil` for the default. -/
  Stderr : Option Writer
  deriving DecidableEq, Repr

/-- The runner state.  The channel `done` is `none` when nil, `some false`
when open and `some true` once closed. -/
structure runner where
  /-- Configuration. -/
  cfg : Config
  /-- The command of the last spawn attempt. -/
  cmd : Option Cmd
  /-- Whether a child is running. -/
  running : Bool
  /-- The channel closed when the child has exited. -/
  done : Option Bool
  deriving DecidableEq, Repr

/-- Result of `os.Stat`, as far as `os.IsNotExist` tells. -/
inductive StatResult where
  | found
  | notExist
  | otherError
  deriving DecidableEq, Repr

/-- The operating system as `Start` sees it: the file system and the outcome
of spawning a command (`none` when `cmd.Start()` fails). -/
structure OS where
  /-- `os.Stat`. -/
  stat : Str → StatResult
  /-- `cmd.Start()`: the pid of the new process. -/
  spawn : Cmd → Option Nat

/-- Result of a `kill(2)` call. -/
inductive Errno where
  | ok
  | ESRCH
  | other
  deriving DecidableEq, Repr

/-- Signals the runner sends. -/
inductive Signal where
  | SIGINT
  | SIGKILL
  deriving DecidableEq, Repr

/-- What the runner does to the outside world. -/
inductive Effect where
  /-- A process was started from the command. -/
  | spawn (c : Cmd)
  /-- The call `syscall.Kill(-pid, sig)` on the process group. -/
  | killGroup (pid : Nat) (sig : Signal)
  /-- The call `proc.Signal(os.Interrupt)` on the single process. -/
  | signalProcess (pid : Nat) (sig : Signal)
  /-- The call `proc.Kill()` on the single process. -/
  | killProcess (pid : Nat)
  deriving DecidableEq, Repr

/-- `New`. -/
def New (cfg : Config) : runner :=
  let cfg1 := if cfg.Stdout = none then { cfg with Stdout := some Writer.osStdout } else cfg
  let cfg2 := if cfg1.Stderr = none then { cfg1 with Stderr := some Writer.osStderr } else cfg1
  { cfg := cfg2, cmd := none, running := false, done := none }

/-- What a runner method returns: the error (`none` is nil), the state it
leaves and the effects it had, in order. -/
structure Outcome where
  /-- The returned error. -/
  err : Option RunnerErr
  /-- The runner state at return. -/
  state : runner
  /-- Effects, first one first. -/
  effects : List Effect
  deriving DecidableEq, Repr

/-- The binary path `Start` resolves. -/
def binPath (cfg : Config) : Str :=
  if !Filepath.IsAbs cfg.Bin then Filepath.Join cfg.Root cfg.Bin else cfg.Bin

/-- `runner.Start`. -/
def Start (os : OS) (r : runner) : Outcome :=
  if r.running then ⟨some RunnerErr.alreadyRunning, r, []⟩
  else
    let binPath := binPath r.cfg
    if os.stat binPath = StatResult.notExist then
      ⟨some (RunnerErr.binaryNotFound binPath), r, []⟩
    else
      let cmd : Cmd :=
        { Path := binPath, Args := r.cfg.Args, Dir := r.cfg.Root,
          Stdout := r.cfg.Stdout, Stderr := r.cfg.Stderr, Setpgid := true, Process := none }
      match os.spawn cmd with
      | none => ⟨some RunnerErr.startProcess, { r with cmd := some cmd }, []⟩
      | some pid =>
        let started := { cmd with Process := some ⟨pid⟩ }
        ⟨none, { r with cmd := some started, running := true, done := some false },
          [Effect.spawn started]⟩

/-- `runner.wait`, the part under the lock, run by the reaper goroutine once
the child has exited: `none` is the panic of closing a closed channel. -/
def wait (r : runner) : Option runner :=
  match r.done with
  | none => some { r with running := false }
  | some false => some { r with running := false, done := some true }
  | some true => none

/-- `interruptProcess`: SIGINT to the process group, then to the process alone
when the first call fails with anything but ESRCH. -/
def interruptProcess (proc : Process) (res : Errno) : List Effect :=
  if res = Errno.other then
    [Effect.killGroup proc.Pid Signal.SIGINT, Effect.signalProcess proc.Pid Signal.SIGINT]
  else [Effect.killGroup proc.Pid Signal.SIGINT]

/-- `killProcess`: SIGKILL to the process group, and `proc.Kill()` on every
path. -/
def killProcess (proc : Process) (res : Errno) : List Effect :=
  if res = Errno.other then
    [Effect.killGroup proc.Pid Signal.SIGKILL, Effect.killProcess proc.Pid]
  else [Effect.killGroup proc.Pid Signal.SIGKILL, Effect.killProcess proc.Pid]

/-- The case a `select` of `Stop` takes: the done channel, the timer or the
context. -/
inductive Wake where
  | done
  | timer
  | cancel (e : CtxErr)
  deriving DecidableEq, Repr

/-- What happens around one call of `Stop`: the results of the two group
kills and the cases the two selects take. -/
structure StopEnv where
  /-- Result of the SIGINT to the group. -/
  intr : Errno
  /-- Result of the SIGKILL to the group. -/
  kill : Errno
  /-- Case taken by the first select. -/
  first : Wake
  /-- Case taken by the second select. -/
  second : Wake
  deriving DecidableEq, Repr

/-- The kill delay `Stop` waits: the configured one, or 500 ms when that is
not positive. -/
def killDelay (cfg : Config) : Duration :=
  if cfg.KillDelay ≤ 0 then 500 * Millisecond else cfg.KillDelay

/-- `runner.Stop`. -/
def Stop (r : runner) (env : StopEnv) : Outcome :=
  match r.running, r.cmd with
  | true, some cmd =>
    match cmd.Process with
    | none => ⟨none, r, []⟩
    | some proc =>
      let e1 := interruptProcess proc env.intr
      match env.first with
      | Wake.done => ⟨none, r, e1⟩
      | Wake.cancel e => ⟨some (RunnerErr.ctx e), r, e1 ++ killProcess proc env.kill⟩
      | Wake.timer =>
        let e2 := e1 ++ killProcess proc env.kill
        match env.second with
        | Wake.done => ⟨none, r, e2⟩
        | Wake.timer => ⟨some RunnerErr.didNotExit, r, e2⟩
        | Wake.cancel e => ⟨some (RunnerErr.ctx e), r, e2⟩
  | _, _ => ⟨none, r, []⟩

/-- `runner.Running`. -/
def Running (r : runner) : Bool := r.running

/-- The case a `select` over the done channel, a timer and the context takes,
from the instants (after the select starts) at which the channel is closed
and the context is done, `none` for never.  Cases ready at the same instant
are tried in source order. -/
def selectWake (doneAt : Option Duration) (timer : Duration)
    (cancelAt : Option (Duration × CtxErr)) : Wake :=
  let d := doneAt.getD (timer + 1)
  match cancelAt with
  | none => if d ≤ timer then Wake.done else Wake.timer
  | some (c, e) =>
    if d ≤ timer ∧ d ≤ c then Wake.done
    else if timer ≤ c then Wake.timer
    else Wake.cancel e

/-- The two selects of `Stop` on a time line that starts with the call: the
child exits at `doneAt`, the context is done at `cancelAt`. -/
def timedEnv (cfg : Config) (intr kill : Errno) (doneAt : Option Duration)
    (cancelAt : Option (Duration × CtxErr)) : StopEnv :=
  let t1 := killDelay cfg
  { intr := intr, kill := kill,
    first := selectWake doneAt t1 cancelAt,
    second := selectWake (doneAt.map (fun d => d - t1)) Second
      (cancelAt.map (fun c => (c.1 - t1, c.2))) }

/-- The states a runner goes through: `New`, then any sequence of `Start`,
`Stop` and of the reaper's `wait`.  A reaper goroutine is started by each
successful `Start` and runs `wait` once, so one is pending exactly while
`running` is set. -/
inductive Reachable : runner → Prop where
  | new (cfg : Config) : Reachable (New cfg)
  | start (os : OS) (r : runner) : Reachable r → Reachable (Start os r).state
  | stop (r : runner) (env : StopEnv) : Reachable r → Reachable (Stop r env).state
  | reap (r r1 : runner) : Reachable r → r.running = true → wait r = some r1 → Reachable r1

/-- The invariant of the specification: running exactly when a command is
held, and not running once the done channel is closed. -/
def invariantAsStated (r : runner) : Prop :=
  (r.running = true ↔ r.cmd ≠ none) ∧ (r.done = some true → r.running = false)

/-- The invariant the code keeps: while running, the command of a started
process is held and the done channel is open. -/
def invariant (r : runner) : Prop :=
  r.running = true → (∃ c p, r.cmd = some c ∧ c.Process = some p) ∧ r.done = some false

/-- Whether an effect is a forced kill. -/
def Effect.isKill : Effect → Bool
  | Effect.killGroup _ Signal.SIGKILL => true
  | Effect.killProcess _ => true
  | _ => false

/-- A sample configuration: the binary `/bin/app` with a kill delay of
500 ms. -/
def sampleConfig : Config :=
  { Bin := "/bin/app".toList, Args := [], Root := "/srv".toList,
    KillDelay := 500 * Millisecond, Stdout := none, Stderr := none }

/-- A system where every file exists and every spawn gives process 42. -/
def sampleOS : OS := { stat := fun _ => StatResult.found, spawn := fun _ => some 42 }

/-- A system where every file exists and no spawn succeeds. -/
def failingOS : OS := { stat := fun _ => StatResult.found, spawn := fun _ => none }

/-- The sample runner after a successful `Start`. -/
def sampleStarted : runner := (Start sampleOS (New sampleConfig)).state

end Runner

/-! ## `internal/watcher/watcher.go`: events -/

namespace Watcher

/-- The operation of an event, `watcher.Op`. -/
inductive Op where
  | OpCreate
  | OpWrite
  | OpRemove
  | OpRename
  | OpChmod
  deriving DecidableEq, Repr, Inhabited

/-- An instant, `time.Time`. -/
abbrev Time := Nat

/-- A file system event, `watcher.Event`. -/
structure Event where
  /-- Path of the file. -/
  Path : Str
  /-- What happened to it. -/
  Op : Op
  /-- When the watcher saw it. -/
  Time : Time
  deriving DecidableEq, Repr, Inhabited

/-- An `fsnotify.Op`: a set of the bits Create 1, Write 2, Remove 4,
Rename 8 and Chmod 16. -/
abbrev RawOp := Nat

/-- The bit `fsnotify.Create`. -/
def fsCreate : RawOp := 1

/-- The bit `fsnotify.Write`. -/
def fsWrite : RawOp := 2

/-- The bit `fsnotify.Remove`. -/
def fsRemove : RawOp := 4

/-- The bit `fsnotify.Rename`. -/
def fsRename : RawOp := 8

/-- The bit `fsnotify.Chmod`. -/
def fsChmod : RawOp := 16

/-- The test `fsnotify.Op.Has`, here only ever asked for one bit. -/
def Has (o h : RawOp) : Bool := o &&& h == h

/-- An `fsnotify.Event`. -/
structure RawEvent where
  /-- Path of the file. -/
  Name : Str
  /-- Operations that triggered the event. -/
  Op : RawOp
  deriving DecidableEq, Repr

/-- `convertOp`. -/
def convertOp (op : RawOp) : Op :=
  if Has op fsCreate then Op.OpCreate
  else if Has op fsWrite then Op.OpWrite
  else if Has op fsRemove then Op.OpRemove
  else if Has op fsRename then Op.OpRename
  else if Has op fsChmod then Op.OpChmod
  else Op.OpWrite

/-- The watcher configuration. -/
structure Config where
  /-- Directories to watch. -/
  Dirs : List Str
  /-- The filter, `none` for nil. -/
  Filter : Option filter
  /-- The debounce window. -/
  Debounce : Duration
  /-- Base of relative directories. -/
  Root : Str
  /-- Directory names not to watch. -/
  ExcludeDirs : List Str

/-- The loop of `isExcludedDir`. -/
def anyExcluded (base : Str) : List Str → Bool
  | [] => false
  | excluded :: rest => if base = excluded then true else anyExcluded base rest

/-- `watcher.isExcludedDir`. -/
def isExcludedDir (cfg : Config) (path : Str) : Bool :=
  anyExcluded (Filepath.Base path) cfg.ExcludeDirs

/-- The `pendingEvents` map, a Go `map[string]Event`, as an association list
with distinct keys.  Ranging over the map goes through the list in order,
one of the orders Go may choose. -/
abbrev Pending := List (Str × Event)

/-- Assignment `m[k] = v`. -/
def Pending.set : Pending → Str → Event → Pending
  | [], key, v => [(key, v)]
  | (k, w) :: m, key, v => if k = key then (k, v) :: m else (k, w) :: Pending.set m key v

/-- Lookup `m[k]` with its presence flag. -/
def Pending.find? : Pending → Str → Option Event
  | [], _ => none
  | (k, v) :: m, key => if k = key then some v else Pending.find? m key

/-- Every entry is stored under the path of its event. -/
def Pending.WellKeyed (m : Pending) : Prop := ∀ kv ∈ m, kv.2.Path = kv.1

/-- Capacity of the outbound event channel. -/
def eventsCap : Nat := 100

/-- What the event loop holds and acts on. -/
structure LoopState where
  /-- The pending events by path. -/
  pending : Pending
  /-- The duration the debounce timer was last armed with, `none` while the
  timer is nil. -/
  debounceTimer : Option Duration
  /-- The buffer of the outbound channel `w.events`, oldest first. -/
  events : List Event
  /-- The paths added to the OS subscription by the loop. -/
  added : List Str
  /-- Whether the debounce timer is armed and has neither fired nor been
  stopped. -/
  timerActive : Bool

/-- The debounce window of the loop: 100 ms when none is configured. -/
def debounce (cfg : Config) : Duration :=
  if cfg.Debounce ≤ 0 then 100 * Millisecond else cfg.Debounce

/-- The non-blocking send `select { case w.events <- evt: default: }`. -/
def trySend (ch : List Event) (evt : Event) : List Event :=
  if ch.length < eventsCap then ch ++ [evt] else ch

/-- The closure `flushEvents` of `loop`. -/
def flushEvents (st : LoopState) : LoopState :=
  { st with
    events := st.pending.foldl (fun ch kv => trySend ch kv.2) st.events
    pending := [] }

/-- The case `event, ok := <-w.fw.Events` of `loop` for a received event:
`isDir` tells whether `os.Stat` finds a directory, `now` is `time.Now()`. -/
def handleEvent (cfg : Config) (isDir : Str → Bool) (st : LoopState) (event : RawEvent)
    (now : Time) : LoopState :=
  if (match cfg.Filter with
      | some f => !f.Match event.Name
      | none => false) then st
  else
    let added :=
      if Has event.Op fsCreate then
        if isDir event.Name then
          if !isExcludedDir cfg event.Name then st.added ++ [event.Name] else st.added
        else st.added
      else st.added
    let op := convertOp event.Op
    { st with
      pending := st.pending.set event.Name ⟨event.Name, op, now⟩
      debounceTimer := some (debounce cfg)
      added := added
      timerActive := true }

/-- The loop over a sequence of received events with the instants at which
they are handled. -/
def handleEvents (cfg : Config) (isDir : Str → Bool) (st : LoopState)
    (evs : List (RawEvent × Time)) : LoopState :=
  evs.foldl (fun st ev => handleEvent cfg isDir st ev.1 ev.2) st

/-- Whether the filter lets an event through. -/
def accepts (cfg : Config) (event : RawEvent) : Bool :=
  match cfg.Filter with
  | none => true
  | some f => f.Match event.Name

/-- The event the loop stores for a raw event handled at `now`. -/
def toEvent (ev : RawEvent × Time) : Event := ⟨ev.1.Name, convertOp ev.1.Op, ev.2⟩

/-- The last raw event received for a path. -/
def lastFor (p : Str) (evs : List (RawEvent × Time)) : Option (RawEvent × Time) :=
  (evs.filter (fun ev => ev.1.Name = p)).getLast?

/-- The events a flush puts on the outbound channel. -/
def emitted (st : LoopState) : List Event :=
  (flushEvents st).events.drop st.events.length

/-- A watcher configuration filtering for `.go` files below `/srv`. -/
def sampleConfig : Config :=
  { Dirs := [".".toList]
    Filter := some (NewFilter ⟨[".go".toList], ["tmp".toList], [], "/srv".toList⟩)
    Debounce := 200 * Millisecond, Root := "/srv".toList, ExcludeDirs := ["tmp".toList] }

/-- The loop state at the start of `loop`. -/
def initialState : LoopState :=
  { pending := [], debounceTimer := none, events := [], added := [], timerActive := false }

/-- The statement `if debounceTimer != nil { debounceTimer.Stop() }`. -/
def stopTimer (st : LoopState) : LoopState :=
  match st.debounceTimer with
  | some _ => { st with timerActive := false }
  | none => st

/-- The cases of the select of `loop` that end it. -/
inductive Shutdown where
  /-- The case `<-ctx.Done()`: the cancel token fired. -/
  | ctxDone
  /-- The case `<-w.done`: `Close` was called. -/
  | closed
  /-- The channel `w.fw.Events` is closed. -/
  | rawEventsClosed
  /-- The channel `w.fw.Errors` is closed. -/
  | rawErrorsClosed
  deriving DecidableEq, Repr

/-- The state `loop` leaves when it returns. -/
def shutdown (st : LoopState) : Shutdown → LoopState
  | Shutdown.ctxDone => flushEvents (stopTimer st)
  | Shutdown.closed => stopTimer st
  | Shutdown.rawEventsClosed => st
  | Shutdown.rawErrorsClosed => st

/-- A file system entry as `filepath.Walk` meets it. -/
inductive Node where
  /-- A regular file (anything that is no directory). -/
  | file : Node
  /-- An entry whose `Lstat`, or a directory whose listing, fails with the
  error `e`. -/
  | failing (e : Nat) : Node
  /-- A directory with its entries in the order `Walk` reads them. -/
  | dir (entries : List (Str × Node)) : Node

/-- The errors `addRecursive` returns. -/
inductive WalkErr where
  /-- The error `Walk` passes to the walk function. -/
  | fs (e : Nat)
  /-- `add <path> to watcher: <cause>`. -/
  | add (path : Str) (e : Nat)
  deriving DecidableEq, Repr

/-- What the walk function returns. -/
inductive WalkResult where
  | ok
  | skipDir
  | err (e : WalkErr)
  deriving DecidableEq, Repr

/-- The errors of `Start` and `Close`. -/
inductive WatcherErr where
  /-- `watcher already started`. -/
  | alreadyStarted
  /-- `add watch directory <dir>: <cause>`. -/
  | addWatchDir (dir : Str) (cause : WalkErr)
  /-- The error of closing the OS subscription. -/
  | fwClose (e : Nat)
  deriving DecidableEq, Repr

/-- The error `fsnotify` gives for a closed watcher, `ErrClosed`. -/
def ErrClosed : Nat := 0

/-- The operating system under the watcher. -/
structure World where
  /-- What `Lstat` and the directory listings find from a path given to
  `Walk`. -/
  fs : Str → Node
  /-- The error of adding an OS watch on a path, nil on success. -/
  addErr : Str → Option Nat
  /-- The error of closing the OS subscription, nil on success. -/
  closeErr : Option Nat

/-- The watcher state.  The `fsnotify` watcher `fw` is the list of the watched
paths and a closed flag; `Add` on a closed one fails with `ErrClosed`, and
`Close` on a closed one returns nil. -/
structure watcher where
  /-- Configuration. -/
  cfg : Config
  /-- The `started` flag. -/
  started : Bool
  /-- Whether the channel `done` is closed. -/
  doneClosed : Bool
  /-- How often `close(w.done)` has run. -/
  doneCloses : Nat
  /-- Whether `fw` is closed. -/
  fwClosed : Bool
  /-- The paths added to `fw`, in order. -/
  watched : List Str
  /-- How many event loops have been launched. -/
  loops : Nat

/-- `New`, when the `fsnotify` watcher can be made. -/
def New (cfg : Config) : watcher :=
  { cfg := cfg, started := false, doneClosed := false, doneCloses := 0, fwClosed := false,
    watched := [], loops := 0 }

/-- The call `w.fw.Add(path)`. -/
def fwAdd (world : World) (w : watcher) (path : Str) : Option Nat × watcher :=
  if w.fwClosed then (some ErrClosed, w)
  else
    match world.addErr path with
    | some e => (some e, w)
    | none => (none, { w with watched := w.watched ++ [path] })

/-- The walk function of `addRecursive`, called on `path` with the entry
found there. -/
def walkFn (world : World) (path : Str) (node : Node) (w : watcher) : WalkResult × watcher :=
  match node with
  | Node.failing e => (WalkResult.err (WalkErr.fs e), w)
  | Node.file => (WalkResult.ok, w)
  | Node.dir _ =>
    if isExcludedDir w.cfg path then (WalkResult.skipDir, w)
    else
      match fwAdd world w path with
      | (some e, w1) => (WalkResult.err (WalkErr.add path e), w1)
      | (none, w1) => (WalkResult.ok, w1)

mutual
/-- The function `walk` of `path/filepath`: the walk function on the entry,
then on the entries of a directory unless it said otherwise. -/
def walk (world : World) (path : Str) : Node → watcher → WalkResult × watcher
  | Node.dir entries, w =>
    match walkFn world path (Node.dir entries) w with
    | (WalkResult.ok, w1) => walkEntries world path entries w1
    | r => r
  | Node.file, w => walkFn world path Node.file w
  | Node.failing e, w => walkFn world path (Node.failing e) w
/-- The loop of `walk` over the entries of the directory `path`: an error
ends the walk, `SkipDir` from a directory only skips it. -/
def walkEntries (world : World) (path : Str) :
    List (Str × Node) → watcher → WalkResult × watcher
  | [], w => (WalkResult.ok, w)
  | (name, Node.dir entries) :: rest, w =>
    match walk world (Filepath.Join path name) (Node.dir entries) w with
    | (WalkResult.err e, w1) => (WalkResult.err e, w1)
    | (_, w1) => walkEntries world path rest w1
  | (name, Node.file) :: rest, w =>
    match walk world (Filepath.Join path name) Node.file w with
    | (WalkResult.ok, w1) => walkEntries world path rest w1
    | r => r
  | (name, Node.failing e) :: rest, w =>
    match walk world (Filepath.Join path name) (Node.failing e) w with
    | (WalkResult.ok, w1) => walkEntries world path rest w1
    | (WalkResult.skipDir, w1) => walkEntries world path rest w1
    | r => r
end

/-- `watcher.addRecursive`: `filepath.Walk` from `root`; `SkipDir` for the
root itself is no error. -/
def addRecursive (world : World) (root : Str) (w : watcher) : Option WalkErr × watcher :=
  match walk world root (world.fs root) w with
  | (WalkResult.err e, w1) => (some e, w1)
  | (_, w1) => (none, w1)

/-- The directory `Start` walks for a configured one. -/
def watchDir (cfg : Config) (dir : Str) : Str :=
  if !Filepath.IsAbs dir ∧ cfg.Root ≠ [] then Filepath.Join cfg.Root dir else dir

/-- The loop of `Start` over the configured directories. -/
def addDirs (world : World) : List Str → watcher → Option WatcherErr × watcher
  | [], w => (none, w)
  | dir :: rest, w =>
    match addRecursive world (watchDir w.cfg dir) w with
    | (some e, w1) => (some (WatcherErr.addWatchDir (watchDir w.cfg dir) e), w1)
    | (none, w1) => addDirs world rest w1

/-- `watcher.Start`. -/
def Start (world : World) (w : watcher) : Option WatcherErr × watcher :=
  if w.started then (some WatcherErr.alreadyStarted, w)
  else
    match addDirs world w.cfg.Dirs { w with started := true } with
    | (some e, w1) => (some e, w1)
    | (none, w1) => (none, { w1 with loops := w1.loops + 1 })

/-- `watcher.Close`. -/
def Close (world : World) (w : watcher) : Option WatcherErr × watcher :=
  let w1 :=
    if w.doneClosed then w
    else { w with doneClosed := true, doneCloses := w.doneCloses + 1 }
  if w1.fwClosed then (none, w1)
  else (world.closeErr.map WatcherErr.fwClose, { w1 with fwClosed := true })

mutual
/-- Whether the walk from the entry found at `path` meets no failing entry:
what lies below a directory with an excluded basename is not read. -/
def Node.walkable (cfg : Config) (path : Str) : Node → Bool
  | Node.file => true
  | Node.failing _ => false
  | Node.dir entries => isExcludedDir cfg path || walkableEntries cfg path entries
/-- Whether the walk meets no failing entry from any of the entries of the
directory `path`. -/
def walkableEntries (cfg : Config) (path : Str) : List (Str × Node) → Bool
  | [] => true
  | (name, n) :: rest =>
    n.walkable cfg (Filepath.Join path name) && walkableEntries cfg path rest
end

/-- The directories at or below the directory `node` at `path` that are reached
without entering a directory whose basename is excluded, `path` included. -/
inductive Reach (cfg : Config) : Str → Node → Str → Prop where
  | self (path : Str) (entries : List (Str × Node)) :
    Filepath.Base path ∉ cfg.ExcludeDirs → Reach cfg path (Node.dir entries) path
  | inside (path : Str) (entries : List (Str × Node)) (name : Str) (child : Node) (q : Str) :
    Filepath.Base path ∉ cfg.ExcludeDirs → (name, child) ∈ entries →
    Reach cfg (Filepath.Join path name) child q → Reach cfg path (Node.dir entries) q

/-- The second watcher is the first but for the watched paths. -/
def watcher.SameBut (w w1 : watcher) : Prop := w1 = { w with watched := w1.watched }

/-- The watcher with the paths `l` added to the watched ones. -/
def watcher.adding (w : watcher) (l : List Str) : watcher :=
  { w with watched := w.watched ++ l }

/-- A tree: `/srv` with a file, the directory `pkg` holding a file and the
directory `tmp` holding a directory, an entry that cannot be read and a
file. -/
def sampleTree : Node :=
  Node.dir
    [("main.go".toList, Node.file),
      ("pkg".toList, Node.dir [("a.go".toList, Node.file)]),
      ("tmp".toList,
        Node.dir [("cache".toList, Node.dir []), ("lock".toList, Node.failing 13),
          ("main".toList, Node.file)])]

/-- A world with the sample tree under every path and no failing call. -/
def sampleWorld : World :=
  { fs := fun _ => sampleTree, addErr := fun _ => none, closeErr := none }

/-- A tree: the directories `a` and `z` with the entry `bad`, which cannot be
read, between them. -/
def brokenTree : Node :=
  Node.dir
    [("a".toList, Node.dir []), ("bad".toList, Node.failing 13), ("z".toList, Node.dir [])]

/-- A world with the broken tree under every path and no failing call. -/
def brokenWorld : World :=
  { fs := fun _ => brokenTree, addErr := fun _ => none, closeErr := none }

/-- A tree: the directories `a`, `b` and `z`. -/
def plainTree : Node :=
  Node.dir [("a".toList, Node.dir []), ("b".toList, Node.dir []), ("z".toList, Node.dir [])]

/-- A world with the plain tree under every path where the watch on `/srv/b`
is refused with the error 28. -/
def refusingWorld : World :=
  { fs := fun _ => plainTree
    addErr := fun p => if p = "/srv/b".toList then some 28 else none
    closeErr := none }

/-- The single operations in priority order, each with the position of its
bit in an `fsnotify.Op`. -/
def opPriority : List (Nat × Op) :=
  [(0, Op.OpCreate), (1, Op.OpWrite), (2, Op.OpRemove), (3, Op.OpRename), (4, Op.OpChmod)]

/-- The first operation in priority order whose bit is set, Write when none
is. -/
def highestPriority (op : RawOp) : Op :=
  ((opPriority.find? (fun e => op.testBit e.1)).map Prod.snd).getD Op.OpWrite

/-- A loop state with one pending write of `/srv/a.go`, an armed timer and an
empty outbound channel. -/
def onePending : LoopState :=
  { pending := [("/srv/a.go".toList, ⟨"/srv/a.go".toList, Op.OpWrite, 7⟩)]
    debounceTimer := some (200 * Millisecond), events := [], added := [], timerActive := true }

end Watcher

/-! ## `internal/builder/builder.go` -/

namespace Builder

/-- The double quote character. -/
def doubleQuote : Char := Char.ofNat 34

/-- The single quote character. -/
def singleQuote : Char := Char.ofNat 39

/-- The loop variables of `parseCommand`. -/
structure ParseState where
  /-- The arguments completed so far. -/
  args : List Str
  /-- The argument being read. -/
  current : Str
  /-- Whether the loop is inside a quoted span. -/
  inQuote : Bool
  /-- The quote that opened the span, `rune(0)` outside. -/
  quoteChar : Char
  deriving DecidableEq, Repr

/-- The loop variables before the first character. -/
def ParseState.init : ParseState :=
  { args := [], current := [], inQuote := false, quoteChar := Char.ofNat 0 }

/-- Outside quotes the loop holds `rune(0)` as quote character. -/
def ParseState.Settled (st : ParseState) : Prop :=
  st.inQuote = false → st.quoteChar = Char.ofNat 0

/-- The body of the loop of `parseCommand` for the character `r`. -/
def parseStep (st : ParseState) (r : Char) : ParseState :=
  if r = doubleQuote ∨ r = singleQuote then
    if st.inQuote ∧ r = st.quoteChar then { st with inQuote := false, quoteChar := Char.ofNat 0 }
    else if !st.inQuote then { st with inQuote := true, quoteChar := r }
    else { st with current := st.current ++ [r] }
  else if r = ' ' ∧ !st.inQuote then
    if st.current.length > 0 then { st with args := st.args ++ [st.current], current := [] }
    else st
  else { st with current := st.current ++ [r] }

/-- The end of `parseCommand`: the argument being read is kept when it is not
empty. -/
def finish (st : ParseState) : List Str :=
  if st.current.length > 0 then st.args ++ [st.current] else st.args

/-- `parseCommand`. -/
def parseCommand (cmd : Str) : List Str :=
  finish (cmd.foldl parseStep ParseState.init)

/-- Whether the string ends inside a quoted span: an opening quote has no
closing one. -/
def endsInQuote (cmd : Str) : Bool := (cmd.foldl parseStep ParseState.init).inQuote

/-- The builder configuration. -/
structure Config where
  /-- The build command line. -/
  Cmd : Str
  /-- Path of the built binary. -/
  Bin : Str
  /-- Directory to create before building. -/
  TmpDir : Str
  /-- Working directory of the build. -/
  Root : Str
  deriving DecidableEq, Repr

/-- The errors in a build result. -/
inductive BuildErr where
  /-- `create tmp dir: <cause>`. -/
  | createTmpDir (cause : Nat)
  /-- `empty build command`. -/
  | emptyCommand
  /-- The error of the context, `ctx.Err()`. -/
  | ctx (e : CtxErr)
  /-- `build failed: <cause>`. -/
  | buildFailed (cause : Nat)
  deriving DecidableEq, Repr

/-- The outcome of a build, `builder.Result`. -/
structure Result where
  /-- Whether the build succeeded. -/
  Success : Bool
  /-- Captured output. -/
  Output : Str
  /-- Elapsed time. -/
  Duration : Duration
  /-- The error, nil on success. -/
  Error : Option BuildErr
  deriving DecidableEq, Repr

/-- What `cmd.Run()` leaves: its error and the two captured streams. -/
structure RunResult where
  /-- The error of `Run`, nil when the child exited with status 0. -/
  err : Option Nat
  /-- What the child wrote to standard output. -/
  stdout : Str
  /-- What the child wrote to standard error. -/
  stderr : Str
  deriving DecidableEq, Repr

/-- The command `Build` runs. -/
structure Command where
  /-- The program, `args[0]`. -/
  name : Str
  /-- Its arguments, `args[1:]`. -/
  args : List Str
  /-- The working directory. -/
  dir : Str
  deriving DecidableEq, Repr

/-- The world around one call of `Build`. -/
structure Env where
  /-- `os.MkdirAll`: the error, nil on success. -/
  mkdirAll : Str → Option Nat
  /-- `cmd.Run()` of a command. -/
  run : Command → RunResult
  /-- `ctx.Err()` once the command has run. -/
  ctxErr : Option CtxErr
  /-- `time.Since(start)` where the result is made. -/
  since : Duration

/-- The directory `ensureTmpDir` creates. -/
def tmpDirPath (cfg : Config) : Str :=
  if !Filepath.IsAbs cfg.TmpDir then Filepath.Join cfg.Root cfg.TmpDir else cfg.TmpDir

/-- `builder.ensureTmpDir`. -/
def ensureTmpDir (env : Env) (cfg : Config) : Option Nat :=
  env.mkdirAll (tmpDirPath cfg)

/-- The output `Build` makes of the two streams. -/
def combineOutput (stdout stderr : Str) : Str :=
  if stderr.length > 0 then
    (if stdout ≠ [] then stdout ++ ['\n'] else stdout) ++ stderr
  else stdout

/-- `builder.Build`: the result and the commands it has run. -/
def Build (env : Env) (cfg : Config) : Result × List Command :=
  match ensureTmpDir env cfg with
  | some err =>
    (⟨false, [], env.since, some (BuildErr.createTmpDir err)⟩, [])
  | none =>
    match parseCommand cfg.Cmd with
    | [] => (⟨false, [], env.since, some BuildErr.emptyCommand⟩, [])
    | name :: args =>
      let cmd : Command := ⟨name, args, cfg.Root⟩
      let r := env.run cmd
      let output := combineOutput r.stdout r.stderr
      match r.err with
      | some err =>
        if env.ctxErr = some CtxErr.Canceled then
          (⟨false, output, env.since, some (BuildErr.ctx CtxErr.Canceled)⟩, [cmd])
        else
          (⟨false, output, env.since, some (BuildErr.buildFailed err)⟩, [cmd])
      | none => (⟨true, output, env.since, none⟩, [cmd])

/-- The output as the specification words it: stdout alone, stderr alone, or
stdout, one newline, stderr. -/
def specOutput (stdout stderr : Str) : Str :=
  if stderr = [] then stdout
  else if stdout = [] then stderr
  else stdout ++ '\n' :: stderr

/-- A world where the child is killed at the deadline of the context: the
command fails and `ctx.Err()` is `DeadlineExceeded`. -/
def deadlineEnv : Env :=
  { mkdirAll := fun _ => none, run := fun _ => ⟨some 9, "partial".toList, []⟩,
    ctxErr := some CtxErr.DeadlineExceeded, since := 100 }

/-- A builder configuration with the build command `sleep 10`. -/
def sleepConfig : Config :=
  { Cmd := "sleep 10".toList, Bin := "./main".toList, TmpDir := "tmp".toList,
    Root := "/srv".toList }

/-- A world where directories can be made and every command succeeds
silently. -/
def quietEnv : Env :=
  { mkdirAll := fun _ => none, run := fun _ => ⟨none, [], []⟩, ctxErr := none, since := 5 }

end Builder

/-! ## `internal/engine/engine.go` -/

/-- The engine's own state: the `running` flag. -/
structure Engine where
  /-- Whether a `Run` is in progress. -/
  running : Bool
  deriving DecidableEq, Repr

namespace Engine

/-- Error values the engine handles. -/
inductive Err where
  /-- `engine already running`. -/
  | alreadyRunning
  /-- `start watcher: <cause>`. -/
  | startWatcher (cause : Err)
  /-- An error made by the builder, the runner or the watcher. -/
  | external (id : Nat)
  /-- The error of the context, `ctx.Err()`. -/
  | ctx (e : CtxErr)
  /-- An error of a build result. -/
  | builder (e : Builder.BuildErr)
  /-- `stop runner: <cause>`. -/
  | stopRunner (cause : Err)
  /-- `close watcher: <cause>`. -/
  | closeWatcher (cause : Err)
  deriving DecidableEq, Repr

/-- The result of a build, `builder.Result`. -/
structure BuildResult where
  /-- Whether the build succeeded. -/
  Success : Bool
  /-- Captured output. -/
  Output : Str
  /-- Elapsed time. -/
  Duration : Duration
  /-- The error, nil on success. -/
  Error : Option Err
  deriving DecidableEq, Repr

/-- The logger methods the engine uses. -/
inductive Level where
  | info
  | warn
  | error
  | success
  | failure
  deriving DecidableEq, Repr

/-- An argument of a log call. -/
inductive LogArg where
  | str (s : Str)
  | strs (l : List Str)
  | err (e : Option Err)
  | seconds (d : Duration)
  deriving DecidableEq, Repr

/-- The context `Runner.Stop` is called with. -/
inductive StopCtx where
  /-- The context of `Run` with a timeout. -/
  | ofCtx (timeout : Duration)
  /-- The background context with a timeout. -/
  | ofBackground (timeout : Duration)
  /-- The context the caller of `Engine.Stop` passes. -/
  | ofCaller
  deriving DecidableEq, Repr

/-- The calls the engine makes on its collaborators. -/
inductive Call where
  | watcherStart
  | watcherClose
  | runnerRunning
  | runnerStop (ctx : StopCtx)
  | build
  | runnerStart
  | log (level : Level) (format : Str) (args : List LogArg)
  deriving DecidableEq, Repr

/-- The builder, runner and watcher behind their interfaces: each method is a
transition of the outside world `σ` that yields the method's result. -/
structure Deps (σ : Type) where
  /-- `Watcher.Start`. -/
  watcherStart : σ → Option Err × σ
  /-- `Watcher.Close`. -/
  watcherClose : σ → Option Err × σ
  /-- `Runner.Running`. -/
  runnerRunning : σ → Bool × σ
  /-- `Runner.Stop`. -/
  runnerStop : StopCtx → σ → Option Err × σ
  /-- `Builder.Build`. -/
  build : σ → BuildResult × σ
  /-- `Runner.Start`. -/
  runnerStart : σ → Option Err × σ

/-- The part of the configuration the engine reads, with the absolute root
that `cfg.AbsRoot()` returns. -/
structure Config where
  /-- Result of `AbsRoot()`. -/
  root : Str
  /-- `Build.Bin`. -/
  Bin : Str
  /-- `Build.KillDelay`. -/
  KillDelay : Duration
  /-- `Watch.Dirs`. -/
  Dirs : List Str
  /-- `Watch.ExcludeDirs`. -/
  ExcludeDirs : List Str
  deriving DecidableEq, Repr

/-- The outside world and the calls made on it so far, oldest first. -/
structure St (σ : Type) where
  /-- State of the collaborators. -/
  world : σ
  /-- Calls made so far. -/
  trace : List Call

/-- Make a call on the world and record it. -/
def St.call {σ α : Type} (s : St σ) (c : Call) (f : σ → α × σ) : α × St σ :=
  ((f s.world).1, ⟨(f s.world).2, s.trace ++ [c]⟩)

/-- Record a log call. -/
def St.log {σ : Type} (s : St σ) (level : Level) (format : String) (args : List LogArg) :
    St σ :=
  ⟨s.world, s.trace ++ [Call.log level format.toList args]⟩

/-- The first step of `buildAndRun`: stop the current process when the runner
reports one; a failure is logged and nothing else. -/
def stopCurrent {σ : Type} (d : Deps σ) (cfg : Config) (s : St σ) : St σ :=
  let r := s.call Call.runnerRunning d.runnerRunning
  if r.1 then
    let stopCtx := StopCtx.ofCtx (cfg.KillDelay * 2)
    let t := r.2.call (Call.runnerStop stopCtx) (d.runnerStop stopCtx)
    match t.1 with
    | some err => t.2.log Level.warn "failed to stop process: %v" [LogArg.err (some err)]
    | none => t.2
  else r.2

/-- `Engine.buildAndRun`. -/
def buildAndRun {σ : Type} (d : Deps σ) (cfg : Config) (s : St σ) : Option Err × St σ :=
  let s1 := stopCurrent d cfg s
  let s2 := s1.log Level.info "building..." []
  let b := s2.call Call.build d.build
  let result := b.1
  if !result.Success then
    let s3 :=
      if result.Output ≠ [] then b.2.log Level.error "build output:\n%s" [LogArg.str result.Output]
      else b.2
    (result.Error, s3.log Level.failure "build failed (%.2fs)" [LogArg.seconds result.Duration])
  else
    let s3 := b.2.log Level.success "build completed (%.2fs)" [LogArg.seconds result.Duration]
    let st := s3.call Call.runnerStart d.runnerStart
    match st.1 with
    | some err => (some err, st.2.log Level.failure "failed to start: %v" [LogArg.err (some err)])
    | none => (none, st.2.log Level.success "running %s" [LogArg.str cfg.Bin])

/-- What the `select` of the main loop receives. -/
inductive Select where
  /-- The context is done. -/
  | ctxDone (e : CtxErr)
  /-- An event from the watcher. -/
  | event (evt : Watcher.Event)
  /-- The event channel is closed. -/
  | eventsClosed
  /-- An error from the watcher. -/
  | watcherError (e : Err)
  /-- The error channel is closed. -/
  | errorsClosed
  deriving DecidableEq, Repr

/-- The main loop of `Run`, over what its select receives in turn.  The
result is the returned error, or `none` when the loop is still waiting after
the last item. -/
def mainLoop {σ : Type} (d : Deps σ) (cfg : Config) :
    List Select → St σ → Option (Option Err) × St σ
  | [], s => (none, s)
  | Select.ctxDone e :: _, s =>
    let s1 := s.log Level.info "shutting down..." []
    let stopCtx := StopCtx.ofBackground (5 * Second)
    let t := s1.call (Call.runnerStop stopCtx) (d.runnerStop stopCtx)
    (some (some (Err.ctx e)), t.2)
  | Select.event evt :: rest, s =>
    let relPath := (Filepath.Rel cfg.root evt.Path).getD evt.Path
    let s1 := s.log Level.info "%s changed" [LogArg.str relPath]
    let r := buildAndRun d cfg s1
    match r.1 with
    | some err => mainLoop d cfg rest (r.2.log Level.error "rebuild failed: %v" [LogArg.err (some err)])
    | none => mainLoop d cfg rest r.2
  | Select.eventsClosed :: _, s => (some none, s)
  | Select.watcherError err :: rest, s =>
    mainLoop d cfg rest (s.log Level.error "watcher error: %v" [LogArg.err (some err)])
  | Select.errorsClosed :: _, s => (some none, s)

/-- The log lines at the start of `Run`. -/
def logWatched {σ : Type} (cfg : Config) (s : St σ) : St σ :=
  let s1 := cfg.Dirs.foldl
    (fun s dir =>
      let dir := if !Filepath.IsAbs dir then Filepath.Join cfg.root dir else dir
      s.log Level.info "watching: %s" [LogArg.str dir])
    s
  if cfg.ExcludeDirs.length > 0 then s1.log Level.info "excluding: %v" [LogArg.strs cfg.ExcludeDirs]
  else s1

/-- The initial build and run of `Run`: a failure is logged and nothing
else. -/
def initialBuild {σ : Type} (d : Deps σ) (cfg : Config) (s : St σ) : St σ :=
  let r := buildAndRun d cfg s
  match r.1 with
  | some err => r.2.log Level.error "initial build failed: %v" [LogArg.err (some err)]
  | none => r.2

/-- What `Run` leaves: the returned error (`none` while it has not returned),
the engine and the world. -/
structure RunOutcome (σ : Type) where
  /-- `some err` once `Run` has returned `err`. -/
  ret : Option (Option Err)
  /-- The engine state. -/
  engine : Engine
  /-- The world and the calls made. -/
  st : St σ

/-- `Engine.Run`. -/
def Run {σ : Type} (d : Deps σ) (cfg : Config) (e : Engine) (sched : List Select) (s : St σ) :
    RunOutcome σ :=
  if e.running then ⟨some (some Err.alreadyRunning), e, s⟩
  else
    let e1 : Engine := { e with running := true }
    let s1 := logWatched cfg s
    let w := s1.call Call.watcherStart d.watcherStart
    match w.1 with
    | some err => ⟨some (some (Err.startWatcher err)), { e1 with running := false }, w.2⟩
    | none =>
      let l := mainLoop d cfg sched (initialBuild d cfg w.2)
      match l.1 with
      | none => ⟨none, e1, l.2⟩
      | some ret =>
        let c := l.2.call Call.watcherClose d.watcherClose
        ⟨some ret, { e1 with running := false }, c.2⟩

/-- `Engine.Stop`: the returned error and the world it leaves. -/
def Stop {σ : Type} (d : Deps σ) (e : Engine) (s : St σ) : Option Err × St σ :=
  if !e.running then (none, s)
  else
    let r := s.call (Call.runnerStop StopCtx.ofCaller) (d.runnerStop StopCtx.ofCaller)
    match r.1 with
    | some err => (some (Err.stopRunner err), r.2)
    | none =>
      let c := r.2.call Call.watcherClose d.watcherClose
      match c.1 with
      | some err => (some (Err.closeWatcher err), c.2)
      | none => (none, c.2)

/-- The builder behind the `Builder` interface of the engine: `Build` in the
world around the call that `env` gives. -/
def builderResult (r : Builder.Result) : BuildResult :=
  ⟨r.Success, r.Output, r.Duration, r.Error.map Err.builder⟩

/-- The collaborators with `Builder.Build` as the build. -/
def withBuilder {σ : Type} (d : Deps σ) (env : σ → Builder.Env) (bcfg : Builder.Config) :
    Deps σ :=
  { d with build := fun w => (builderResult (Builder.Build (env w) bcfg).1, (d.build w).2) }

/-- Whether a call is made on a collaborator rather than on the logger. -/
def Call.isExternal : Call → Bool
  | Call.log _ _ _ => false
  | _ => true

/-- The calls on the collaborators in a trace. -/
def externalCalls (t : List Call) : List Call := t.filter Call.isExternal

/-- The events the main loop handles: those received before the first item
that ends the loop. -/
def handledEvents : List Select → Nat
  | [] => 0
  | Select.event _ :: rest => handledEvents rest + 1
  | Select.watcherError _ :: rest => handledEvents rest
  | _ :: _ => 0

/-- What ends the main loop: the first cancellation or closed channel, with
the error `Run` then returns; `none` when there is none. -/
def loopEnd : List Select → Option (Option Err)
  | [] => none
  | Select.ctxDone e :: _ => some (some (Err.ctx e))
  | Select.eventsClosed :: _ => some none
  | Select.errorsClosed :: _ => some none
  | _ :: rest => loopEnd rest

/-- A world in which the runner is running and every call fails: the stop,
the build, the start. -/
def failingDeps : Deps Nat :=
  { watcherStart := fun n => (none, n + 1)
    watcherClose := fun n => (none, n + 1)
    runnerRunning := fun n => (true, n)
    runnerStop := fun _ n => (some (Err.external 1), n + 1)
    build := fun n => (⟨false, "boom".toList, 0, some (Err.external 2)⟩, n + 1)
    runnerStart := fun n => (some (Err.external 3), n + 1) }

/-- A sample engine configuration. -/
def sampleConfig : Config :=
  { root := "/srv".toList, Bin := "./tmp/main".toList, KillDelay := 500 * Millisecond,
    Dirs := [".".toList], ExcludeDirs := ["tmp".toList] }

end Engine

/-! ## `internal/config/config.go` and `loader.go` -/

namespace ConfigPkg

/-- `BuildConfig`. -/
structure BuildConfig where
  /-- The build command. -/
  Cmd : Str
  /-- The binary to run. -/
  Bin : Str
  /-- Arguments of the binary. -/
  Args : List Str
  /-- The debounce window. -/
  Delay : Duration
  /-- The grace period before the kill. -/
  KillDelay : Duration
  deriving DecidableEq, Repr

/-- `WatchConfig`. -/
structure WatchConfig where
  /-- File extensions to watch. -/
  Extensions : List Str
  /-- Directories to watch. -/
  Dirs : List Str
  /-- Directory names to leave out. -/
  ExcludeDirs : List Str
  /-- Glob patterns of files to leave out. -/
  ExcludeFiles : List Str
  deriving DecidableEq, Repr

/-- `LogConfig`. -/
structure LogConfig where
  /-- Coloured output. -/
  Color : Bool
  /-- Time stamps. -/
  Time : Bool
  /-- Minimum level. -/
  Level : Str
  deriving DecidableEq, Repr

/-- `Config`. -/
structure Config where
  /-- Project root. -/
  Root : Str
  /-- Directory of build artefacts. -/
  TmpDir : Str
  /-- Build settings. -/
  Build : BuildConfig
  /-- Watch settings. -/
  Watch : WatchConfig
  /-- Log settings. -/
  Log : LogConfig
  deriving DecidableEq, Repr

/-- The sentinel errors of validation, with their messages. -/
inductive Sentinel where
  /-- `build command cannot be empty`. -/
  | ErrEmptyBuildCmd
  /-- `binary path cannot be empty`. -/
  | ErrEmptyBin
  /-- `delay must be positive`. -/
  | ErrInvalidDelay
  /-- `kill_delay must be positive`. -/
  | ErrInvalidKillDelay
  /-- `log level must be one of: debug, info, warn, error`. -/
  | ErrInvalidLogLevel
  /-- `at least one file extension must be specified`. -/
  | ErrNoExtensions
  /-- `at least one watch directory must be specified`. -/
  | ErrNoDirs
  deriving DecidableEq, Repr

/-- The errors `Validate` returns: a sentinel wrapped with the name of its
section. -/
inductive ValidateErr where
  /-- `build config: <err>`. -/
  | buildConfig (err : Sentinel)
  /-- `watch config: <err>`. -/
  | watchConfig (err : Sentinel)
  /-- `log config: <err>`. -/
  | logConfig (err : Sentinel)
  deriving DecidableEq, Repr

/-- The sentinel an error of `Validate` wraps. -/
def ValidateErr.unwrap : ValidateErr → Sentinel
  | ValidateErr.buildConfig e => e
  | ValidateErr.watchConfig e => e
  | ValidateErr.logConfig e => e

/-- `BuildConfig.validate`. -/
def BuildConfig.validate (b : BuildConfig) : Option Sentinel :=
  if b.Cmd = [] then some Sentinel.ErrEmptyBuildCmd
  else if b.Bin = [] then some Sentinel.ErrEmptyBin
  else if b.Delay < 0 then some Sentinel.ErrInvalidDelay
  else if b.KillDelay < 0 then some Sentinel.ErrInvalidKillDelay
  else none

/-- `WatchConfig.validate`. -/
def WatchConfig.validate (w : WatchConfig) : Option Sentinel :=
  if w.Extensions.length = 0 then some Sentinel.ErrNoExtensions
  else if w.Dirs.length = 0 then some Sentinel.ErrNoDirs
  else none

/-- `LogConfig.validate`. -/
def LogConfig.validate (l : LogConfig) : Option Sentinel :=
  if l.Level = "debug".toList ∨ l.Level = "info".toList ∨ l.Level = "warn".toList ∨
      l.Level = "error".toList then none
  else some Sentinel.ErrInvalidLogLevel

/-- `Config.Validate`. -/
def Config.Validate (c : Config) : Option ValidateErr :=
  match c.Build.validate with
  | some err => some (ValidateErr.buildConfig err)
  | none =>
    match c.Watch.validate with
    | some err => some (ValidateErr.watchConfig err)
    | none =>
      match c.Log.validate with
      | some err => some (ValidateErr.logConfig err)
      | none => none

/-- The configurations the specification calls valid, with non-negative
durations. -/
def Config.Valid (c : Config) : Prop :=
  c.Build.Cmd ≠ [] ∧ c.Build.Bin ≠ [] ∧ 0 ≤ c.Build.Delay ∧ 0 ≤ c.Build.KillDelay ∧
  c.Watch.Extensions ≠ [] ∧ c.Watch.Dirs ≠ [] ∧
  c.Log.Level ∈ ["debug".toList, "info".toList, "warn".toList, "error".toList]

/-- The checks in the order cmd, bin, delay, kill_delay, extensions, dirs,
level: whether each is violated, and its sentinel. -/
def Config.checks (c : Config) : List (Bool × Sentinel) :=
  [(decide (c.Build.Cmd = []), Sentinel.ErrEmptyBuildCmd),
    (decide (c.Build.Bin = []), Sentinel.ErrEmptyBin),
    (decide (c.Build.Delay < 0), Sentinel.ErrInvalidDelay),
    (decide (c.Build.KillDelay < 0), Sentinel.ErrInvalidKillDelay),
    (decide (c.Watch.Extensions = []), Sentinel.ErrNoExtensions),
    (decide (c.Watch.Dirs = []), Sentinel.ErrNoDirs),
    (decide (c.Log.Level ∉ ["debug".toList, "info".toList, "warn".toList, "error".toList]),
      Sentinel.ErrInvalidLogLevel)]

/-- The sentinel of the first violated check. -/
def Config.firstViolated (c : Config) : Option Sentinel :=
  (c.checks.find? (fun x => x.1)).map Prod.snd

/-- `Default`. -/
def Default : Config :=
  { Root := ".".toList
    TmpDir := "tmp".toList
    Build :=
      { Cmd := "go build -o ./tmp/main .".toList, Bin := "./tmp/main".toList, Args := [],
        Delay := 200 * Millisecond, KillDelay := 500 * Millisecond }
    Watch :=
      { Extensions := [".go".toList], Dirs := [".".toList],
        ExcludeDirs := ["tmp".toList, "vendor".toList, ".git".toList, "node_modules".toList],
        ExcludeFiles := [] }
    Log := { Color := true, Time := true, Level := "info".toList } }

/-- `rawBuildConfig`: the build section as unmarshalled, durations still
strings. -/
structure rawBuildConfig where
  /-- The build command. -/
  Cmd : Str
  /-- The binary to run. -/
  Bin : Str
  /-- Arguments of the binary. -/
  Args : List Str
  /-- The debounce window, as written. -/
  Delay : Str
  /-- The grace period, as written. -/
  KillDelay : Str
  deriving DecidableEq, Repr

/-- `rawConfig`. -/
structure rawConfig where
  /-- Project root. -/
  Root : Str
  /-- Directory of build artefacts. -/
  TmpDir : Str
  /-- Build settings. -/
  Build : rawBuildConfig
  /-- Watch settings. -/
  Watch : WatchConfig
  /-- Log settings. -/
  Log : LogConfig
  deriving DecidableEq, Repr

/-- The errors of `mergeConfig`. -/
inductive MergeErr where
  /-- `parse delay: <err>`. -/
  | parseDelay
  /-- `parse kill_delay: <err>`. -/
  | parseKillDelay
  deriving DecidableEq, Repr

/-- `mergeBuildConfig`, with `time.ParseDuration` as `parse` (`none` is its
error): the error and the configuration as it was left. -/
def mergeBuildConfig (parse : Str → Option Duration) (cfg : BuildConfig)
    (raw : rawBuildConfig) : Option MergeErr × BuildConfig :=
  let cfg1 := if raw.Cmd ≠ [] then { cfg with Cmd := raw.Cmd } else cfg
  let cfg2 := if raw.Bin ≠ [] then { cfg1 with Bin := raw.Bin } else cfg1
  let cfg3 := if raw.Args.length > 0 then { cfg2 with Args := raw.Args } else cfg2
  if raw.Delay ≠ [] then
    match parse raw.Delay with
    | none => (some MergeErr.parseDelay, cfg3)
    | some d =>
      let cfg4 := { cfg3 with Delay := d }
      if raw.KillDelay ≠ [] then
        match parse raw.KillDelay with
        | none => (some MergeErr.parseKillDelay, cfg4)
        | some k => (none, { cfg4 with KillDelay := k })
      else (none, cfg4)
  else
    if raw.KillDelay ≠ [] then
      match parse raw.KillDelay with
      | none => (some MergeErr.parseKillDelay, cfg3)
      | some k => (none, { cfg3 with KillDelay := k })
    else (none, cfg3)

/-- `mergeWatchConfig`. -/
def mergeWatchConfig (cfg raw : WatchConfig) : WatchConfig :=
  let cfg1 := if raw.Extensions.length > 0 then { cfg with Extensions := raw.Extensions } else cfg
  let cfg2 := if raw.Dirs.length > 0 then { cfg1 with Dirs := raw.Dirs } else cfg1
  let cfg3 :=
    if raw.ExcludeDirs.length > 0 then { cfg2 with ExcludeDirs := raw.ExcludeDirs } else cfg2
  if raw.ExcludeFiles.length > 0 then { cfg3 with ExcludeFiles := raw.ExcludeFiles } else cfg3

/-- `mergeLogConfig`: the booleans are always taken from the raw
configuration. -/
def mergeLogConfig (cfg raw : LogConfig) : LogConfig :=
  let cfg1 := { cfg with Color := raw.Color, Time := raw.Time }
  if raw.Level ≠ [] then { cfg1 with Level := raw.Level } else cfg1

/-- `mergeConfig`: the error and the configuration as it was left. -/
def mergeConfig (parse : Str → Option Duration) (cfg : Config) (raw : rawConfig) :
    Option MergeErr × Config :=
  let cfg1 := if raw.Root ≠ [] then { cfg with Root := raw.Root } else cfg
  let cfg2 := if raw.TmpDir ≠ [] then { cfg1 with TmpDir := raw.TmpDir } else cfg1
  match mergeBuildConfig parse cfg2.Build raw.Build with
  | (some err, b) => (some err, { cfg2 with Build := b })
  | (none, b) =>
    (none, { cfg2 with
      Build := b
      Watch := mergeWatchConfig cfg2.Watch raw.Watch
      Log := mergeLogConfig cfg2.Log raw.Log })

/-- The keys of a configuration file: `none` for a key the file lacks. -/
structure File where
  /-- `root`. -/
  root : Option Str
  /-- `tmp_dir`. -/
  tmp_dir : Option Str
  /-- `build.cmd`. -/
  cmd : Option Str
  /-- `build.bin`. -/
  bin : Option Str
  /-- `build.args`. -/
  args : Option (List Str)
  /-- `build.delay`. -/
  delay : Option Str
  /-- `build.kill_delay`. -/
  kill_delay : Option Str
  /-- `watch.extensions`. -/
  extensions : Option (List Str)
  /-- `watch.dirs`. -/
  dirs : Option (List Str)
  /-- `watch.exclude_dirs`. -/
  exclude_dirs : Option (List Str)
  /-- `watch.exclude_files`. -/
  exclude_files : Option (List Str)
  /-- `log.color`. -/
  color : Option Bool
  /-- `log.time`. -/
  time : Option Bool
  /-- `log.level`. -/
  level : Option Str
  deriving DecidableEq, Repr

/-- A file that sets no key. -/
def File.empty : File :=
  { root := none, tmp_dir := none, cmd := none, bin := none, args := none, delay := none,
    kill_delay := none, extensions := none, dirs := none, exclude_dirs := none,
    exclude_files := none, color := none, time := none, level := none }

/-- Go `yaml.Unmarshal` into a zero `rawConfig`: a key the file lacks leaves
the zero value of its field. -/
def unmarshal (f : File) : rawConfig :=
  { Root := f.root.getD [], TmpDir := f.tmp_dir.getD []
    Build :=
      { Cmd := f.cmd.getD [], Bin := f.bin.getD [], Args := f.args.getD [],
        Delay := f.delay.getD [], KillDelay := f.kill_delay.getD [] }
    Watch :=
      { Extensions := f.extensions.getD [], Dirs := f.dirs.getD [],
        ExcludeDirs := f.exclude_dirs.getD [], ExcludeFiles := f.exclude_files.getD [] }
    Log := { Color := f.color.getD false, Time := f.time.getD false, Level := f.level.getD [] } }

/-- The value of a setting after the merge as the specification has it: the
value of the file when the key is there, the default otherwise. -/
def fileOrDefault {α : Type} (file : Option α) (dflt : α) : α := file.getD dflt

/-- The value of a string setting after the merge: the default when the key
is missing or empty. -/
def nonEmptyOr (file : Option Str) (dflt : Str) : Str :=
  match file with
  | some v => if v = [] then dflt else v
  | none => dflt

/-- The value of a list setting after the merge: the default when the key is
missing or the list empty. -/
def nonEmptyListOr (file : Option (List Str)) (dflt : List Str) : List Str :=
  match file with
  | some v => if v = [] then dflt else v
  | none => dflt

/-- The value of a duration setting after the merge, when every duration in
the file parses: the default when the key is missing or empty. -/
def durationOr (parse : Str → Option Duration) (file : Option Str) (dflt : Duration) :
    Duration :=
  match file with
  | some v => if v = [] then dflt else (parse v).getD dflt
  | none => dflt

/-- Whether `time.ParseDuration` accepts the duration of a key, if the file
has a non-empty one. -/
def parses (parse : Str → Option Duration) (file : Option Str) : Prop :=
  ∀ v, file = some v → v ≠ [] → (parse v).isSome = true

/-- A duration parser for the examples: `1s` and nothing else. -/
def sampleParse (s : Str) : Option Duration :=
  if s = "1s".toList then some Second else none

/-- The merge of `LoadWithDefaults`: `Default()` merged with the unmarshalled
file. -/
def mergeFile (parse : Str → Option Duration) (f : File) : Option MergeErr × Config :=
  mergeConfig parse Default (unmarshal f)

/-- The default configuration with both durations set to zero. -/
def zeroDelayConfig : Config :=
  { Default with Build := { Default.Build with Delay := 0, KillDelay := 0 } }

/-- A file whose only key is `build.cmd`, with the empty string. -/
def emptyCmdFile : File := { File.empty with cmd := some [] }

end ConfigPkg

/-! ## `internal/logger/logger.go` -/

namespace Logger

/-- `Level`, in the order of the constants. -/
inductive Level where
  | LevelDebug
  | LevelInfo
  | LevelWarn
  | LevelError
  deriving DecidableEq, Repr

/-- The integer value of a level. -/
def Level.toNat : Level → Nat
  | Level.LevelDebug => 0
  | Level.LevelInfo => 1
  | Level.LevelWarn => 2
  | Level.LevelError => 3

/-- `parseLevel`. -/
def parseLevel (s : Str) : Level :=
  if s = "debug".toList then Level.LevelDebug
  else if s = "info".toList then Level.LevelInfo
  else if s = "warn".toList then Level.LevelWarn
  else if s = "error".toList then Level.LevelError
  else Level.LevelInfo

/-- The logger configuration. -/
structure Config where
  /-- Coloured output. -/
  Color : Bool
  /-- Time stamps. -/
  Time : Bool
  /-- Minimum level. -/
  Level : Str
  deriving DecidableEq, Repr

/-- The logger state: what has been written to `out`, one entry for each
`Fprintln`, and the settings. -/
structure logger where
  /-- The lines written, oldest first. -/
  out : List Str
  /-- Minimum level. -/
  level : Level
  /-- Coloured output. -/
  useColor : Bool
  /-- Time stamps. -/
  showTime : Bool
  deriving DecidableEq, Repr

/-- The colours of `initColors`. -/
inductive Color where
  | FgHiBlack
  | FgCyan
  | FgYellow
  | FgRed
  deriving DecidableEq, Repr

/-- What the logger takes from outside: the colouring of a text and the
clock, formatted as `15:04:05`. -/
structure Env where
  /-- The colouring of the `color` package. -/
  paint : Color → Str → Str
  /-- `time.Now().Format("15:04:05")`. -/
  now : Str

/-- `New`. -/
def New (cfg : Config) : logger :=
  { out := [], level := parseLevel cfg.Level, useColor := cfg.Color, showTime := cfg.Time }

/-- A colour function set by `initColors`. -/
def colored (env : Env) (l : logger) (c : Color) (text : Str) : Str :=
  if l.useColor then env.paint c text else text

/-- `logger.SetLevel`. -/
def SetLevel (l : logger) (level : Level) : logger := { l with level := level }

/-- `logger.log`, for the message already formatted as `text`. -/
def log (env : Env) (l : logger) (pre : Str) (text : Str) : logger :=
  let line :=
    if l.showTime then colored env l Color.FgHiBlack env.now ++ ' ' :: pre ++ ' ' :: text
    else pre ++ ' ' :: text
  { l with out := l.out ++ [line] }

/-- `logger.Debug`. -/
def Debug (env : Env) (l : logger) (text : Str) : logger :=
  if l.level.toNat > Level.LevelDebug.toNat then l
  else log env l (colored env l Color.FgHiBlack "[DEBUG]".toList) text

/-- `logger.Info`. -/
def Info (env : Env) (l : logger) (text : Str) : logger :=
  if l.level.toNat > Level.LevelInfo.toNat then l
  else log env l (colored env l Color.FgCyan "[INFO]".toList) text

/-- `logger.Warn`. -/
def Warn (env : Env) (l : logger) (text : Str) : logger :=
  if l.level.toNat > Level.LevelWarn.toNat then l
  else log env l (colored env l Color.FgYellow "[WARN]".toList) text

/-- `logger.Error`. -/
def Error (env : Env) (l : logger) (text : Str) : logger :=
  if l.level.toNat > Level.LevelError.toNat then l
  else log env l (colored env l Color.FgRed "[ERROR]".toList) text

/-- `Success`, for the message already formatted. -/
def Success (env : Env) (l : logger) (formatted : Str) : logger :=
  Info env l ("✓ ".toList ++ formatted)

/-- `Failure`, for the message already formatted. -/
def Failure (env : Env) (l : logger) (formatted : Str) : logger :=
  Error env l ("✗ ".toList ++ formatted)

/-- The method of the logger for a severity. -/
def emit (env : Env) (severity : Level) (l : logger) (text : Str) : logger :=
  match severity with
  | Level.LevelDebug => Debug env l text
  | Level.LevelInfo => Info env l text
  | Level.LevelWarn => Warn env l text
  | Level.LevelError => Error env l text

end Logger

/-! # Properties -/

/-! ## Maps -/

theorem BoolMap.get_set (m : BoolMap) (k key : Str) (v : Bool) :
    BoolMap.get (BoolMap.set m k v) key = if k = key then v else BoolMap.get m key := by
  induction m with
  | nil => simp [BoolMap.set, BoolMap.get]
  | cons e m ih =>
    obtain ⟨k1, w⟩ := e
    by_cases h1 : k1 = k
    · subst h1
      by_cases h2 : k1 = key <;> simp [BoolMap.set, BoolMap.get, h2]
    · by_cases h2 : k1 = key
      · subst h2
        have h3 : ¬ k = k1 := fun h => h1 h.symm
        simp [BoolMap.set, BoolMap.get, h1, h3]
      · simp [BoolMap.set, BoolMap.get, h1, h2, ih]

theorem BoolMap.set_ne_nil (m : BoolMap) (k : Str) (v : Bool) : BoolMap.set m k v ≠ [] := by
  cases m with
  | nil => simp [BoolMap.set]
  | cons e m =>
    obtain ⟨k1, w⟩ := e
    by_cases h1 : k1 = k <;> simp [BoolMap.set, h1]

/-- Looking up a key in the set built by a loop of insertions. -/
theorem BoolMap.get_foldl_set (g : Str → Str) (ks : List Str) (m : BoolMap) (key : Str) :
    BoolMap.get (ks.foldl (fun m k => BoolMap.set m (g k) true) m) key
      = (BoolMap.get m key || decide (key ∈ ks.map g)) := by
  induction ks generalizing m with
  | nil => simp
  | cons k ks ih =>
    rw [List.foldl_cons, ih, BoolMap.get_set]
    by_cases h : g k = key
    · simp [h]
    · have h2 : ¬ key = g k := fun e => h e.symm
      simp [h, h2]

theorem BoolMap.foldl_set_ne_nil (g : Str → Str) (ks : List Str) (m : BoolMap)
    (h : m ≠ [] ∨ ks ≠ []) :
    ks.foldl (fun m k => BoolMap.set m (g k) true) m ≠ [] := by
  induction ks generalizing m with
  | nil => simpa using h
  | cons k ks ih =>
    rw [List.foldl_cons]
    exact ih _ (Or.inl (BoolMap.set_ne_nil m (g k) true))

/-! ## Filter -/

theorem NewFilter_excludeDirs_get (cfg : FilterConfig) (part : Str) :
    (NewFilter cfg).excludeDirs.get part = decide (part ∈ cfg.ExcludeDirs) := by
  have h := BoolMap.get_foldl_set id cfg.ExcludeDirs [] part
  simpa [NewFilter, BoolMap.get] using h

theorem NewFilter_extensions_get (cfg : FilterConfig) (ext : Str) :
    (NewFilter cfg).extensions.get ext = decide (ext ∈ cfg.Extensions.map normExt) := by
  have h := BoolMap.get_foldl_set normExt cfg.Extensions [] ext
  simpa [NewFilter, BoolMap.get] using h

theorem NewFilter_extensions_len (cfg : FilterConfig) :
    (NewFilter cfg).extensions.len > 0 ↔ cfg.Extensions ≠ [] := by
  constructor
  · intro h he
    simp [NewFilter, he, BoolMap.len] at h
  · intro h
    have h2 := BoolMap.foldl_set_ne_nil normExt cfg.Extensions [] (Or.inr h)
    exact List.length_pos.mpr h2

theorem filter.relPath_NewFilter (cfg : FilterConfig) (p : Str) :
    (NewFilter cfg).relPath p = rootRelative cfg.Root p := by
  unfold filter.relPath rootRelative
  by_cases h : cfg.Root = []
  · simp [NewFilter, h]
  · cases hr : Filepath.Rel cfg.Root p <;> simp [NewFilter, h, hr]

theorem filter.anyExcludedPart_eq_true (f : filter) (parts : List Str) :
    f.anyExcludedPart parts = true ↔ ∃ part ∈ parts, f.excludeDirs.get part = true := by
  induction parts with
  | nil => simp [filter.anyExcludedPart]
  | cons part parts ih =>
    by_cases h : f.excludeDirs.get part = true
    · simp [filter.anyExcludedPart, h]
    · simp [filter.anyExcludedPart, h, ih]

theorem filter.anyPattern_eq_true (base rel : Str) (pats : List Str) :
    filter.anyPattern base rel pats = true ↔
      ∃ pat ∈ pats, Filepath.Match pat base = true ∨ Filepath.Match pat rel = true := by
  induction pats with
  | nil => simp [filter.anyPattern]
  | cons pat pats ih =>
    by_cases h1 : Filepath.Match pat base = true
    · simp [filter.anyPattern, h1]
    · by_cases h2 : Filepath.Match pat rel = true
      · simp [filter.anyPattern, h2]
      · simp [filter.anyPattern, h1, h2, ih]

theorem filter.isInExcludedDir_NewFilter (cfg : FilterConfig) (rel : Str) :
    (NewFilter cfg).isInExcludedDir rel = false ↔ noExcludedSegment cfg rel := by
  rw [← Bool.not_eq_true, filter.isInExcludedDir, filter.anyExcludedPart_eq_true]
  simp [noExcludedSegment, NewFilter_excludeDirs_get, Filepath.ToSlash]

theorem filter.matchesExcludedFile_NewFilter (cfg : FilterConfig) (rel : Str) :
    (NewFilter cfg).matchesExcludedFile rel = false ↔
      noExcludedFile cfg (Filepath.Base rel) rel := by
  rw [← Bool.not_eq_true, filter.matchesExcludedFile, filter.anyPattern_eq_true]
  simp [noExcludedFile, NewFilter]

theorem filter.extension_check_NewFilter (cfg : FilterConfig) (p : Str) :
    ((NewFilter cfg).extensions.len > 0 ∧
        (!(NewFilter cfg).extensions.get (Filepath.Ext p)) = true) ↔
      ¬ extensionAccepted cfg p := by
  rw [NewFilter_extensions_len, NewFilter_extensions_get]
  simp [extensionAccepted]

/-- C1 (amended): `Match` accepts a path exactly when no segment of its
root-relative path is an excluded directory, no exclude pattern glob-matches
the basename of the root-relative path or the root-relative path itself, and
the extension list is empty or holds the suffix of the path. -/
theorem filter_Match_iff_accepted (cfg : FilterConfig) (p : Str) :
    (NewFilter cfg).Match p = true ↔ accepted cfg p := by
  have h1 := filter.isInExcludedDir_NewFilter cfg (rootRelative cfg.Root p)
  have h2 := filter.matchesExcludedFile_NewFilter cfg (rootRelative cfg.Root p)
  have h3 := filter.extension_check_NewFilter cfg p
  simp only [filter.Match, filter.relPath_NewFilter, accepted]
  cases hd : (NewFilter cfg).isInExcludedDir (rootRelative cfg.Root p)
  · cases hf : (NewFilter cfg).matchesExcludedFile (rootRelative cfg.Root p)
    · have a := h1.mp hd
      have b := h2.mp hf
      by_cases he : extensionAccepted cfg p
      · have hn := (not_congr h3).mpr (not_not.mpr he)
        simp only [Bool.false_eq_true, if_false, if_neg hn]
        exact ⟨fun _ => ⟨a, b, he⟩, fun _ => trivial⟩
      · have hn := h3.mpr he
        simp only [Bool.false_eq_true, if_false, if_pos hn]
        exact ⟨fun h => absurd h (by simp), fun h => absurd h.2.2 he⟩
    · have b : ¬ noExcludedFile cfg (Filepath.Base (rootRelative cfg.Root p))
          (rootRelative cfg.Root p) := fun h => by
        have := h2.mpr h
        simp [hf] at this
      simp only [Bool.false_eq_true, if_false, if_true]
      exact ⟨fun h => absurd h (by simp), fun h => absurd h.2.1 b⟩
  · have a : ¬ noExcludedSegment cfg (rootRelative cfg.Root p) := fun h => by
      have := h1.mpr h
      simp [hd] at this
    simp only [if_true]
    exact ⟨fun h => absurd h (by simp), fun h => absurd h.1 a⟩

/-- C1 (as stated) fails: with root `/project` and the exclude pattern
`project`, the path `/project` is accepted although the pattern matches its
basename; the filter tries the pattern on `.`, the root-relative path. -/
theorem filter_Match_basename_counterexample :
    (NewFilter ⟨[], [], ["project".toList], "/project".toList⟩).Match "/project".toList = true ∧
    ¬ acceptedAsStated ⟨[], [], ["project".toList], "/project".toList⟩ "/project".toList := by
  refine ⟨by decide, fun h => ?_⟩
  have h2 := (h.2.1 "project".toList (by decide)).1
  revert h2
  decide

/-- C2 (amended): a path whose root-relative path has a segment equal to an
excluded directory name is rejected, whatever the extensions and the exclude
patterns are. -/
theorem filter_Match_excluded_segment (cfg : FilterConfig) (p seg : Str)
    (hs : seg ∈ GoStrings.Split (rootRelative cfg.Root p) '/')
    (hd : seg ∈ cfg.ExcludeDirs) :
    (NewFilter cfg).Match p = false := by
  have h1 := filter.isInExcludedDir_NewFilter cfg (rootRelative cfg.Root p)
  have a : (NewFilter cfg).isInExcludedDir (rootRelative cfg.Root p) = true := by
    cases hx : (NewFilter cfg).isInExcludedDir (rootRelative cfg.Root p)
    · exact absurd hd (h1.mp hx seg hs)
    · rfl
  simp only [filter.Match, filter.relPath_NewFilter, a, if_true]

/-- C2 witness: `node_modules` below `/project/frontend`. -/
theorem filter_Match_excluded_segment_witness :
    (NewFilter ⟨[".go".toList], ["node_modules".toList], [], "/project".toList⟩).Match
      "/project/frontend/node_modules/pkg/index.go".toList = false :=
  filter_Match_excluded_segment
    ⟨[".go".toList], ["node_modules".toList], [], "/project".toList⟩
    "/project/frontend/node_modules/pkg/index.go".toList "node_modules".toList
    (by decide) (by decide)

/-- C2 (as stated) fails: the path `/tmp/proj/main.go` has the segment `tmp`,
an excluded directory name, yet under the root `/tmp/proj` it is accepted:
only the segments below the root are looked at. -/
theorem filter_Match_segment_in_root_counterexample :
    "tmp".toList ∈ GoStrings.Split "/tmp/proj/main.go".toList '/' ∧
    "tmp".toList ∈ (FilterConfig.mk [".go".toList] ["tmp".toList] [] "/tmp/proj".toList).ExcludeDirs ∧
    (NewFilter ⟨[".go".toList], ["tmp".toList], [], "/tmp/proj".toList⟩).Match
      "/tmp/proj/main.go".toList = true := by
  refine ⟨by decide, by decide, by decide⟩

/-! ## Runner -/

namespace Runner

theorem Start_of_running (os : OS) (r : runner) (h : r.running = true) :
    Start os r = ⟨some RunnerErr.alreadyRunning, r, []⟩ := by
  simp [Start, h]

theorem Start_of_notExist (os : OS) (r : runner) (h : r.running = false)
    (hs : os.stat (binPath r.cfg) = StatResult.notExist) :
    Start os r = ⟨some (RunnerErr.binaryNotFound (binPath r.cfg)), r, []⟩ := by
  simp [Start, h, hs]

/-- A `Start` that returns nil leaves the runner running. -/
theorem Start_ok_running (os : OS) (r : runner) (h : (Start os r).err = none) :
    (Start os r).state.running = true := by
  unfold Start at h ⊢
  by_cases hr : r.running = true
  · simp [hr] at h
  · by_cases hs : os.stat (binPath r.cfg) = StatResult.notExist
    · simp [hr, hs] at h
    · cases hp : os.spawn
          { Path := binPath r.cfg, Args := r.cfg.Args, Dir := r.cfg.Root,
            Stdout := r.cfg.Stdout, Stderr := r.cfg.Stderr, Setpgid := true, Process := none }
      · simp [hr, hs, hp] at h
      · simp [hr, hs, hp]

theorem wait_running (r r1 : runner) (h : wait r = some r1) : r1.running = false := by
  unfold wait at h
  cases hd : r.done with
  | none => simp [hd] at h; rw [← h]
  | some b =>
    cases b
    · simp [hd] at h; rw [← h]
    · simp [hd] at h

theorem Stop_state (r : runner) (env : StopEnv) : (Stop r env).state = r := by
  unfold Stop
  split
  · split
    · rfl
    · split
      · rfl
      · rfl
      · split <;> rfl
  · rfl

theorem Stop_of_not_running (r : runner) (env : StopEnv) (h : r.running = false) :
    Stop r env = ⟨none, r, []⟩ := by
  unfold Stop
  split
  · rename_i h1 _
    rw [h] at h1
    exact absurd h1 (by simp)
  · rfl

theorem invariant_New (cfg : Config) : invariant (New cfg) := by
  intro h
  simp [New] at h

theorem invariant_Start (os : OS) (r : runner) (h : invariant r) :
    invariant (Start os r).state := by
  unfold Start
  cases hr : r.running
  · by_cases hs : os.stat (binPath r.cfg) = StatResult.notExist
    · simp only [hs, if_true, Bool.false_eq_true, if_false]
      exact h
    · cases hp : os.spawn
          { Path := binPath r.cfg, Args := r.cfg.Args, Dir := r.cfg.Root,
            Stdout := r.cfg.Stdout, Stderr := r.cfg.Stderr, Setpgid := true, Process := none }
      · simp only [hs, hp, Bool.false_eq_true, if_false]
        intro h2
        simp [hr] at h2
      · simp only [hs, hp, Bool.false_eq_true, if_false]
        intro _
        exact ⟨⟨_, _, rfl, rfl⟩, rfl⟩
  · simp only [if_true]
    exact h

theorem invariant_wait (r r1 : runner) (h : wait r = some r1) : invariant r1 := by
  intro h2
  rw [wait_running r r1 h] at h2
  exact absurd h2 (by simp)

theorem invariant_Stop (r : runner) (env : StopEnv) (h : invariant r) :
    invariant (Stop r env).state := by
  rw [Stop_state]
  exact h

theorem Reachable.invariant (r : runner) (h : Reachable r) : invariant r := by
  induction h with
  | new cfg => exact invariant_New cfg
  | start os r _ ih => exact invariant_Start os r ih
  | stop r env _ ih => exact invariant_Stop r env ih
  | reap r r1 _ _ hw _ => exact invariant_wait r r1 hw

/-- While running, the reaper's `wait` does not panic. -/
theorem wait_isSome (r : runner) (h : invariant r) (hr : r.running = true) :
    ∃ r1, wait r = some r1 := by
  have hd := (h hr).2
  exact ⟨{ r with running := false, done := some true }, by simp [wait, hd]⟩

theorem Stop_of_process (r : runner) (env : StopEnv) (c : Cmd) (proc : Process)
    (hr : r.running = true) (hc : r.cmd = some c) (hp : c.Process = some proc) :
    Stop r env =
      match env.first with
      | Wake.done => ⟨none, r, interruptProcess proc env.intr⟩
      | Wake.cancel e =>
        ⟨some (RunnerErr.ctx e), r, interruptProcess proc env.intr ++ killProcess proc env.kill⟩
      | Wake.timer =>
        match env.second with
        | Wake.done => ⟨none, r, interruptProcess proc env.intr ++ killProcess proc env.kill⟩
        | Wake.timer =>
          ⟨some RunnerErr.didNotExit, r,
            interruptProcess proc env.intr ++ killProcess proc env.kill⟩
        | Wake.cancel e =>
          ⟨some (RunnerErr.ctx e), r,
            interruptProcess proc env.intr ++ killProcess proc env.kill⟩ := by
  unfold Stop
  simp only [hr, hc, hp]

theorem interruptProcess_no_kill (proc : Process) (res : Errno) :
    ∀ e ∈ interruptProcess proc res, e.isKill = false := by
  intro e he
  unfold interruptProcess at he
  split at he <;> simp at he <;> rcases he with rfl | rfl <;> rfl

theorem interruptProcess_head (proc : Process) (res : Errno) :
    (interruptProcess proc res).head? = some (Effect.killGroup proc.Pid Signal.SIGINT) := by
  unfold interruptProcess
  split <;> rfl

theorem killProcess_eq (proc : Process) (res : Errno) :
    killProcess proc res =
      [Effect.killGroup proc.Pid Signal.SIGKILL, Effect.killProcess proc.Pid] := by
  unfold killProcess
  split <;> rfl

theorem sampleStarted_reachable : Reachable sampleStarted :=
  Reachable.start sampleOS (New sampleConfig) (Reachable.new sampleConfig)

theorem sampleStarted_running : sampleStarted.running = true := by
  decide

/-- C4: `Start` on a runner that is already running, or whose resolved binary
does not exist, returns an error, leaves the whole state (so `Running()`) as it
was and spawns nothing; hence a `Start` that follows a successful `Start`
fails and `Running()` stays true. -/
theorem Start_rejects (os os0 : OS) (r r0 : runner)
    (h : r.running = true ∨ os.stat (binPath r.cfg) = StatResult.notExist) :
    ((Start os r).err =
        some (if r.running then RunnerErr.alreadyRunning
          else RunnerErr.binaryNotFound (binPath r.cfg)) ∧
      (Start os r).state = r ∧ Running (Start os r).state = Running r ∧
      (Start os r).effects = []) ∧
    ((Start os0 r0).err = none →
      (Start os (Start os0 r0).state).err = some RunnerErr.alreadyRunning ∧
      Running (Start os (Start os0 r0).state).state = true ∧
      (Start os (Start os0 r0).state).effects = []) := by
  constructor
  · cases hr : r.running
    · have hs : os.stat (binPath r.cfg) = StatResult.notExist := by
        rcases h with h | h
        · rw [hr] at h
          exact absurd h (by simp)
        · exact h
      rw [Start_of_notExist os r hr hs]
      simp
    · rw [Start_of_running os r hr]
      simp
  · intro hok
    have h1 := Start_ok_running os0 r0 hok
    rw [Start_of_running os _ h1]
    exact ⟨rfl, h1, rfl⟩

/-- C4 witness: a second `Start` of the sample runner, and a `Start` of a
fresh runner whose binary is missing. -/
theorem Start_rejects_witness :
    (Start sampleOS sampleStarted).err = some RunnerErr.alreadyRunning ∧
    Running (Start sampleOS sampleStarted).state = true ∧
    (Start ⟨fun _ => StatResult.notExist, fun _ => some 7⟩ (New sampleConfig)).err
      = some (RunnerErr.binaryNotFound "/bin/app".toList) ∧
    Running (Start ⟨fun _ => StatResult.notExist, fun _ => some 7⟩ (New sampleConfig)).state
      = false := by
  have a := Start_rejects sampleOS sampleOS sampleStarted (New sampleConfig)
    (Or.inl sampleStarted_running)
  have b := Start_rejects ⟨fun _ => StatResult.notExist, fun _ => some 7⟩ sampleOS
    (New sampleConfig) (New sampleConfig) (Or.inr rfl)
  refine ⟨?_, ?_, ?_, ?_⟩
  · rw [a.1.1, sampleStarted_running]
    rfl
  · rw [a.1.2.1]
    exact sampleStarted_running
  · rw [b.1.1]
    decide
  · rw [b.1.2.1]
    decide

/-- C5 (amended): `Stop` on a running runner first sends the interrupt; if
done fires first it returns nil and sends no kill; if the kill delay elapses
first it sends the kill and then returns nil, the timeout error or the
context error according to which of done, the further second and the context
comes first; if the context is done first it sends the kill and returns the
context error. -/
theorem Stop_running (r : runner) (env : StopEnv) (hr : Reachable r)
    (h : r.running = true) :
    ∃ c proc, r.cmd = some c ∧ c.Process = some proc ∧
      (Stop r env).effects.head? = some (Effect.killGroup proc.Pid Signal.SIGINT) ∧
      (env.first = Wake.done →
        (Stop r env).err = none ∧ (Stop r env).effects = interruptProcess proc env.intr ∧
        ∀ e ∈ (Stop r env).effects, e.isKill = false) ∧
      (env.first = Wake.timer →
        (Stop r env).effects = interruptProcess proc env.intr ++
          [Effect.killGroup proc.Pid Signal.SIGKILL, Effect.killProcess proc.Pid] ∧
        (env.second = Wake.done → (Stop r env).err = none) ∧
        (env.second = Wake.timer → (Stop r env).err = some RunnerErr.didNotExit) ∧
        (∀ e, env.second = Wake.cancel e → (Stop r env).err = some (RunnerErr.ctx e))) ∧
      (∀ e, env.first = Wake.cancel e →
        (Stop r env).effects = interruptProcess proc env.intr ++
          [Effect.killGroup proc.Pid Signal.SIGKILL, Effect.killProcess proc.Pid] ∧
        (Stop r env).err = some (RunnerErr.ctx e)) := by
  obtain ⟨⟨c, proc, hc, hp⟩, _⟩ := Reachable.invariant r hr h
  refine ⟨c, proc, hc, hp, ?_, ?_, ?_, ?_⟩
  · rw [Stop_of_process r env c proc h hc hp]
    have hh := interruptProcess_head proc env.intr
    cases h1 : env.first with
    | done => simpa using hh
    | cancel e => simp [List.head?_append, hh]
    | timer =>
      cases h2 : env.second <;> simp [List.head?_append, hh]
  · intro h1
    rw [Stop_of_process r env c proc h hc hp, h1]
    exact ⟨rfl, rfl, interruptProcess_no_kill proc env.intr⟩
  · intro h1
    rw [Stop_of_process r env c proc h hc hp, h1, ← killProcess_eq proc env.kill]
    refine ⟨?_, ?_, ?_, ?_⟩
    · cases h2 : env.second <;> rfl
    · intro h2
      rw [h2]
    · intro h2
      rw [h2]
    · intro e h2
      rw [h2]
  · intro e h1
    rw [Stop_of_process r env c proc h hc hp, h1, ← killProcess_eq proc env.kill]
    exact ⟨rfl, rfl⟩

/-- C5 witness: the sample runner, killed after the delay and gone within the
further second. -/
theorem Stop_running_witness :
    ∃ c proc, sampleStarted.cmd = some c ∧ c.Process = some proc ∧
      (Stop sampleStarted ⟨Errno.ok, Errno.ok, Wake.timer, Wake.done⟩).effects.head?
        = some (Effect.killGroup proc.Pid Signal.SIGINT) ∧
      (Stop sampleStarted ⟨Errno.ok, Errno.ok, Wake.timer, Wake.done⟩).err = none := by
  obtain ⟨c, proc, hc, hp, hh, _, ht, _⟩ :=
    Stop_running sampleStarted ⟨Errno.ok, Errno.ok, Wake.timer, Wake.done⟩
      sampleStarted_reachable sampleStarted_running
  exact ⟨c, proc, hc, hp, hh, (ht rfl).2.1 rfl⟩

/-- C5 (as stated) fails: with a kill delay of 500 ms, a context deadline
1000 ms after the call and a child that never exits, the kill delay elapses
first and done does not fire within the further second, yet `Stop` returns the
deadline error of the context, not the timeout error. -/
theorem Stop_deadline_counterexample :
    Reachable sampleStarted ∧ sampleStarted.running = true ∧
    (timedEnv sampleStarted.cfg Errno.ok Errno.ok none
      (some (1000 * Millisecond, CtxErr.DeadlineExceeded))).first = Wake.timer ∧
    (timedEnv sampleStarted.cfg Errno.ok Errno.ok none
      (some (1000 * Millisecond, CtxErr.DeadlineExceeded))).second ≠ Wake.done ∧
    (Stop sampleStarted (timedEnv sampleStarted.cfg Errno.ok Errno.ok none
      (some (1000 * Millisecond, CtxErr.DeadlineExceeded)))).err
        = some (RunnerErr.ctx CtxErr.DeadlineExceeded) ∧
    (Stop sampleStarted (timedEnv sampleStarted.cfg Errno.ok Errno.ok none
      (some (1000 * Millisecond, CtxErr.DeadlineExceeded)))).err
        ≠ some RunnerErr.didNotExit := by
  refine ⟨sampleStarted_reachable, by decide, by decide, by decide, by decide, by decide⟩

/-- C6 (amended): in every reachable runner state, while running the command
of a started process is held and the done channel is open; so once the done
channel is closed, running is false.  The state of `New` is reachable and
`Start`, `Stop` and the reaper's `wait` lead from reachable states to
reachable states. -/
theorem runner_invariant (r : runner) (h : Reachable r) :
    (r.running = true → ∃ c proc, r.cmd = some c ∧ c.Process = some proc) ∧
    (r.done = some true → r.running = false) ∧
    (r.running = true → ∃ r1, wait r = some r1 ∧ r1.running = false ∧ r1.done = some true) := by
  have hi := Reachable.invariant r h
  refine ⟨fun hr => (hi hr).1, ?_, ?_⟩
  · intro hd
    cases hr : r.running
    · rfl
    · have := (hi hr).2
      rw [hd] at this
      simp at this
  · intro hr
    have hd := (hi hr).2
    exact ⟨{ r with running := false, done := some true }, by simp [wait, hd], rfl, rfl⟩

/-- C6 witness: the sample runner after its `Start`. -/
theorem runner_invariant_witness :
    (sampleStarted.running = true → ∃ c proc, sampleStarted.cmd = some c ∧ c.Process = some proc) ∧
    (sampleStarted.done = some true → sampleStarted.running = false) ∧
    (sampleStarted.running = true →
      ∃ r1, wait sampleStarted = some r1 ∧ r1.running = false ∧ r1.done = some true) :=
  runner_invariant sampleStarted sampleStarted_reachable

/-- C6 (as stated) fails: the command is kept when the child has exited and
when the spawn fails, so a reachable runner can hold a command while not
running. -/
theorem runner_invariant_counterexample :
    (∃ r1, wait sampleStarted = some r1 ∧ Reachable r1 ∧ r1.running = false ∧
      r1.cmd ≠ none ∧ ¬ invariantAsStated r1) ∧
    (invariantAsStated (New sampleConfig) ∧
      (Start failingOS (New sampleConfig)).err = some RunnerErr.startProcess ∧
      ¬ invariantAsStated (Start failingOS (New sampleConfig)).state) := by
  refine ⟨⟨{ sampleStarted with running := false, done := some true }, by decide, ?_,
    rfl, by decide, ?_⟩, ?_, by decide, ?_⟩
  · exact Reachable.reap sampleStarted _ sampleStarted_reachable sampleStarted_running
      (by decide)
  · intro hinv
    have := hinv.1.mpr (by decide)
    revert this
    decide
  · exact ⟨by decide, by decide⟩
  · intro hinv
    have := hinv.1.mpr (by decide)
    revert this
    decide

/-- C7: `Stop` on a runner that is not running returns nil, sends nothing and
leaves the state as it is, so does a second `Stop` after it; and after any
`Stop`, once the reaper has seen the child exit, a further `Stop` is such a
no-op. -/
theorem Stop_not_running (r r0 r1 : runner) (env env1 env2 : StopEnv)
    (h : r.running = false) :
    Stop r env = ⟨none, r, []⟩ ∧
    Stop (Stop r env).state env1 = ⟨none, r, []⟩ ∧
    (wait (Stop r0 env).state = some r1 → Stop r1 env2 = ⟨none, r1, []⟩) := by
  have a := Stop_of_not_running r env h
  refine ⟨a, ?_, ?_⟩
  · rw [a]
    exact Stop_of_not_running r env1 h
  · intro hw
    exact Stop_of_not_running r1 env2 (wait_running _ r1 hw)

/-- C7 witness: a fresh runner. -/
theorem Stop_not_running_witness :
    Stop (New sampleConfig) ⟨Errno.ok, Errno.ok, Wake.timer, Wake.timer⟩
      = ⟨none, New sampleConfig, []⟩ :=
  (Stop_not_running (New sampleConfig) sampleStarted sampleStarted
    ⟨Errno.ok, Errno.ok, Wake.timer, Wake.timer⟩ ⟨Errno.ok, Errno.ok, Wake.done, Wake.done⟩
    ⟨Errno.ok, Errno.ok, Wake.done, Wake.done⟩ rfl).1

end Runner

/-! ## Engine -/

namespace Engine

variable {σ : Type}

theorem externalCalls_log (s : St σ) (level : Level) (format : String) (args : List LogArg) :
    externalCalls (s.log level format args).trace = externalCalls s.trace := by
  simp [St.log, externalCalls, Call.isExternal]

theorem externalCalls_call {α : Type} (s : St σ) (c : Call) (f : σ → α × σ)
    (hc : c.isExternal = true) :
    externalCalls (s.call c f).2.trace = externalCalls s.trace ++ [c] := by
  simp [St.call, externalCalls, hc]

theorem world_log (s : St σ) (level : Level) (format : String) (args : List LogArg) :
    (s.log level format args).world = s.world := rfl

/-- The world after the stop step: that of `Running()`, then of `Stop` when the
runner was running. -/
theorem stopCurrent_world (d : Deps σ) (cfg : Config) (s : St σ) :
    (stopCurrent d cfg s).world =
      if (d.runnerRunning s.world).1 then
        (d.runnerStop (StopCtx.ofCtx (cfg.KillDelay * 2)) (d.runnerRunning s.world).2).2
      else (d.runnerRunning s.world).2 := by
  unfold stopCurrent
  cases hr : (d.runnerRunning s.world).1
  · simp [St.call, hr]
  · simp only [St.call, hr, if_true]
    split <;> rfl

theorem stopCurrent_calls (d : Deps σ) (cfg : Config) (s : St σ) :
    externalCalls (stopCurrent d cfg s).trace =
      externalCalls s.trace ++ Call.runnerRunning ::
        (if (d.runnerRunning s.world).1 then
          [Call.runnerStop (StopCtx.ofCtx (cfg.KillDelay * 2))] else []) := by
  unfold stopCurrent
  cases hr : (d.runnerRunning s.world).1
  · simp [St.call, hr, externalCalls, Call.isExternal]
  · simp only [St.call, hr, if_true]
    split <;> simp [St.log, externalCalls, Call.isExternal]

theorem buildAndRun_calls (d : Deps σ) (cfg : Config) (s : St σ) :
    externalCalls (buildAndRun d cfg s).2.trace =
      externalCalls (stopCurrent d cfg s).trace ++ Call.build ::
        (if (d.build (stopCurrent d cfg s).world).1.Success then [Call.runnerStart] else []) := by
  unfold buildAndRun
  cases hb : (d.build (stopCurrent d cfg s).world).1.Success
  · simp only [St.call, St.log, hb]
    by_cases ho : (d.build (stopCurrent d cfg s).world).1.Output = []
    · simp [ho, externalCalls, Call.isExternal]
    · simp [ho, externalCalls, Call.isExternal]
  · simp only [St.call, St.log, hb]
    simp only [Bool.not_true, Bool.false_eq_true, if_false, if_true]
    split <;> simp [externalCalls, Call.isExternal]

theorem buildAndRun_ret (d : Deps σ) (cfg : Config) (s : St σ) :
    (buildAndRun d cfg s).1 =
      if (d.build (stopCurrent d cfg s).world).1.Success then
        (d.runnerStart (d.build (stopCurrent d cfg s).world).2).1
      else (d.build (stopCurrent d cfg s).world).1.Error := by
  unfold buildAndRun
  cases hb : (d.build (stopCurrent d cfg s).world).1.Success
  · simp [St.call, St.log, hb]
  · simp only [St.call, St.log, hb]
    simp only [Bool.not_true, Bool.false_eq_true, if_false, if_true]
    split
    · rename_i err h
      exact h.symm
    · rename_i h
      exact h.symm

/-- The `Build` calls of a trace are among its calls on the collaborators. -/
theorem builds_eq_externalCalls (t : List Call) :
    t.count Call.build = (externalCalls t).count Call.build := by
  unfold externalCalls
  rw [List.count_filter]
  rfl

theorem buildAndRun_builds (d : Deps σ) (cfg : Config) (s : St σ) :
    (buildAndRun d cfg s).2.trace.count Call.build = s.trace.count Call.build + 1 := by
  rw [builds_eq_externalCalls, buildAndRun_calls, stopCurrent_calls,
    builds_eq_externalCalls s.trace]
  cases (d.runnerRunning s.world).1 <;>
    cases (d.build (stopCurrent d cfg s).world).1.Success <;>
    simp [List.count_cons]

theorem builds_log (s : St σ) (level : Level) (format : String) (args : List LogArg) :
    (s.log level format args).trace.count Call.build = s.trace.count Call.build := by
  simp [St.log, List.count_cons]

theorem mainLoop_ret (d : Deps σ) (cfg : Config) (sched : List Select) (s : St σ) :
    (mainLoop d cfg sched s).1 = loopEnd sched := by
  induction sched generalizing s with
  | nil => rfl
  | cons x rest ih =>
    cases x with
    | ctxDone e => rfl
    | event evt =>
      simp only [mainLoop, loopEnd]
      split <;> exact ih _
    | eventsClosed => rfl
    | watcherError err => exact ih _
    | errorsClosed => rfl

theorem mainLoop_builds (d : Deps σ) (cfg : Config) (sched : List Select) (s : St σ) :
    (mainLoop d cfg sched s).2.trace.count Call.build =
      s.trace.count Call.build + handledEvents sched := by
  induction sched generalizing s with
  | nil => rfl
  | cons x rest ih =>
    cases x with
    | ctxDone e => simp [mainLoop, handledEvents, St.call, St.log, List.count_cons]
    | event evt =>
      simp only [mainLoop, handledEvents]
      split
      · rw [ih, builds_log, buildAndRun_builds, builds_log]
        omega
      · rw [ih, buildAndRun_builds, builds_log]
        omega
    | eventsClosed => rfl
    | watcherError err =>
      simp only [mainLoop, handledEvents]
      rw [ih, builds_log]
    | errorsClosed => rfl

theorem logWatched_world (cfg : Config) (s : St σ) : (logWatched cfg s).world = s.world := by
  unfold logWatched
  have h : ∀ (dirs : List Str) (s : St σ),
      (dirs.foldl
        (fun s dir =>
          let dir := if !Filepath.IsAbs dir then Filepath.Join cfg.root dir else dir
          s.log Level.info "watching: %s" [LogArg.str dir])
        s).world = s.world := by
    intro dirs
    induction dirs with
    | nil => intro s; rfl
    | cons dir dirs ih =>
      intro s
      rw [List.foldl_cons, ih]
      rfl
  split
  · rw [world_log, h]
  · exact h _ _

theorem logWatched_builds (cfg : Config) (s : St σ) :
    (logWatched cfg s).trace.count Call.build = s.trace.count Call.build := by
  unfold logWatched
  have h : ∀ (dirs : List Str) (s : St σ),
      (dirs.foldl
        (fun s dir =>
          let dir := if !Filepath.IsAbs dir then Filepath.Join cfg.root dir else dir
          s.log Level.info "watching: %s" [LogArg.str dir])
        s).trace.count Call.build = s.trace.count Call.build := by
    intro dirs
    induction dirs with
    | nil => intro s; rfl
    | cons dir dirs ih =>
      intro s
      rw [List.foldl_cons, ih, builds_log]
  split
  · rw [builds_log, h]
  · exact h _ _

theorem initialBuild_builds (d : Deps σ) (cfg : Config) (s : St σ) :
    (initialBuild d cfg s).trace.count Call.build = s.trace.count Call.build + 1 := by
  unfold initialBuild
  cases h : (buildAndRun d cfg s).1 with
  | none =>
    simp only [h]
    rw [buildAndRun_builds]
  | some err =>
    simp only [h]
    rw [builds_log, buildAndRun_builds]

/-- The state in which `Run` enters its main loop. -/
theorem Run_of_started (d : Deps σ) (cfg : Config) (e : Engine) (sched : List Select)
    (s : St σ) (he : e.running = false)
    (hw : (d.watcherStart (logWatched cfg s).world).1 = none) :
    ∃ s2 : St σ,
      s2.trace.count Call.build = s.trace.count Call.build + 1 ∧
      Run d cfg e sched s =
        match (mainLoop d cfg sched s2).1 with
        | none => ⟨none, { e with running := true }, (mainLoop d cfg sched s2).2⟩
        | some ret =>
          ⟨some ret, { e with running := false },
            ((mainLoop d cfg sched s2).2.call Call.watcherClose d.watcherClose).2⟩ := by
  refine ⟨initialBuild d cfg ((logWatched cfg s).call Call.watcherStart d.watcherStart).2,
    ?_, ?_⟩
  · rw [initialBuild_builds]
    show ((logWatched cfg s).trace ++ [Call.watcherStart]).count Call.build + 1 = _
    rw [List.count_append, logWatched_builds]
    simp [List.count_cons]
  · have hw2 : ((logWatched cfg s).call Call.watcherStart d.watcherStart).1 = none := hw
    unfold Run
    simp only [he, Bool.false_eq_true, if_false, hw2]

/-- C3: in a build-and-run cycle the calls on the collaborators are, in this
order, `Runner.Running`, then `Runner.Stop` exactly when the runner reported
running, then `Builder.Build` on the world `Stop` has left, whatever `Stop`
returned, then `Runner.Start` exactly when the build succeeded; a failed
build returns the error of the build result, a successful one what `Start`
returns. -/
theorem buildAndRun_order (d : Deps σ) (cfg : Config) (s : St σ) :
    externalCalls (buildAndRun d cfg s).2.trace =
      externalCalls s.trace ++
        (Call.runnerRunning ::
          (if (d.runnerRunning s.world).1 then
            [Call.runnerStop (StopCtx.ofCtx (cfg.KillDelay * 2))] else []) ++
        Call.build ::
          (if (d.build (stopCurrent d cfg s).world).1.Success then [Call.runnerStart]
            else [])) ∧
    (stopCurrent d cfg s).world =
      (if (d.runnerRunning s.world).1 then
        (d.runnerStop (StopCtx.ofCtx (cfg.KillDelay * 2)) (d.runnerRunning s.world).2).2
      else (d.runnerRunning s.world).2) ∧
    (buildAndRun d cfg s).1 =
      (if (d.build (stopCurrent d cfg s).world).1.Success then
        (d.runnerStart (d.build (stopCurrent d cfg s).world).2).1
      else (d.build (stopCurrent d cfg s).world).1.Error) := by
  refine ⟨?_, stopCurrent_world d cfg s, buildAndRun_ret d cfg s⟩
  rw [buildAndRun_calls, stopCurrent_calls]
  simp

/-- C8: `Run` on an engine that is already running returns the `already
running` error and changes neither the flag nor the world, and makes no call.
On an engine that is not running the flag is set while `Run` has not
returned and is false once it has, be it with the error of a watcher that
does not start or from the main loop, which ends as soon as the context is
done or a channel is closed. -/
theorem Run_running_flag (d : Deps σ) (cfg : Config) (e : Engine) (sched : List Select)
    (s : St σ) :
    (e.running = true → Run d cfg e sched s = ⟨some (some Err.alreadyRunning), e, s⟩) ∧
    (e.running = false →
      ((Run d cfg e sched s).ret ≠ none → (Run d cfg e sched s).engine.running = false) ∧
      ((Run d cfg e sched s).ret = none → (Run d cfg e sched s).engine.running = true) ∧
      (∀ err, (d.watcherStart (logWatched cfg s).world).1 = some err →
        (Run d cfg e sched s).ret = some (some (Err.startWatcher err)) ∧
        (Run d cfg e sched s).engine.running = false) ∧
      (loopEnd sched ≠ none → (Run d cfg e sched s).ret ≠ none)) := by
  constructor
  · intro he
    simp [Run, he]
  · intro he
    cases hw : (d.watcherStart (logWatched cfg s).world).1 with
    | some err =>
      have hw2 : ((logWatched cfg s).call Call.watcherStart d.watcherStart).1 = some err := hw
      have hrun : Run d cfg e sched s =
          ⟨some (some (Err.startWatcher err)), { e with running := false },
            ((logWatched cfg s).call Call.watcherStart d.watcherStart).2⟩ := by
        unfold Run
        simp only [he, Bool.false_eq_true, if_false, hw2]
      rw [hrun]
      refine ⟨fun _ => rfl, fun h => by simp at h, ?_, fun _ => by simp⟩
      intro err2 h2
      cases h2
      exact ⟨rfl, rfl⟩
    | none =>
      obtain ⟨s2, _, hrun⟩ := Run_of_started d cfg e sched s he hw
      rw [hrun]
      have hret := mainLoop_ret d cfg sched s2
      cases hl : (mainLoop d cfg sched s2).1 with
      | none =>
        rw [← hret]
        simp [hl]
      | some ret =>
        simp [hl]

/-- C9: when the watcher starts, `Run` returns only for what ends the main
loop (the context error, or nil for a closed channel), whatever the initial
and the later builds and starts return, and it has then made one build for the
initial cycle and one for each event received before. -/
theorem Run_survives_initial_build (d : Deps σ) (cfg : Config) (e : Engine)
    (sched : List Select) (s : St σ) (he : e.running = false)
    (hw : (d.watcherStart (logWatched cfg s).world).1 = none) :
    (Run d cfg e sched s).ret = loopEnd sched ∧
    (Run d cfg e sched s).st.trace.count Call.build =
      s.trace.count Call.build + 1 + handledEvents sched := by
  obtain ⟨s2, hb, hrun⟩ := Run_of_started d cfg e sched s he hw
  rw [hrun]
  have hret := mainLoop_ret d cfg sched s2
  have hcount := mainLoop_builds d cfg sched s2
  cases hl : (mainLoop d cfg sched s2).1 with
  | none =>
    simp only [hl]
    rw [hl] at hret
    exact ⟨hret, by rw [hcount, hb]⟩
  | some ret =>
    simp only [hl]
    rw [hl] at hret
    refine ⟨hret, ?_⟩
    show ((mainLoop d cfg sched s2).2.trace ++ [Call.watcherClose]).count Call.build = _
    rw [List.count_append, hcount, hb]
    simp [List.count_cons]

/-- C9 witness: every build fails, two events arrive, then the context is
cancelled: three builds, and `Run` returns the cancellation. -/
theorem Run_survives_initial_build_witness :
    (Run failingDeps sampleConfig ⟨false⟩
      [Select.event ⟨"/srv/a.go".toList, Watcher.Op.OpWrite, 1⟩,
        Select.event ⟨"/srv/b.go".toList, Watcher.Op.OpWrite, 2⟩,
        Select.ctxDone CtxErr.Canceled] ⟨0, []⟩).ret = some (some (Err.ctx CtxErr.Canceled)) ∧
    (Run failingDeps sampleConfig ⟨false⟩
      [Select.event ⟨"/srv/a.go".toList, Watcher.Op.OpWrite, 1⟩,
        Select.event ⟨"/srv/b.go".toList, Watcher.Op.OpWrite, 2⟩,
        Select.ctxDone CtxErr.Canceled] ⟨0, []⟩).st.trace.count Call.build = 3 :=
  Run_survives_initial_build failingDeps sampleConfig ⟨false⟩
    [Select.event ⟨"/srv/a.go".toList, Watcher.Op.OpWrite, 1⟩,
      Select.event ⟨"/srv/b.go".toList, Watcher.Op.OpWrite, 2⟩,
      Select.ctxDone CtxErr.Canceled] ⟨0, []⟩ rfl rfl

end Engine

/-! ## Watcher loop -/

namespace Watcher

/-- Lookup after an assignment. -/
theorem Pending.find?_set (m : Pending) (k key : Str) (v : Event) :
    Pending.find? (Pending.set m k v) key = if k = key then some v else Pending.find? m key := by
  induction m with
  | nil => simp [Pending.set, Pending.find?]
  | cons e m ih =>
    obtain ⟨k1, w⟩ := e
    by_cases h1 : k1 = k
    · subst h1
      by_cases h2 : k1 = key <;> simp [Pending.set, Pending.find?, h2]
    · by_cases h2 : k1 = key
      · subst h2
        have h3 : ¬ k = k1 := fun h => h1 h.symm
        simp [Pending.set, Pending.find?, h1, h3]
      · simp [Pending.set, Pending.find?, h1, h2, ih]

theorem Pending.keys_set (m : Pending) (k : Str) (v : Event) :
    (Pending.set m k v).map Prod.fst =
      if k ∈ m.map Prod.fst then m.map Prod.fst else m.map Prod.fst ++ [k] := by
  induction m with
  | nil => simp [Pending.set]
  | cons e m ih =>
    obtain ⟨k1, w⟩ := e
    by_cases h1 : k1 = k
    · subst h1
      simp [Pending.set]
    · have h3 : ¬ k = k1 := fun h => h1 h.symm
      by_cases hm : k ∈ m.map Prod.fst
      · simp only [Pending.set, if_neg h1, List.map_cons, ih, if_pos hm]
        simp [hm]
      · simp only [Pending.set, if_neg h1, List.map_cons, ih, if_neg hm]
        have : ¬ k ∈ k1 :: m.map Prod.fst := by
          simp only [List.mem_cons, not_or]
          exact ⟨h3, hm⟩
        simp [this]

theorem Pending.nodup_set (m : Pending) (k : Str) (v : Event)
    (h : (m.map Prod.fst).Nodup) : ((Pending.set m k v).map Prod.fst).Nodup := by
  rw [Pending.keys_set]
  by_cases hm : k ∈ m.map Prod.fst
  · rw [if_pos hm]
    exact h
  · rw [if_neg hm]
    exact List.Nodup.append h (List.nodup_singleton k) (by simpa using hm)

theorem Pending.find?_isSome (m : Pending) (key : Str) :
    (Pending.find? m key).isSome = true ↔ key ∈ m.map Prod.fst := by
  induction m with
  | nil => simp [Pending.find?]
  | cons e m ih =>
    obtain ⟨k1, w⟩ := e
    by_cases h : k1 = key
    · simp [Pending.find?, h]
    · have h3 : ¬ key = k1 := fun e => h e.symm
      simp [Pending.find?, h, h3, ih]

theorem Pending.find?_of_mem (m : Pending) (k : Str) (v : Event)
    (hn : (m.map Prod.fst).Nodup) (h : (k, v) ∈ m) : Pending.find? m k = some v := by
  induction m with
  | nil => simp at h
  | cons e m ih =>
    obtain ⟨k1, w⟩ := e
    rw [List.map_cons, List.nodup_cons] at hn
    rcases List.mem_cons.mp h with h1 | h1
    · cases h1
      simp [Pending.find?]
    · have hk : k ∈ m.map Prod.fst := List.mem_map.mpr ⟨(k, v), h1, rfl⟩
      have hne : ¬ k1 = k := fun e => hn.1 (e ▸ hk)
      simp [Pending.find?, hne, ih hn.2 h1]

theorem Pending.wellKeyed_set (m : Pending) (k : Str) (v : Event)
    (h : Pending.WellKeyed m) (hv : v.Path = k) : Pending.WellKeyed (Pending.set m k v) := by
  induction m with
  | nil =>
    intro kv hkv
    simp [Pending.set] at hkv
    subst hkv
    exact hv
  | cons e m ih =>
    obtain ⟨k1, w⟩ := e
    have hm : Pending.WellKeyed m := fun kv hkv => h kv (List.mem_cons_of_mem _ hkv)
    by_cases h1 : k1 = k
    · subst h1
      intro kv hkv
      simp only [Pending.set, if_true, List.mem_cons] at hkv
      rcases hkv with rfl | hkv
      · exact hv
      · exact hm kv hkv
    · intro kv hkv
      simp only [Pending.set, if_neg h1, List.mem_cons] at hkv
      rcases hkv with rfl | hkv
      · exact h (k1, w) (List.mem_cons_self _ _)
      · exact ih hm kv hkv

theorem Pending.paths_eq_keys (m : Pending) (h : Pending.WellKeyed m) :
    (m.map Prod.snd).map Event.Path = m.map Prod.fst := by
  rw [List.map_map]
  exact List.map_congr_left (fun kv hkv => h kv hkv)

/-- A non-blocking send of a list of events fills the channel up to its
capacity. -/
theorem foldl_trySend (vals : Pending) (ch : List Event) :
    vals.foldl (fun ch kv => trySend ch kv.2) ch =
      ch ++ (vals.map Prod.snd).take (eventsCap - ch.length) := by
  induction vals generalizing ch with
  | nil => simp
  | cons kv vals ih =>
    rw [List.foldl_cons, ih]
    by_cases hroom : ch.length < eventsCap
    · have h1 : eventsCap - ch.length = (eventsCap - (ch.length + 1)) + 1 := by omega
      simp only [trySend, if_pos hroom, List.length_append, List.length_singleton,
        List.map_cons]
      rw [h1, List.take_succ_cons]
      simp
    · have h0 : eventsCap - ch.length = 0 := by omega
      simp [trySend, hroom, h0]

theorem emitted_eq (st : LoopState) :
    emitted st = (st.pending.map Prod.snd).take (eventsCap - st.events.length) := by
  unfold emitted flushEvents
  simp only [foldl_trySend]
  exact List.drop_left _ _

theorem handleEvent_accepted (cfg : Config) (isDir : Str → Bool) (st : LoopState)
    (event : RawEvent) (now : Time) (h : accepts cfg event = true) :
    (handleEvent cfg isDir st event now).pending =
        st.pending.set event.Name (toEvent (event, now)) ∧
      (handleEvent cfg isDir st event now).events = st.events := by
  unfold handleEvent
  unfold accepts at h
  cases hf : cfg.Filter with
  | none => simp [toEvent]
  | some f =>
    rw [hf] at h
    simp only at h
    simp [h, toEvent]

theorem getLast?_cons_eq {α : Type} (a : α) (l : List α) :
    (a :: l).getLast? = some (l.getLast?.getD a) := by
  cases l with
  | nil => rfl
  | cons b l =>
    rw [List.getLast?_cons_cons]
    cases h : (b :: l).getLast? with
    | none => simp at h
    | some x => rfl

theorem lastFor_cons (q : Str) (ev : RawEvent × Time) (evs : List (RawEvent × Time)) :
    lastFor q (ev :: evs) =
      match lastFor q evs with
      | some x => some x
      | none => if ev.1.Name = q then some ev else none := by
  unfold lastFor
  by_cases h : ev.1.Name = q
  · rw [List.filter_cons_of_pos (by simpa using h), getLast?_cons_eq]
    cases (List.filter (fun ev => decide (ev.1.Name = q)) evs).getLast? <;> simp [h]
  · rw [List.filter_cons_of_neg (by simpa using h)]
    cases (List.filter (fun ev => decide (ev.1.Name = q)) evs).getLast? <;> simp [h]

theorem lastFor_isSome (q : Str) (evs : List (RawEvent × Time)) :
    (lastFor q evs).isSome = true ↔ q ∈ evs.map (fun ev => ev.1.Name) := by
  induction evs with
  | nil => simp [lastFor]
  | cons ev evs ih =>
    rw [lastFor_cons]
    cases hl : lastFor q evs with
    | some x =>
      rw [hl] at ih
      have := ih.mp rfl
      simp only [List.map_cons, List.mem_cons]
      exact ⟨fun _ => Or.inr this, fun _ => rfl⟩
    | none =>
      rw [hl] at ih
      have hn : ¬ q ∈ evs.map (fun ev => ev.1.Name) := fun h => by
        have := ih.mpr h
        simp at this
      by_cases h : ev.1.Name = q
      · simp [h]
      · have h2 : ¬ q = ev.1.Name := fun e => h e.symm
        simp only [h, if_false, List.map_cons, List.mem_cons]
        exact ⟨fun hh => by simp at hh, fun hh => by
          rcases hh with hh | hh
          · exact absurd hh h2
          · exact absurd hh hn⟩

/-- The pending map after a sequence of accepted events. -/
theorem handleEvents_accepted (cfg : Config) (isDir : Str → Bool)
    (evs : List (RawEvent × Time)) (st : LoopState)
    (hacc : ∀ ev ∈ evs, accepts cfg ev.1 = true)
    (hn : (st.pending.map Prod.fst).Nodup) (hk : Pending.WellKeyed st.pending) :
    ((handleEvents cfg isDir st evs).pending.map Prod.fst).Nodup ∧
      Pending.WellKeyed (handleEvents cfg isDir st evs).pending ∧
      (handleEvents cfg isDir st evs).events = st.events ∧
      ∀ q, (handleEvents cfg isDir st evs).pending.find? q =
        match lastFor q evs with
        | some x => some (toEvent x)
        | none => st.pending.find? q := by
  induction evs generalizing st with
  | nil => exact ⟨hn, hk, rfl, fun q => rfl⟩
  | cons ev evs ih =>
    have ha := handleEvent_accepted cfg isDir st ev.1 ev.2 (hacc ev (List.mem_cons_self _ _))
    have hn1 : ((handleEvent cfg isDir st ev.1 ev.2).pending.map Prod.fst).Nodup := by
      rw [ha.1]
      exact Pending.nodup_set _ _ _ hn
    have hk1 : Pending.WellKeyed (handleEvent cfg isDir st ev.1 ev.2).pending := by
      rw [ha.1]
      exact Pending.wellKeyed_set _ _ _ hk rfl
    obtain ⟨i1, i2, i3, i4⟩ := ih (handleEvent cfg isDir st ev.1 ev.2)
      (fun e he => hacc e (List.mem_cons_of_mem _ he)) hn1 hk1
    refine ⟨i1, i2, i3.trans ha.2, fun q => ?_⟩
    show (handleEvents cfg isDir (handleEvent cfg isDir st ev.1 ev.2) evs).pending.find? q = _
    rw [i4 q, lastFor_cons]
    cases lastFor q evs with
    | some x => rfl
    | none =>
      simp only
      rw [ha.1, Pending.find?_set]
      by_cases h : ev.1.Name = q <;> simp [h]

theorem lastFor_of_all (p : Str) (evs : List (RawEvent × Time))
    (h : ∀ ev ∈ evs, ev.1.Name = p) : lastFor p evs = evs.getLast? := by
  unfold lastFor
  rw [List.filter_eq_self.mpr]
  intro ev hev
  simpa using h ev hev

/-- A map with distinct keys that are all `p` has at most one entry. -/
theorem Pending.eq_singleton (m : Pending) (p : Str) (v : Event)
    (hn : (m.map Prod.fst).Nodup) (hall : ∀ k ∈ m.map Prod.fst, k = p)
    (hf : Pending.find? m p = some v) : m = [(p, v)] := by
  cases m with
  | nil => simp [Pending.find?] at hf
  | cons e m =>
    obtain ⟨k1, w⟩ := e
    have hk1 : k1 = p := hall k1 (by simp)
    subst hk1
    cases m with
    | nil =>
      simp [Pending.find?] at hf
      rw [hf]
    | cons e2 m =>
      obtain ⟨k2, w2⟩ := e2
      have hk2 : k2 = k1 := hall k2 (by simp)
      subst hk2
      simp at hn

/-- C10: after any sequence of filter-accepted raw events handled since the
last flush, the pending map has distinct keys, exactly the paths received, and
holds for each path the event made from the last raw event received for it
(its op converted, its time); the next flush then emits at most one event per
path, each the pending one, and when all events are for one path and the
channel has room it emits exactly the event of the last one. -/
theorem pending_coalesces (cfg : Config) (isDir : Str → Bool) (st : LoopState)
    (evs : List (RawEvent × Time)) (hst : st.pending = [])
    (hacc : ∀ ev ∈ evs, accepts cfg ev.1 = true) :
    ((handleEvents cfg isDir st evs).pending.map Prod.fst).Nodup ∧
    (∀ q, q ∈ (handleEvents cfg isDir st evs).pending.map Prod.fst ↔
      q ∈ evs.map (fun ev => ev.1.Name)) ∧
    (∀ q, (handleEvents cfg isDir st evs).pending.find? q = (lastFor q evs).map toEvent) ∧
    ((emitted (handleEvents cfg isDir st evs)).map Event.Path).Nodup ∧
    (∀ e ∈ emitted (handleEvents cfg isDir st evs),
      (handleEvents cfg isDir st evs).pending.find? e.Path = some e) ∧
    (∀ p last, evs.getLast? = some last → (∀ ev ∈ evs, ev.1.Name = p) →
      st.events.length < eventsCap →
      emitted (handleEvents cfg isDir st evs) = [toEvent last]) := by
  have hn0 : (st.pending.map Prod.fst).Nodup := by simp [hst]
  have hk0 : Pending.WellKeyed st.pending := by
    intro kv hkv
    simp [hst] at hkv
  obtain ⟨hn, hk, hev, hfind⟩ := handleEvents_accepted cfg isDir evs st hacc hn0 hk0
  have hfind2 : ∀ q, (handleEvents cfg isDir st evs).pending.find? q =
      (lastFor q evs).map toEvent := by
    intro q
    rw [hfind q]
    cases lastFor q evs with
    | some x => rfl
    | none => simp [hst, Pending.find?]
  have hkeys : ∀ q, q ∈ (handleEvents cfg isDir st evs).pending.map Prod.fst ↔
      q ∈ evs.map (fun ev => ev.1.Name) := by
    intro q
    rw [← Pending.find?_isSome, hfind2 q, ← lastFor_isSome]
    cases lastFor q evs <;> simp
  refine ⟨hn, hkeys, hfind2, ?_, ?_, ?_⟩
  · rw [emitted_eq, ← List.map_take, List.map_map]
    have hsub : ((handleEvents cfg isDir st evs).pending.take
        (eventsCap - (handleEvents cfg isDir st evs).events.length)).map
          (Event.Path ∘ Prod.snd) =
        ((handleEvents cfg isDir st evs).pending.map Prod.fst).take
          (eventsCap - (handleEvents cfg isDir st evs).events.length) := by
      rw [← List.map_take]
      exact List.map_congr_left (fun kv hkv => hk kv (List.mem_of_mem_take hkv))
    rw [hsub]
    exact List.Nodup.sublist (List.take_sublist _ _) hn
  · intro e he
    rw [emitted_eq] at he
    have he2 := List.mem_of_mem_take he
    obtain ⟨kv, hkv, rfl⟩ := List.mem_map.mp he2
    have hp : kv.2.Path = kv.1 := hk kv hkv
    rw [hp]
    exact Pending.find?_of_mem _ kv.1 kv.2 hn hkv
  · intro p last hlast hall hroom
    have hf : (handleEvents cfg isDir st evs).pending.find? p = some (toEvent last) := by
      rw [hfind2 p, lastFor_of_all p evs hall, hlast]
      rfl
    have hone := Pending.eq_singleton _ p (toEvent last) hn
      (fun k hk2 => by
        obtain ⟨ev, hev2, rfl⟩ := List.mem_map.mp ((hkeys k).mp hk2)
        exact hall ev hev2) hf
    rw [emitted_eq, hone, hev]
    have hpos : eventsCap - st.events.length = (eventsCap - st.events.length - 1) + 1 := by
      omega
    rw [hpos]
    simp

/-- C10 witness: three writes to `/srv/a.go` handled at the instants 1, 2
and 3 are flushed as the one write event of instant 3. -/
theorem pending_coalesces_witness :
    emitted (handleEvents sampleConfig (fun _ => false) initialState
      [(⟨"/srv/a.go".toList, fsWrite⟩, 1), (⟨"/srv/a.go".toList, fsWrite⟩, 2),
        (⟨"/srv/a.go".toList, fsWrite⟩, 3)])
      = [⟨"/srv/a.go".toList, Op.OpWrite, 3⟩] :=
  (pending_coalesces sampleConfig (fun _ => false) initialState
    [(⟨"/srv/a.go".toList, fsWrite⟩, 1), (⟨"/srv/a.go".toList, fsWrite⟩, 2),
      (⟨"/srv/a.go".toList, fsWrite⟩, 3)] rfl (by decide)).2.2.2.2.2
    "/srv/a.go".toList (⟨"/srv/a.go".toList, fsWrite⟩, 3) rfl (by decide) (by decide)

/-- Asking for one bit is testing that bit. -/
theorem Has_two_pow (op : RawOp) (i : Nat) : Has op (2 ^ i) = op.testBit i := by
  unfold Has
  cases hb : op.testBit i
  · have hne : ¬ op &&& 2 ^ i = 2 ^ i := by
      intro h
      have h2 := congrArg (fun n => Nat.testBit n i) h
      simp only [Nat.testBit_and, hb, Nat.testBit_two_pow_self, Bool.false_and] at h2
      exact Bool.noConfusion h2
    simpa using hne
  · have heq : op &&& 2 ^ i = 2 ^ i := by
      apply Nat.eq_of_testBit_eq
      intro j
      rw [Nat.testBit_and, Nat.testBit_two_pow]
      by_cases hij : i = j
      · subst hij
        simp [hb]
      · simp [hij]
    simpa using heq

/-- C16: `convertOp` returns the first of Create, Write, Remove, Rename, Chmod
whose bit is set in the raw operation, and Write when none of the five bits
is set; the result is one of the five single operations. -/
theorem convertOp_priority (op : RawOp) :
    convertOp op = highestPriority op ∧
    convertOp op ∈ [Op.OpCreate, Op.OpWrite, Op.OpRemove, Op.OpRename, Op.OpChmod] := by
  have h0 : Has op fsCreate = op.testBit 0 := Has_two_pow op 0
  have h1 : Has op fsWrite = op.testBit 1 := Has_two_pow op 1
  have h2 : Has op fsRemove = op.testBit 2 := Has_two_pow op 2
  have h3 : Has op fsRename = op.testBit 3 := Has_two_pow op 3
  have h4 : Has op fsChmod = op.testBit 4 := Has_two_pow op 4
  unfold convertOp highestPriority opPriority
  rw [h0, h1, h2, h3, h4]
  simp only [List.find?]
  generalize op.testBit 0 = b0
  generalize op.testBit 1 = b1
  generalize op.testBit 2 = b2
  generalize op.testBit 3 = b3
  generalize op.testBit 4 = b4
  cases b0 <;> cases b1 <;> cases b2 <;> cases b3 <;> cases b4 <;> simp

/-- C13: a flush empties the pending map, keeps the events already in the
channel as a prefix, appends pending events, each entry at most once and in
map order, and stops at 100: the channel then holds
min(100, length before + number pending) events. -/
theorem flushEvents_frame (st : LoopState) (hcap : st.events.length ≤ eventsCap) :
    (flushEvents st).pending = [] ∧
    (flushEvents st).events = st.events ++ emitted st ∧
    (emitted st).Sublist (st.pending.map Prod.snd) ∧
    (∀ e ∈ emitted st, e ∈ st.pending.map Prod.snd) ∧
    (flushEvents st).events.length = min 100 (st.events.length + st.pending.length) := by
  have hev : (flushEvents st).events =
      st.events ++ (st.pending.map Prod.snd).take (eventsCap - st.events.length) := by
    unfold flushEvents
    simp only [foldl_trySend]
  have hem := emitted_eq st
  refine ⟨rfl, ?_, ?_, ?_, ?_⟩
  · rw [hem]
    exact hev
  · rw [hem]
    exact List.take_sublist _ _
  · intro e he
    rw [hem] at he
    exact List.mem_of_mem_take he
  · rw [hev, List.length_append, List.length_take, List.length_map]
    have : eventsCap = 100 := rfl
    omega

/-- C13 witness: a flush of one pending event into an empty channel. -/
theorem flushEvents_frame_witness :
    (flushEvents onePending).pending = [] ∧
    (flushEvents onePending).events = onePending.events ++ emitted onePending ∧
    (emitted onePending).Sublist (onePending.pending.map Prod.snd) ∧
    (∀ e ∈ emitted onePending, e ∈ onePending.pending.map Prod.snd) ∧
    (flushEvents onePending).events.length =
      min 100 (onePending.events.length + onePending.pending.length) :=
  flushEvents_frame onePending (by decide)

/-- An event the filter rejects leaves the loop state as it is. -/
theorem handleEvent_rejected (cfg : Config) (isDir : Str → Bool) (st : LoopState)
    (event : RawEvent) (now : Time) (h : accepts cfg event = false) :
    handleEvent cfg isDir st event now = st := by
  unfold handleEvent
  unfold accepts at h
  cases hf : cfg.Filter with
  | none =>
    rw [hf] at h
    simp at h
  | some f =>
    rw [hf] at h
    simp only at h
    simp [h]

/-- C11 (the code at the failing input): with the extensions `[.go]` the
Create event of the new directory `/srv/sub`, whose basename is not excluded,
is dropped by the filter before the directory is looked at, and nothing is
added to the OS subscription; without a filter the directory is added. -/
theorem handleEvent_new_directory_skipped :
    isExcludedDir sampleConfig "/srv/sub".toList = false ∧
    Has fsCreate fsCreate = true ∧
    accepts sampleConfig ⟨"/srv/sub".toList, fsCreate⟩ = false ∧
    (handleEvent sampleConfig (fun _ => true) initialState
      ⟨"/srv/sub".toList, fsCreate⟩ 1).added = [] ∧
    (handleEvent { sampleConfig with Filter := none } (fun _ => true) initialState
      ⟨"/srv/sub".toList, fsCreate⟩ 1).added = ["/srv/sub".toList] := by
  refine ⟨by decide, by decide, by decide, ?_, by decide⟩
  rw [handleEvent_rejected sampleConfig _ _ _ _ (by decide)]
  rfl

/-- C12 (the code at the failing input): when the loop ends because `Close`
was called, the timer is stopped but the pending event is not sent and stays
in the map; when it ends because the context is done, the same pending event
is flushed to the channel. -/
theorem shutdown_closed_keeps_pending :
    (shutdown onePending Shutdown.closed).timerActive = false ∧
    (shutdown onePending Shutdown.closed).events = [] ∧
    (shutdown onePending Shutdown.closed).pending = onePending.pending ∧
    (shutdown onePending Shutdown.ctxDone).timerActive = false ∧
    (shutdown onePending Shutdown.ctxDone).events = [⟨"/srv/a.go".toList, Op.OpWrite, 7⟩] ∧
    (shutdown onePending Shutdown.ctxDone).pending = [] := by
  refine ⟨by decide, by decide, by decide, by decide, by decide, by decide⟩

end Watcher

/-! ## Builder -/

namespace Builder

/-- A character that is no quote is a separator outside quotes when it is a
space and part of the argument otherwise. -/
theorem parseStep_plain (st : ParseState) (r : Char) (h1 : r ≠ doubleQuote)
    (h2 : r ≠ singleQuote) (hq : st.inQuote = false) :
    parseStep st r =
      if r = ' ' then
        (if st.current.length > 0 then { st with args := st.args ++ [st.current], current := [] }
          else st)
      else { st with current := st.current ++ [r] } := by
  unfold parseStep
  simp [h1, h2, hq]

/-- Without quote characters the loop follows the split on spaces. -/
theorem foldl_parseStep_unquoted (cmd : Str) (args : List Str) (cur : Str) (z : Char)
    (h1 : doubleQuote ∉ cmd) (h2 : singleQuote ∉ cmd) :
    finish (cmd.foldl parseStep ⟨args, cur, false, z⟩) =
      args ++ (GoStrings.splitAux ' ' cmd cur.reverse).filter (fun t => t ≠ []) := by
  induction cmd generalizing args cur with
  | nil =>
    by_cases hc : cur = []
    · simp [finish, GoStrings.splitAux, hc]
    · have : 0 < cur.length := List.length_pos.mpr hc
      simp [finish, GoStrings.splitAux, hc, this]
  | cons c cs ih =>
    have hc1 : c ≠ doubleQuote := fun e => h1 (e ▸ List.mem_cons_self _ _)
    have hc2 : c ≠ singleQuote := fun e => h2 (e ▸ List.mem_cons_self _ _)
    have hs1 : doubleQuote ∉ cs := fun h => h1 (List.mem_cons_of_mem _ h)
    have hs2 : singleQuote ∉ cs := fun h => h2 (List.mem_cons_of_mem _ h)
    rw [List.foldl_cons, parseStep_plain _ c hc1 hc2 rfl]
    by_cases hsp : c = ' '
    · subst hsp
      by_cases hc : cur = []
      · subst hc
        simp only [List.length_nil, Nat.lt_irrefl, if_false, if_true]
        rw [ih args [] hs1 hs2]
        simp [GoStrings.splitAux]
      · have hpos : 0 < cur.length := List.length_pos.mpr hc
        simp only [if_true, gt_iff_lt, hpos]
        rw [ih (args ++ [cur]) [] hs1 hs2]
        simp [GoStrings.splitAux, hc]
    · simp only [if_neg hsp]
      rw [ih args (cur ++ [c]) hs1 hs2]
      simp [GoStrings.splitAux, hsp]

/-- C17: on a command without quote characters `parseCommand` returns the
non-empty pieces of the split on the space character, in order; so the empty
string and strings of spaces give no token. -/
theorem parseCommand_unquoted (cmd : Str) (h1 : doubleQuote ∉ cmd)
    (h2 : singleQuote ∉ cmd) :
    parseCommand cmd = (GoStrings.Split cmd ' ').filter (fun t => t ≠ []) ∧
    (∀ t ∈ parseCommand cmd, t ≠ []) := by
  have h := foldl_parseStep_unquoted cmd [] [] (Char.ofNat 0) h1 h2
  have h3 : parseCommand cmd = (GoStrings.Split cmd ' ').filter (fun t => t ≠ []) := by
    unfold parseCommand ParseState.init GoStrings.Split
    rw [h]
    simp
  refine ⟨h3, ?_⟩
  intro t ht
  rw [h3] at ht
  simpa using (List.mem_filter.mp ht).2

/-- C17 witness: runs of spaces and spaces at both ends. -/
theorem parseCommand_unquoted_witness :
    parseCommand "  go   build -o  main ".toList =
      ["go".toList, "build".toList, "-o".toList, "main".toList] := by
  have h := (parseCommand_unquoted "  go   build -o  main ".toList (by decide) (by decide)).1
  rw [h]
  decide

/-- Inside a span opened by `q` every character but `q` is appended. -/
theorem foldl_parseStep_inside (q : Char) (s : Str)
    (args : List Str) (cur : Str) (hs : q ∉ s) :
    s.foldl parseStep ⟨args, cur, true, q⟩ = ⟨args, cur ++ s, true, q⟩ := by
  induction s generalizing cur with
  | nil => simp
  | cons c cs ih =>
    have hc : c ≠ q := fun e => hs (e ▸ List.mem_cons_self _ _)
    have hcs : q ∉ cs := fun h => hs (List.mem_cons_of_mem _ h)
    rw [List.foldl_cons]
    have hstep : parseStep ⟨args, cur, true, q⟩ c = ⟨args, cur ++ [c], true, q⟩ := by
      unfold parseStep
      by_cases hquote : c = doubleQuote ∨ c = singleQuote
      · simp [hquote, hc]
      · simp [hquote]
    rw [hstep, ih (cur ++ [c]) hcs]
    simp

/-- A quoted span read from outside quotes: the two quotes go, the text
between them is appended to the argument being read. -/
theorem foldl_parseStep_span (q : Char) (hq : q = doubleQuote ∨ q = singleQuote) (s rest : Str)
    (args : List Str) (cur : Str) (z : Char) (hs : q ∉ s) :
    (q :: (s ++ q :: rest)).foldl parseStep ⟨args, cur, false, z⟩ =
      rest.foldl parseStep ⟨args, cur ++ s, false, Char.ofNat 0⟩ := by
  have hopen : parseStep ⟨args, cur, false, z⟩ q = ⟨args, cur, true, q⟩ := by
    unfold parseStep
    simp [hq]
  have hclose : parseStep ⟨args, cur ++ s, true, q⟩ q =
      ⟨args, cur ++ s, false, Char.ofNat 0⟩ := by
    unfold parseStep
    simp [hq]
  rw [List.foldl_cons, hopen, List.foldl_append, foldl_parseStep_inside q s args cur hs,
    List.foldl_cons, hclose]

/-- C18: a span between two quotes of one kind, read from outside quotes, is
literal: whatever it holds but that quote (spaces, quotes of the other kind)
is appended to the argument being read and the two quotes are dropped; so a
non-empty text without that quote, wrapped in it, parses to itself as the
only argument. -/
theorem parseCommand_quoted_span (q : Char) (s : Str)
    (hq : q = doubleQuote ∨ q = singleQuote) (hs : q ∉ s) :
    (∀ (args : List Str) (cur rest : Str) (z : Char),
      (q :: (s ++ q :: rest)).foldl parseStep ⟨args, cur, false, z⟩ =
        rest.foldl parseStep ⟨args, cur ++ s, false, Char.ofNat 0⟩) ∧
    (s ≠ [] → parseCommand (q :: (s ++ [q])) = [s]) := by
  refine ⟨fun args cur rest z => foldl_parseStep_span q hq s rest args cur z hs, ?_⟩
  intro hne
  unfold parseCommand ParseState.init
  rw [foldl_parseStep_span q hq s [] [] [] _ hs]
  have : 0 < s.length := List.length_pos.mpr hne
  simp [finish, this]

/-- C18 witness: a double-quoted span with spaces and a single quote. -/
theorem parseCommand_quoted_span_witness :
    parseCommand (doubleQuote :: ("-X main.v=it is".toList ++ [singleQuote] ++ [doubleQuote]))
      = ["-X main.v=it is".toList ++ [singleQuote]] :=
  (parseCommand_quoted_span doubleQuote ("-X main.v=it is".toList ++ [singleQuote])
    (Or.inl rfl) (by decide)).2 (by decide)

theorem parseStep_settled (st : ParseState) (r : Char) (h : st.Settled) :
    (parseStep st r).Settled := by
  obtain ⟨args, cur, inq, qc⟩ := st
  unfold ParseState.Settled at h ⊢
  unfold parseStep
  simp only at h ⊢
  by_cases hquote : r = doubleQuote ∨ r = singleQuote <;>
    by_cases hsp : r = ' ' <;>
    by_cases hcur : 0 < cur.length <;>
    by_cases hc : r = qc <;>
    cases inq <;> simp_all

theorem foldl_parseStep_settled (cmd : Str) (st : ParseState) (h : st.Settled) :
    (cmd.foldl parseStep st).Settled := by
  induction cmd generalizing st with
  | nil => exact h
  | cons c cs ih => exact ih _ (parseStep_settled st c h)

/-- The body of the loop only appends to the arguments it has. -/
theorem parseStep_args_prefix (pre : List Str) (st : ParseState) (r : Char) :
    parseStep { st with args := pre ++ st.args } r =
      { parseStep st r with args := pre ++ (parseStep st r).args } := by
  obtain ⟨args, cur, inq, qc⟩ := st
  unfold parseStep
  simp only
  by_cases hquote : r = doubleQuote ∨ r = singleQuote <;>
    by_cases hsp : r = ' ' <;>
    by_cases hcur : 0 < cur.length <;>
    by_cases hc : r = qc <;>
    cases inq <;> simp_all

theorem foldl_parseStep_args_prefix (pre : List Str) (cmd : Str) (st : ParseState) :
    cmd.foldl parseStep { st with args := pre ++ st.args } =
      { cmd.foldl parseStep st with args := pre ++ (cmd.foldl parseStep st).args } := by
  induction cmd generalizing st with
  | nil => rfl
  | cons c cs ih =>
    rw [List.foldl_cons, List.foldl_cons, parseStep_args_prefix, ← ih]

theorem finish_args_prefix (pre : List Str) (st : ParseState) :
    finish { st with args := pre ++ st.args } = pre ++ finish st := by
  unfold finish
  split <;> simp

/-- C19 (amended): a space outside quotes ends the argument before it: the
command splits there into the arguments of what precedes and the arguments of
what follows, so no argument holds that space. -/
theorem parseCommand_unquoted_space (a b : Str) (h : endsInQuote a = false) :
    parseCommand (a ++ ' ' :: b) = parseCommand a ++ parseCommand b := by
  have hset := foldl_parseStep_settled a ParseState.init (fun _ => rfl)
  unfold endsInQuote at h
  have hz := hset h
  unfold parseCommand
  rw [List.foldl_append, List.foldl_cons]
  generalize a.foldl parseStep ParseState.init = sa at h hz
  obtain ⟨args, cur, inq, qc⟩ := sa
  simp only at h hz
  subst h
  subst hz
  have hstep : parseStep ⟨args, cur, false, Char.ofNat 0⟩ ' ' =
      { ParseState.init with args := finish ⟨args, cur, false, Char.ofNat 0⟩ ++
        ParseState.init.args } := by
    have h1 : (' ' : Char) ≠ doubleQuote := by decide
    have h2 : (' ' : Char) ≠ singleQuote := by decide
    rw [parseStep_plain _ _ h1 h2 rfl]
    by_cases hcur : 0 < cur.length
    · simp [finish, hcur, ParseState.init]
    · simp [finish, hcur, ParseState.init]
      simpa using hcur
  rw [hstep, foldl_parseStep_args_prefix, finish_args_prefix]

/-- C19 witness: the space between two words. -/
theorem parseCommand_unquoted_space_witness :
    parseCommand ("go".toList ++ ' ' :: "build".toList) =
      parseCommand "go".toList ++ parseCommand "build".toList :=
  parseCommand_unquoted_space "go".toList "build".toList (by decide)

/-- C19 (as stated) fails: a tab or a newline outside quotes does not split;
the two words stay one argument that holds the tab or the newline. -/
theorem parseCommand_tab_counterexample :
    parseCommand "go\tbuild".toList = ["go\tbuild".toList] ∧
    parseCommand "go\nbuild".toList = ["go\nbuild".toList] ∧
    endsInQuote "go".toList = false ∧
    '\t' ∈ "go\tbuild".toList ∧ '\n' ∈ "go\nbuild".toList := by
  refine ⟨by decide, by decide, by decide, by decide, by decide⟩

/-- A string of spaces has no argument. -/
theorem parseCommand_spaces (n : Nat) : parseCommand (List.replicate n ' ') = [] := by
  have h := foldl_parseStep_unquoted (List.replicate n ' ') [] [] (Char.ofNat 0)
    (fun hm => by
      have := List.eq_of_mem_replicate hm
      revert this
      decide)
    (fun hm => by
      have := List.eq_of_mem_replicate hm
      revert this
      decide)
  unfold parseCommand ParseState.init
  rw [h]
  have hsplit : ∀ k, GoStrings.splitAux ' ' (List.replicate k ' ') [] =
      List.replicate (k + 1) [] := by
    intro k
    induction k with
    | zero => rfl
    | succ k ih =>
      rw [List.replicate_succ, GoStrings.splitAux]
      simp only [if_true, List.reverse_nil]
      rw [ih]
      rfl
  rw [List.reverse_nil, hsplit]
  simp [List.filter_eq_nil_iff]

/-- C20: when the tmp dir can be created and the build command parses to no
argument, as the empty string and every string of spaces do, `Build` runs no
command and returns a failed result with empty output and the error `empty
build command`. -/
theorem Build_empty_command (env : Env) (cfg : Config)
    (htmp : ensureTmpDir env cfg = none) (hcmd : parseCommand cfg.Cmd = []) :
    Build env cfg = (⟨false, [], env.since, some BuildErr.emptyCommand⟩, []) ∧
    (∀ n, parseCommand (List.replicate n ' ') = []) := by
  refine ⟨?_, parseCommand_spaces⟩
  unfold Build
  simp only [htmp, hcmd]

/-- C20 witness: a build command of three spaces. -/
theorem Build_empty_command_witness :
    Build quietEnv ⟨"   ".toList, "./tmp/main".toList, "tmp".toList, "/srv".toList⟩ =
      (⟨false, [], 5, some BuildErr.emptyCommand⟩, []) :=
  (Build_empty_command quietEnv ⟨"   ".toList, "./tmp/main".toList, "tmp".toList, "/srv".toList⟩
    rfl (by decide)).1

end Builder

/-! ## Watcher start and close -/

namespace Watcher

theorem anyExcluded_iff (base : Str) (l : List Str) : anyExcluded base l = true ↔ base ∈ l := by
  induction l with
  | nil => simp [anyExcluded]
  | cons x l ih =>
    by_cases h : base = x
    · simp [anyExcluded, h]
    · simp [anyExcluded, h, ih]

theorem isExcludedDir_iff (cfg : Config) (path : Str) :
    isExcludedDir cfg path = true ↔ Filepath.Base path ∈ cfg.ExcludeDirs :=
  anyExcluded_iff _ _

theorem watcher.SameBut.refl (w : watcher) : w.SameBut w := rfl

theorem watcher.SameBut.trans {w w1 w2 : watcher} (h1 : w.SameBut w1) (h2 : w1.SameBut w2) :
    w.SameBut w2 := by
  unfold watcher.SameBut at *
  rw [h2, h1]

theorem fwAdd_sameBut (world : World) (w : watcher) (path : Str) :
    w.SameBut (fwAdd world w path).2 := by
  unfold fwAdd
  split
  · rfl
  · split <;> rfl

theorem walkFn_sameBut (world : World) (path : Str) (node : Node) (w : watcher) :
    w.SameBut (walkFn world path node w).2 := by
  unfold walkFn
  cases node with
  | file => rfl
  | failing e => rfl
  | dir es =>
    simp only
    split
    · rfl
    · have h := fwAdd_sameBut world w path
      split <;> rename_i heq <;> rw [heq] at h <;> exact h

mutual
/-- A walk changes nothing of the watcher but the watched paths. -/
theorem walk_sameBut (world : World) (path : Str) (node : Node) (w : watcher) :
    w.SameBut (walk world path node w).2 := by
  cases node with
  | file =>
    rw [walk]
    exact walkFn_sameBut world path Node.file w
  | failing e =>
    rw [walk]
    exact walkFn_sameBut world path (Node.failing e) w
  | dir es =>
    rw [walk]
    have h := walkFn_sameBut world path (Node.dir es) w
    split
    · rename_i w1 heq
      rw [heq] at h
      exact h.trans (walkEntries_sameBut world path es w1)
    · exact h
theorem walkEntries_sameBut (world : World) (path : Str) (es : List (Str × Node))
    (w : watcher) : w.SameBut (walkEntries world path es w).2 := by
  cases es with
  | nil =>
    rw [walkEntries]
    exact watcher.SameBut.refl w
  | cons e rest =>
    obtain ⟨name, n⟩ := e
    cases n with
    | file =>
      rw [walkEntries]
      have h := walk_sameBut world (Filepath.Join path name) Node.file w
      split
      · rename_i w1 heq
        rw [heq] at h
        exact h.trans (walkEntries_sameBut world path rest w1)
      · exact h
    | failing e =>
      rw [walkEntries]
      have h := walk_sameBut world (Filepath.Join path name) (Node.failing e) w
      split
      · rename_i w1 heq
        rw [heq] at h
        exact h.trans (walkEntries_sameBut world path rest w1)
      · rename_i w1 heq
        rw [heq] at h
        exact h.trans (walkEntries_sameBut world path rest w1)
      · exact h
    | dir es2 =>
      rw [walkEntries]
      have h := walk_sameBut world (Filepath.Join path name) (Node.dir es2) w
      split
      · rename_i e1 w1 heq
        rw [heq] at h
        exact h
      · rename_i r w1 hne heq
        rw [heq] at h
        exact h.trans (walkEntries_sameBut world path rest w1)
end

theorem addRecursive_sameBut (world : World) (root : Str) (w : watcher) :
    w.SameBut (addRecursive world root w).2 := by
  unfold addRecursive
  have h := walk_sameBut world root (world.fs root) w
  split <;> rename_i heq <;> rw [heq] at h <;> exact h

theorem addDirs_sameBut (world : World) (dirs : List Str) (w : watcher) :
    w.SameBut (addDirs world dirs w).2 := by
  induction dirs generalizing w with
  | nil => exact watcher.SameBut.refl w
  | cons dir rest ih =>
    rw [addDirs]
    have h := addRecursive_sameBut world (watchDir w.cfg dir) w
    split
    · rename_i e w1 heq
      rw [heq] at h
      exact h
    · rename_i w1 heq
      rw [heq] at h
      exact h.trans (ih w1)

/-- Every `Start` leaves the watcher started and touches neither the done
channel nor the closed flag of `fw`. -/
theorem Start_frame (world : World) (w : watcher) :
    (Start world w).2.started = true ∧ (Start world w).2.doneClosed = w.doneClosed ∧
      (Start world w).2.doneCloses = w.doneCloses ∧ (Start world w).2.fwClosed = w.fwClosed ∧
      (Start world w).2.cfg = w.cfg := by
  unfold Start
  cases hs : w.started
  · simp only [Bool.false_eq_true, if_false]
    have h := addDirs_sameBut world w.cfg.Dirs { w with started := true }
    split
    · rename_i e w1 heq
      rw [heq] at h
      unfold watcher.SameBut at h
      simp only at h
      rw [h]
      exact ⟨rfl, rfl, rfl, rfl, rfl⟩
    · rename_i w1 heq
      rw [heq] at h
      unfold watcher.SameBut at h
      simp only at h
      rw [h]
      exact ⟨rfl, rfl, rfl, rfl, rfl⟩
  · simp [hs]

theorem Start_of_started (world : World) (w : watcher) (h : w.started = true) :
    Start world w = (some WatcherErr.alreadyStarted, w) := by
  unfold Start
  simp [h]

theorem Close_of_closed (world : World) (w : watcher) (h1 : w.doneClosed = true)
    (h2 : w.fwClosed = true) : Close world w = (none, w) := by
  unfold Close
  simp [h1, h2]

theorem Close_closed (world : World) (w : watcher) :
    (Close world w).2.doneClosed = true ∧ (Close world w).2.fwClosed = true := by
  unfold Close
  cases h1 : w.doneClosed <;> cases h2 : w.fwClosed <;> simp [h1, h2]

/-- C15: `Start` on a started watcher returns the `already started` error and
changes nothing, so launches no loop; every `Start` leaves the watcher started
and none undoes a `Close`; `Close` closes the done channel at most once and
leaves the watcher closed, where a further `Close` returns nil and changes
nothing. -/
theorem watcher_state_machine (world world2 : World) (w : watcher) :
    (w.started = true → Start world w = (some WatcherErr.alreadyStarted, w)) ∧
    (Start world w).2.started = true ∧
    (Start world w).2.doneClosed = w.doneClosed ∧
    Start world2 (Start world w).2 = (some WatcherErr.alreadyStarted, (Start world w).2) ∧
    (Close world w).2.doneClosed = true ∧
    (Close world w).2.started = w.started ∧
    (Close world w).2.doneCloses = (if w.doneClosed then w.doneCloses else w.doneCloses + 1) ∧
    Close world2 (Close world w).2 = (none, (Close world w).2) := by
  have hf := Start_frame world w
  have hc := Close_closed world w
  refine ⟨Start_of_started world w, hf.1, hf.2.1, Start_of_started world2 _ hf.1, hc.1, ?_, ?_,
    Close_of_closed world2 _ hc.1 hc.2⟩
  · unfold Close
    cases h1 : w.doneClosed <;> cases h2 : w.fwClosed <;> simp [h1, h2]
  · unfold Close
    cases h1 : w.doneClosed <;> cases h2 : w.fwClosed <;> simp [h1, h2]

theorem watcher.adding_nil (w : watcher) : w.adding [] = w := by
  simp [watcher.adding]

theorem watcher.adding_adding (w : watcher) (l1 l2 : List Str) :
    (w.adding l1).adding l2 = w.adding (l1 ++ l2) := by
  simp [watcher.adding]

/-- The walk function on a directory with an excluded basename. -/
theorem walkFn_dir_excluded (world : World) (path : Str) (es : List (Str × Node)) (w : watcher)
    (hex : isExcludedDir w.cfg path = true) :
    walkFn world path (Node.dir es) w = (WalkResult.skipDir, w) := by
  simp [walkFn, hex]

/-- The walk function on a directory that is not excluded, when `fw` is open
and the watch on it can be set. -/
theorem walkFn_dir_added (world : World) (path : Str) (es : List (Str × Node)) (w : watcher)
    (hex : isExcludedDir w.cfg path = false) (hadd : world.addErr path = none)
    (hopen : w.fwClosed = false) :
    walkFn world path (Node.dir es) w = (WalkResult.ok, w.adding [path]) := by
  obtain ⟨cfg, st, dc, dcs, fc, wd, lp⟩ := w
  simp only at hopen hex
  subst hopen
  simp [walkFn, fwAdd, hadd, hex, watcher.adding]

mutual
/-- A walk that meets no failing entry and whose watches can be set fails
nowhere and adds the reachable directories. -/
theorem walk_walkable (world : World) (path : Str) (node : Node) (w : watcher)
    (hh : node.walkable w.cfg path = true)
    (hadd : ∀ q, Reach w.cfg path node q → world.addErr q = none)
    (hopen : w.fwClosed = false) :
    ∃ l, (walk world path node w).2 = w.adding l ∧
      (∀ e, (walk world path node w).1 ≠ WalkResult.err e) ∧
      (∀ q, q ∈ l ↔ Reach w.cfg path node q) := by
  cases node with
  | file =>
    refine ⟨[], ?_, ?_, ?_⟩
    · rw [walk, watcher.adding_nil]
      rfl
    · intro e
      rw [walk]
      simp [walkFn]
    · intro q
      constructor
      · intro h
        simp at h
      · intro h
        cases h
  | failing e =>
    simp [Node.walkable] at hh
  | dir es =>
    by_cases hex : isExcludedDir w.cfg path = true
    · rw [walk, walkFn_dir_excluded world path es w hex]
      refine ⟨[], ?_, ?_, ?_⟩
      · simp [watcher.adding_nil]
      · intro e
        simp
      · intro q
        constructor
        · intro h
          simp at h
        · intro h
          have hb := (isExcludedDir_iff w.cfg path).mp hex
          cases h with
          | self _ _ hn => exact absurd hb hn
          | inside _ _ _ _ _ hn _ _ => exact absurd hb hn
    · have hex2 : isExcludedDir w.cfg path = false := by simpa using hex
      have hnb : Filepath.Base path ∉ w.cfg.ExcludeDirs :=
        fun hb => hex ((isExcludedDir_iff w.cfg path).mpr hb)
      have hp : world.addErr path = none := hadd path (Reach.self path es hnb)
      have hes : walkableEntries w.cfg path es = true := by
        rw [Node.walkable, hex2] at hh
        simpa using hh
      obtain ⟨l, h1, h2, h3⟩ := walkEntries_walkable world path es (w.adding [path]) hes
        (fun name child q hm hr => hadd q (Reach.inside path es name child q hnb hm hr)) hopen
      rw [walk, walkFn_dir_added world path es w hex2 hp hopen]
      refine ⟨path :: l, ?_, ?_, ?_⟩
      · simp only
        rw [h1, watcher.adding_adding]
        rfl
      · intro e
        simp only
        rw [h2]
        simp
      · intro q
        constructor
        · intro h
          rcases List.mem_cons.mp h with h | h
          · subst h
            exact Reach.self _ es hnb
          · obtain ⟨name, child, hm, hr⟩ := (h3 q).mp h
            exact Reach.inside path es name child q hnb hm hr
        · intro h
          cases h with
          | self _ _ _ => exact List.mem_cons_self _ _
          | inside _ _ name child _ _ hm hr =>
            exact List.mem_cons_of_mem _ ((h3 q).mpr ⟨name, child, hm, hr⟩)
/-- The loop over entries from which the walk meets no failing entry ends
without error and adds what is reachable through each of them. -/
theorem walkEntries_walkable (world : World) (path : Str) (es : List (Str × Node))
    (w : watcher) (hh : walkableEntries w.cfg path es = true)
    (hadd : ∀ name child q, (name, child) ∈ es →
      Reach w.cfg (Filepath.Join path name) child q → world.addErr q = none)
    (hopen : w.fwClosed = false) :
    ∃ l, (walkEntries world path es w).2 = w.adding l ∧
      (walkEntries world path es w).1 = WalkResult.ok ∧
      (∀ q, q ∈ l ↔ ∃ name child, (name, child) ∈ es ∧
        Reach w.cfg (Filepath.Join path name) child q) := by
  cases es with
  | nil =>
    refine ⟨[], ?_, ?_, ?_⟩
    · rw [walkEntries, watcher.adding_nil]
    · rw [walkEntries]
    · intro q
      simp
  | cons e rest =>
    obtain ⟨name, n⟩ := e
    rw [walkableEntries, Bool.and_eq_true] at hh
    have hrest : ∀ nm child q, (nm, child) ∈ rest →
        Reach w.cfg (Filepath.Join path nm) child q → world.addErr q = none :=
      fun nm child q hm hr => hadd nm child q (List.mem_cons_of_mem _ hm) hr
    cases n with
    | failing e =>
      have := hh.1
      simp [Node.walkable] at this
    | file =>
      obtain ⟨l, h1, h2, h3⟩ := walkEntries_walkable world path rest w hh.2 hrest hopen
      have hw : walk world (Filepath.Join path name) Node.file w = (WalkResult.ok, w) := by
        rw [walk]
        rfl
      refine ⟨l, ?_, ?_, ?_⟩
      · rw [walkEntries, hw]
        exact h1
      · rw [walkEntries, hw]
        exact h2
      · intro q
        rw [h3 q]
        constructor
        · rintro ⟨nm, child, hm, hr⟩
          exact ⟨nm, child, List.mem_cons_of_mem _ hm, hr⟩
        · rintro ⟨nm, child, hm, hr⟩
          rcases List.mem_cons.mp hm with hm | hm
          · cases hm
            cases hr
          · exact ⟨nm, child, hm, hr⟩
    | dir es2 =>
      obtain ⟨l1, a1, a2, a3⟩ :=
        walk_walkable world (Filepath.Join path name) (Node.dir es2) w hh.1
          (fun q hr => hadd name (Node.dir es2) q (List.mem_cons_self _ _) hr) hopen
      obtain ⟨l2, b1, b2, b3⟩ :=
        walkEntries_walkable world path rest (w.adding l1) hh.2 hrest hopen
      have hstep : walkEntries world path ((name, Node.dir es2) :: rest) w =
          walkEntries world path rest (w.adding l1) := by
        rw [walkEntries]
        cases hres : walk world (Filepath.Join path name) (Node.dir es2) w with
        | mk r w1 =>
          rw [hres] at a1 a2
          simp only at a1 a2
          subst a1
          cases r with
          | ok => rfl
          | skipDir => rfl
          | err e => exact absurd rfl (a2 e)
      refine ⟨l1 ++ l2, ?_, ?_, ?_⟩
      · rw [hstep, b1, watcher.adding_adding]
      · rw [hstep, b2]
      · intro q
        rw [List.mem_append, a3 q, b3 q]
        constructor
        · rintro (hr | ⟨nm, child, hm, hr⟩)
          · exact ⟨name, Node.dir es2, List.mem_cons_self _ _, hr⟩
          · exact ⟨nm, child, List.mem_cons_of_mem _ hm, hr⟩
        · rintro ⟨nm, child, hm, hr⟩
          rcases List.mem_cons.mp hm with hm | hm
          · cases hm
            exact Or.inl hr
          · exact Or.inr ⟨nm, child, hm, hr⟩
end

theorem addRecursive_walkable (world : World) (root : Str) (w : watcher)
    (hh : (world.fs root).walkable w.cfg root = true)
    (hadd : ∀ q, Reach w.cfg root (world.fs root) q → world.addErr q = none)
    (hopen : w.fwClosed = false) :
    ∃ l, addRecursive world root w = (none, w.adding l) ∧
      (∀ q, q ∈ l ↔ Reach w.cfg root (world.fs root) q) := by
  obtain ⟨l, h1, h2, h3⟩ := walk_walkable world root (world.fs root) w hh hadd hopen
  refine ⟨l, ?_, h3⟩
  unfold addRecursive
  cases hres : walk world root (world.fs root) w with
  | mk r w1 =>
    rw [hres] at h1 h2
    simp only at h1 h2
    subst h1
    cases r with
    | ok => rfl
    | skipDir => rfl
    | err e => exact absurd rfl (h2 e)

theorem addDirs_walkable (world : World) (dirs : List Str) (w : watcher)
    (hh : ∀ dir ∈ dirs,
      (world.fs (watchDir w.cfg dir)).walkable w.cfg (watchDir w.cfg dir) = true)
    (hadd : ∀ dir ∈ dirs, ∀ q,
      Reach w.cfg (watchDir w.cfg dir) (world.fs (watchDir w.cfg dir)) q →
        world.addErr q = none)
    (hopen : w.fwClosed = false) :
    ∃ l, addDirs world dirs w = (none, w.adding l) ∧
      (∀ q, q ∈ l ↔ ∃ dir ∈ dirs,
        Reach w.cfg (watchDir w.cfg dir) (world.fs (watchDir w.cfg dir)) q) := by
  induction dirs generalizing w with
  | nil =>
    refine ⟨[], ?_, ?_⟩
    · rw [addDirs, watcher.adding_nil]
    · intro q
      simp
  | cons dir rest ih =>
    obtain ⟨l1, a1, a2⟩ := addRecursive_walkable world (watchDir w.cfg dir) w
      (hh dir (List.mem_cons_self _ _)) (hadd dir (List.mem_cons_self _ _)) hopen
    obtain ⟨l2, b1, b2⟩ := ih (w.adding l1)
      (fun d hd => hh d (List.mem_cons_of_mem _ hd))
      (fun d hd => hadd d (List.mem_cons_of_mem _ hd)) hopen
    refine ⟨l1 ++ l2, ?_, ?_⟩
    · rw [addDirs, a1]
      simp only
      rw [b1, watcher.adding_adding]
    · intro q
      rw [List.mem_append, a2 q, b2 q]
      constructor
      · rintro (hr | ⟨d, hd, hr⟩)
        · exact ⟨dir, List.mem_cons_self _ _, hr⟩
        · exact ⟨d, List.mem_cons_of_mem _ hd, hr⟩
      · rintro ⟨d, hd, hr⟩
        rcases List.mem_cons.mp hd with hd | hd
        · subst hd
          exact Or.inl hr
        · exact Or.inr ⟨d, hd, hr⟩

/-- C14 (amended): when the walk from each configured directory meets no
entry that cannot be read outside the directories with an excluded basename,
and the watch on every directory reached can be set, `Start` of a new watcher
returns nil, launches the loop and has registered exactly the directories at
or below a configured directory that are reached without entering a
directory with an excluded basename: no file, no excluded directory and
nothing below one. -/
theorem Start_registers (world : World) (cfg : Config)
    (hfs : ∀ dir ∈ cfg.Dirs,
      (world.fs (watchDir cfg dir)).walkable cfg (watchDir cfg dir) = true)
    (hadd : ∀ dir ∈ cfg.Dirs, ∀ q,
      Reach cfg (watchDir cfg dir) (world.fs (watchDir cfg dir)) q → world.addErr q = none) :
    (Start world (New cfg)).1 = none ∧
    (Start world (New cfg)).2.loops = 1 ∧
    (∀ q, q ∈ (Start world (New cfg)).2.watched ↔
      ∃ dir ∈ cfg.Dirs, Reach cfg (watchDir cfg dir) (world.fs (watchDir cfg dir)) q) := by
  obtain ⟨l, h1, h2⟩ := addDirs_walkable world (New cfg).cfg.Dirs
    { New cfg with started := true } hfs hadd rfl
  have hs : Start world (New cfg) =
      (none, { ({ New cfg with started := true } : watcher).adding l with
        loops := (({ New cfg with started := true } : watcher).adding l).loops + 1 }) := by
    unfold Start
    rw [if_neg (by simp [New])]
    rw [h1]
  rw [hs]
  refine ⟨rfl, rfl, ?_⟩
  intro q
  have h3 : q ∈ l ↔ ∃ dir ∈ cfg.Dirs,
      Reach cfg (watchDir cfg dir) (world.fs (watchDir cfg dir)) q := h2 q
  rw [← h3]
  simp [watcher.adding, New]

/-- C14 witness: below `/srv` the directories `/srv` and `/srv/pkg` are
registered; the excluded `tmp` with its `cache`, its unreadable `lock` and
the files are not. -/
theorem Start_registers_witness :
    (Start sampleWorld (New sampleConfig)).1 = none ∧
    (Start sampleWorld (New sampleConfig)).2.watched = ["/srv".toList, "/srv/pkg".toList] :=
  ⟨(Start_registers sampleWorld sampleConfig (by decide) (fun _ _ _ _ => rfl)).1, by decide⟩

/-- C14 (as stated) fails: the directory `/srv/z` is reached without entering
an excluded directory, yet `Start` does not register it, neither when the
entry `bad` read before it cannot be read nor when the watch on `/srv/b`
set before it is refused: the walk ends at the first error and `Start`
returns it. -/
theorem Start_unreadable_counterexample :
    ((∃ dir ∈ sampleConfig.Dirs,
        Reach sampleConfig (watchDir sampleConfig dir)
          (brokenWorld.fs (watchDir sampleConfig dir)) "/srv/z".toList) ∧
      "/srv/z".toList ∉ (Start brokenWorld (New sampleConfig)).2.watched ∧
      (Start brokenWorld (New sampleConfig)).2.watched = ["/srv".toList, "/srv/a".toList] ∧
      (Start brokenWorld (New sampleConfig)).1 =
        some (WatcherErr.addWatchDir "/srv".toList (WalkErr.fs 13))) ∧
    ((∃ dir ∈ sampleConfig.Dirs,
        Reach sampleConfig (watchDir sampleConfig dir)
          (refusingWorld.fs (watchDir sampleConfig dir)) "/srv/z".toList) ∧
      "/srv/z".toList ∉ (Start refusingWorld (New sampleConfig)).2.watched ∧
      (Start refusingWorld (New sampleConfig)).2.watched = ["/srv".toList, "/srv/a".toList] ∧
      (Start refusingWorld (New sampleConfig)).1 =
        some (WatcherErr.addWatchDir "/srv".toList
          (WalkErr.add "/srv/b".toList 28))) := by
  refine ⟨⟨⟨".".toList, by decide, ?_⟩, by decide, by decide, by decide⟩,
    ⟨⟨".".toList, by decide, ?_⟩, by decide, by decide, by decide⟩⟩
  · exact Reach.inside "/srv".toList _ "z".toList (Node.dir []) "/srv/z".toList (by decide)
      (List.mem_cons_of_mem _ (List.mem_cons_of_mem _ (List.mem_cons_self _ _)))
      (Reach.self "/srv/z".toList [] (by decide))
  · exact Reach.inside "/srv".toList _ "z".toList (Node.dir []) "/srv/z".toList (by decide)
      (List.mem_cons_of_mem _ (List.mem_cons_of_mem _ (List.mem_cons_self _ _)))
      (Reach.self "/srv/z".toList [] (by decide))

end Watcher

/-! ## Builder results -/

namespace Builder

theorem combineOutput_eq (stdout stderr : Str) :
    combineOutput stdout stderr = specOutput stdout stderr := by
  unfold combineOutput specOutput
  cases stderr with
  | nil => simp
  | cons c cs =>
    cases stdout with
    | nil => simp
    | cons d ds => simp

/-- `Build` once the tmp dir is made and the command has arguments. -/
theorem Build_of_command (env : Env) (cfg : Config) (name : Str) (args : List Str)
    (htmp : ensureTmpDir env cfg = none) (hcmd : parseCommand cfg.Cmd = name :: args) :
    Build env cfg =
      match (env.run ⟨name, args, cfg.Root⟩).err with
      | some err =>
        if env.ctxErr = some CtxErr.Canceled then
          (⟨false, combineOutput (env.run ⟨name, args, cfg.Root⟩).stdout
              (env.run ⟨name, args, cfg.Root⟩).stderr, env.since,
            some (BuildErr.ctx CtxErr.Canceled)⟩, [⟨name, args, cfg.Root⟩])
        else
          (⟨false, combineOutput (env.run ⟨name, args, cfg.Root⟩).stdout
              (env.run ⟨name, args, cfg.Root⟩).stderr, env.since,
            some (BuildErr.buildFailed err)⟩, [⟨name, args, cfg.Root⟩])
      | none =>
        (⟨true, combineOutput (env.run ⟨name, args, cfg.Root⟩).stdout
            (env.run ⟨name, args, cfg.Root⟩).stderr, env.since, none⟩,
          [⟨name, args, cfg.Root⟩]) := by
  unfold Build
  simp only [htmp, hcmd]

theorem Build_output_eq (env : Env) (cfg : Config) (name : Str) (args : List Str)
    (htmp : ensureTmpDir env cfg = none) (hcmd : parseCommand cfg.Cmd = name :: args) :
    (Build env cfg).1.Output =
      combineOutput (env.run ⟨name, args, cfg.Root⟩).stdout
        (env.run ⟨name, args, cfg.Root⟩).stderr := by
  rw [Build_of_command env cfg name args htmp hcmd]
  cases (env.run ⟨name, args, cfg.Root⟩).err with
  | none => rfl
  | some err =>
    simp only
    split <;> rfl

/-- C21: the output of a build that ran its command is the captured stdout
when stderr is empty, the captured stderr when stdout is empty, and stdout,
one newline, stderr when neither is. -/
theorem Build_output (env : Env) (cfg : Config) (name : Str) (args : List Str)
    (htmp : ensureTmpDir env cfg = none) (hcmd : parseCommand cfg.Cmd = name :: args) :
    ((env.run ⟨name, args, cfg.Root⟩).stderr = [] →
      (Build env cfg).1.Output = (env.run ⟨name, args, cfg.Root⟩).stdout) ∧
    ((env.run ⟨name, args, cfg.Root⟩).stdout = [] →
      (Build env cfg).1.Output = (env.run ⟨name, args, cfg.Root⟩).stderr) ∧
    ((env.run ⟨name, args, cfg.Root⟩).stdout ≠ [] →
      (env.run ⟨name, args, cfg.Root⟩).stderr ≠ [] →
      (Build env cfg).1.Output =
        (env.run ⟨name, args, cfg.Root⟩).stdout ++ '\n' ::
          (env.run ⟨name, args, cfg.Root⟩).stderr) := by
  rw [Build_output_eq env cfg name args htmp hcmd, combineOutput_eq]
  unfold specOutput
  refine ⟨fun h => by simp [h], fun h => ?_, fun h1 h2 => by simp [h1, h2]⟩
  by_cases he : (env.run ⟨name, args, cfg.Root⟩).stderr = []
  · simp [h, he]
  · simp [h, he]

/-- C21 witness: a build whose child wrote `partial` to stdout and nothing to
stderr. -/
theorem Build_output_witness :
    (Build deadlineEnv sleepConfig).1.Output = "partial".toList :=
  (Build_output deadlineEnv sleepConfig "sleep".toList ["10".toList] rfl (by decide)).1 rfl

/-- C22 (amended): when the child fails, the result is a failure with the
cancellation error if `ctx.Err()` is `Canceled`, and a failure with the
build-failed error around the child error otherwise, also when the deadline
of the context has expired; when the child succeeds the result is a success
without error. -/
theorem Build_result (env : Env) (cfg : Config) (name : Str) (args : List Str)
    (htmp : ensureTmpDir env cfg = none) (hcmd : parseCommand cfg.Cmd = name :: args) :
    (∀ err, (env.run ⟨name, args, cfg.Root⟩).err = some err →
      env.ctxErr = some CtxErr.Canceled →
      (Build env cfg).1.Success = false ∧
      (Build env cfg).1.Error = some (BuildErr.ctx CtxErr.Canceled)) ∧
    (∀ err, (env.run ⟨name, args, cfg.Root⟩).err = some err →
      env.ctxErr ≠ some CtxErr.Canceled →
      (Build env cfg).1.Success = false ∧
      (Build env cfg).1.Error = some (BuildErr.buildFailed err)) ∧
    ((env.run ⟨name, args, cfg.Root⟩).err = none →
      (Build env cfg).1.Success = true ∧ (Build env cfg).1.Error = none) := by
  rw [Build_of_command env cfg name args htmp hcmd]
  refine ⟨?_, ?_, ?_⟩
  · intro err he hc
    simp [he, hc]
  · intro err he hc
    simp [he, hc]
  · intro he
    simp [he]

/-- C22 witness: the child of `sleep 10` fails and the deadline has expired:
a build failure around the child error. -/
theorem Build_result_witness :
    (Build deadlineEnv sleepConfig).1.Success = false ∧
    (Build deadlineEnv sleepConfig).1.Error = some (BuildErr.buildFailed 9) :=
  (Build_result deadlineEnv sleepConfig "sleep".toList ["10".toList] rfl (by decide)).2.1 9
    rfl (by decide)

/-- C22 (as stated) fails: the deadline of the context has expired and the
child was killed, yet the error of the result is the build failure, not the
error of the context. -/
theorem Build_deadline_counterexample :
    deadlineEnv.ctxErr = some CtxErr.DeadlineExceeded ∧
    (deadlineEnv.run ⟨"sleep".toList, ["10".toList], "/srv".toList⟩).err = some 9 ∧
    (Build deadlineEnv sleepConfig).1.Error = some (BuildErr.buildFailed 9) ∧
    (Build deadlineEnv sleepConfig).1.Error ≠ some (BuildErr.ctx CtxErr.DeadlineExceeded) := by
  refine ⟨rfl, rfl, by decide, by decide⟩

/-- The success flag of every result of `Build` tells whether the error is
nil. -/
theorem Build_success_iff (env : Env) (cfg : Config) :
    (Build env cfg).1.Success = true ↔ (Build env cfg).1.Error = none := by
  unfold Build
  cases ensureTmpDir env cfg with
  | some err => simp
  | none =>
    cases hp : parseCommand cfg.Cmd with
    | nil => simp
    | cons name args =>
      simp only
      cases (env.run ⟨name, args, cfg.Root⟩).err with
      | none => simp
      | some err =>
        simp only
        split <;> simp

theorem parseStep_args_nonempty (st : ParseState) (r : Char) (h : ∀ t ∈ st.args, t ≠ []) :
    ∀ t ∈ (parseStep st r).args, t ≠ [] := by
  obtain ⟨args, cur, inq, qc⟩ := st
  simp only at h
  unfold parseStep
  simp only
  by_cases hcur : 0 < cur.length
  · have hne : cur ≠ [] := List.length_pos.mp hcur
    intro t ht
    split at ht
    · split at ht
      · exact h t ht
      · split at ht <;> exact h t ht
    · split at ht
      · simp only [gt_iff_lt, hcur, if_true, List.mem_append, List.mem_singleton] at ht
        rcases ht with ht | ht
        · exact h t ht
        · rw [ht]
          exact hne
      · exact h t ht
  · intro t ht
    split at ht
    · split at ht
      · exact h t ht
      · split at ht <;> exact h t ht
    · split at ht
      · simp only [gt_iff_lt, hcur, if_false] at ht
        exact h t ht
      · exact h t ht

theorem foldl_parseStep_args_nonempty (cmd : Str) (st : ParseState)
    (h : ∀ t ∈ st.args, t ≠ []) : ∀ t ∈ (cmd.foldl parseStep st).args, t ≠ [] := by
  induction cmd generalizing st with
  | nil => exact h
  | cons c cs ih => exact ih _ (parseStep_args_nonempty st c h)

theorem finish_nonempty (st : ParseState) (h : ∀ t ∈ st.args, t ≠ []) :
    ∀ t ∈ finish st, t ≠ [] := by
  unfold finish
  intro t ht
  split at ht
  · rename_i hcur
    rcases List.mem_append.mp ht with ht | ht
    · exact h t ht
    · rw [List.mem_singleton.mp ht]
      exact List.length_pos.mp hcur
  · exact h t ht

/-- Outside quotes a pair of adjacent quotes leaves the loop variables as they
were. -/
theorem parseStep_pair (q : Char) (hq : q = doubleQuote ∨ q = singleQuote) (args : List Str)
    (cur : Str) :
    parseStep (parseStep ⟨args, cur, false, Char.ofNat 0⟩ q) q =
      ⟨args, cur, false, Char.ofNat 0⟩ := by
  unfold parseStep
  simp [hq]

theorem parseCommand_pair (q : Char) (hq : q = doubleQuote ∨ q = singleQuote) (a b : Str)
    (h : endsInQuote a = false) :
    parseCommand (a ++ q :: q :: b) = parseCommand (a ++ b) := by
  have hset := foldl_parseStep_settled a ParseState.init (fun _ => rfl)
  unfold endsInQuote at h
  have hz := hset h
  unfold parseCommand
  rw [List.foldl_append, List.foldl_append, List.foldl_cons, List.foldl_cons]
  generalize a.foldl parseStep ParseState.init = sa at h hz
  obtain ⟨args, cur, inq, qc⟩ := sa
  simp only at h hz
  subst h
  subst hz
  rw [parseStep_pair q hq]

/-- C29: every argument `parseCommand` returns is non-empty; a pair of
adjacent quotes outside quotes adds nothing, so a quoted empty argument is
dropped, and a command made only of such pairs has no argument. -/
theorem parseCommand_nonempty (cmd : Str) :
    (∀ t ∈ parseCommand cmd, t ≠ []) ∧
    (∀ (q : Char) (a b : Str), (q = doubleQuote ∨ q = singleQuote) → endsInQuote a = false →
      parseCommand (a ++ q :: q :: b) = parseCommand (a ++ b)) ∧
    (∀ pairs : List Str,
      (∀ x ∈ pairs, x = [doubleQuote, doubleQuote] ∨ x = [singleQuote, singleQuote]) →
      parseCommand pairs.flatten = []) := by
  refine ⟨?_, fun q a b hq h => parseCommand_pair q hq a b h, ?_⟩
  · unfold parseCommand
    exact finish_nonempty _
      (foldl_parseStep_args_nonempty cmd ParseState.init (fun t ht => by
        simp [ParseState.init] at ht))
  · intro pairs
    induction pairs with
    | nil =>
      intro _
      rfl
    | cons x rest ih =>
      intro h
      have hrest := ih (fun y hy => h y (List.mem_cons_of_mem _ hy))
      rcases h x (List.mem_cons_self _ _) with hx | hx
      · subst hx
        have := parseCommand_pair doubleQuote (Or.inl rfl) [] rest.flatten rfl
        simpa [hrest] using this
      · subst hx
        have := parseCommand_pair singleQuote (Or.inr rfl) [] rest.flatten rfl
        simpa [hrest] using this

end Builder

/-! ## Engine: stop, and builds that fail -/

namespace Engine

variable {σ : Type}

/-- C27: `Engine.Stop` on an engine that is not running returns nil and makes
no call; on a running one it calls `Runner.Stop`, returns its error wrapped
without calling `Watcher.Close` when there is one, and otherwise calls
`Watcher.Close` and returns its error wrapped, or nil. -/
theorem Stop_calls (d : Deps σ) (e : Engine) (s : St σ) :
    (e.running = false → Stop d e s = (none, s)) ∧
    (e.running = true →
      (∀ err, (d.runnerStop StopCtx.ofCaller s.world).1 = some err →
        (Stop d e s).1 = some (Err.stopRunner err) ∧
        (Stop d e s).2.trace = s.trace ++ [Call.runnerStop StopCtx.ofCaller]) ∧
      ((d.runnerStop StopCtx.ofCaller s.world).1 = none →
        (Stop d e s).1 =
          (d.watcherClose (d.runnerStop StopCtx.ofCaller s.world).2).1.map Err.closeWatcher ∧
        (Stop d e s).2.trace =
          s.trace ++ [Call.runnerStop StopCtx.ofCaller, Call.watcherClose])) := by
  constructor
  · intro he
    simp [Stop, he]
  · intro he
    constructor
    · intro err hr
      have hr2 : (s.call (Call.runnerStop StopCtx.ofCaller)
          (d.runnerStop StopCtx.ofCaller)).1 = some err := hr
      unfold Stop
      simp only [he, Bool.not_true, Bool.false_eq_true, if_false, hr2]
      simp [St.call]
    · intro hr
      have hr2 : (s.call (Call.runnerStop StopCtx.ofCaller)
          (d.runnerStop StopCtx.ofCaller)).1 = none := hr
      unfold Stop
      simp only [he, Bool.not_true, Bool.false_eq_true, if_false, hr2]
      cases hc : (d.watcherClose (d.runnerStop StopCtx.ofCaller s.world).2).1 with
      | none =>
        have hc2 : ((s.call (Call.runnerStop StopCtx.ofCaller)
            (d.runnerStop StopCtx.ofCaller)).2.call Call.watcherClose d.watcherClose).1
              = none := hc
        simp only [hc2]
        simp [St.call]
      | some err =>
        have hc2 : ((s.call (Call.runnerStop StopCtx.ofCaller)
            (d.runnerStop StopCtx.ofCaller)).2.call Call.watcherClose d.watcherClose).1
              = some err := hc
        simp only [hc2]
        simp [St.call]

/-- C30: the success flag of every result of `Build` is set exactly when its
error is nil; so a build-and-run cycle whose build is `Build` and does not
succeed returns a non-nil error, and `Builder.Build` is its last call on a
collaborator: `Runner.Start` is not called. -/
theorem Build_success_iff_no_error (d : Deps σ) (cfg : Config) (s : St σ)
    (env : σ → Builder.Env) (bcfg : Builder.Config) :
    (∀ (benv : Builder.Env) (c : Builder.Config),
      (Builder.Build benv c).1.Success = true ↔ (Builder.Build benv c).1.Error = none) ∧
    ((Builder.Build (env (stopCurrent (withBuilder d env bcfg) cfg s).world) bcfg).1.Success
        = false →
      (buildAndRun (withBuilder d env bcfg) cfg s).1 ≠ none ∧
      externalCalls (buildAndRun (withBuilder d env bcfg) cfg s).2.trace =
        externalCalls s.trace ++ Call.runnerRunning ::
          ((if (d.runnerRunning s.world).1 then
              [Call.runnerStop (StopCtx.ofCtx (cfg.KillDelay * 2))] else []) ++
            [Call.build])) := by
  refine ⟨Builder.Build_success_iff, ?_⟩
  intro hfail
  have hb : ((withBuilder d env bcfg).build
      (stopCurrent (withBuilder d env bcfg) cfg s).world).1.Success = false := hfail
  have hrun : ((withBuilder d env bcfg).runnerRunning s.world).1 = (d.runnerRunning s.world).1 :=
    rfl
  have herr : (Builder.Build
      (env (stopCurrent (withBuilder d env bcfg) cfg s).world) bcfg).1.Error ≠ none := by
    intro h
    have := (Builder.Build_success_iff _ _).mpr h
    rw [hfail] at this
    exact Bool.noConfusion this
  constructor
  · rw [buildAndRun_ret, hb]
    simp only [Bool.false_eq_true, if_false]
    show ((Builder.Build (env (stopCurrent (withBuilder d env bcfg) cfg s).world)
      bcfg).1.Error.map Err.builder) ≠ none
    cases he : (Builder.Build (env (stopCurrent (withBuilder d env bcfg) cfg s).world)
        bcfg).1.Error with
    | none => exact absurd he herr
    | some x => simp
  · rw [buildAndRun_calls, stopCurrent_calls, hb, hrun]
    simp

end Engine

/-! ## Filter: extension normalisation -/

theorem normExt_dot (e : Str) : normExt ('.' :: e) = '.' :: e := by
  simp [normExt, GoStrings.HasPrefix]

theorem normExt_of_no_dot (e : Str) (h : GoStrings.HasPrefix e ['.'] = false) :
    normExt e = '.' :: e := by
  simp [normExt, h]

/-- The filter depends on the extensions through their normal forms only. -/
theorem NewFilter_congr (exts1 exts2 dirs files : List Str) (root : Str)
    (h : exts1.map normExt = exts2.map normExt) :
    NewFilter ⟨exts1, dirs, files, root⟩ = NewFilter ⟨exts2, dirs, files, root⟩ := by
  have hf : ∀ (exts : List Str) (m : BoolMap),
      exts.foldl (fun m ext => BoolMap.set m (normExt ext) true) m =
        (exts.map normExt).foldl (fun m k => BoolMap.set m k true) m := by
    intro exts
    induction exts with
    | nil => intro m; rfl
    | cons x xs ih =>
      intro m
      rw [List.foldl_cons, List.map_cons, List.foldl_cons, ih]
  unfold NewFilter
  simp only [hf, h]

/-- C26: an extension without leading dot and the same extension with the dot
put in front give the same filter, so the same `Match` on every path. -/
theorem filter_extension_normalised (pre post dirs files : List Str) (root e : Str)
    (h : GoStrings.HasPrefix e ['.'] = false) :
    NewFilter ⟨pre ++ e :: post, dirs, files, root⟩ =
      NewFilter ⟨pre ++ ('.' :: e) :: post, dirs, files, root⟩ ∧
    ∀ p, (NewFilter ⟨pre ++ e :: post, dirs, files, root⟩).Match p =
      (NewFilter ⟨pre ++ ('.' :: e) :: post, dirs, files, root⟩).Match p := by
  have heq : NewFilter ⟨pre ++ e :: post, dirs, files, root⟩ =
      NewFilter ⟨pre ++ ('.' :: e) :: post, dirs, files, root⟩ := by
    apply NewFilter_congr
    simp [normExt_dot, normExt_of_no_dot e h]
  exact ⟨heq, fun p => by rw [heq]⟩

/-- C26 witness: `go` and `.go`. -/
theorem filter_extension_normalised_witness :
    (NewFilter ⟨["go".toList, ".html".toList], [], [], "/project".toList⟩).Match
        "/project/main.go".toList =
      (NewFilter ⟨[".go".toList, ".html".toList], [], [], "/project".toList⟩).Match
        "/project/main.go".toList :=
  (filter_extension_normalised [] [".html".toList] [] [] "/project".toList "go".toList
    (by decide)).2 "/project/main.go".toList

/-! ## Configuration -/

namespace ConfigPkg

theorem LogConfig.validate_none_iff (l : LogConfig) :
    l.validate = none ↔
      l.Level ∈ ["debug".toList, "info".toList, "warn".toList, "error".toList] := by
  unfold LogConfig.validate
  by_cases h : (l.Level = "debug".toList ∨ l.Level = "info".toList ∨ l.Level = "warn".toList ∨
      l.Level = "error".toList)
  · rw [if_pos h]
    simpa using h
  · rw [if_neg h]
    simpa using h

theorem LogConfig.validate_eq (l : LogConfig) :
    l.validate =
      if l.Level ∈ ["debug".toList, "info".toList, "warn".toList, "error".toList] then none
      else some Sentinel.ErrInvalidLogLevel := by
  by_cases h : l.Level ∈ ["debug".toList, "info".toList, "warn".toList, "error".toList]
  · rw [if_pos h]
    exact (LogConfig.validate_none_iff l).2 h
  · rw [if_neg h]
    have h2 : ¬ (l.Level = "debug".toList ∨ l.Level = "info".toList ∨ l.Level = "warn".toList ∨
        l.Level = "error".toList) := by simpa using h
    unfold LogConfig.validate
    rw [if_neg h2]

theorem Validate_none_iff (c : Config) : c.Validate = none ↔ c.Valid := by
  obtain ⟨root, tmp, ⟨cmd, bin, args, delay, kill⟩, ⟨exts, dirs, xd, xf⟩, l⟩ := c
  simp only [Config.Validate, BuildConfig.validate, WatchConfig.validate, LogConfig.validate_eq,
    Config.Valid, List.length_eq_zero, ← not_lt, ne_eq]
  by_cases h1 : cmd = [] <;> by_cases h2 : bin = [] <;> by_cases h3 : delay < 0 <;>
    by_cases h4 : kill < 0 <;> by_cases h5 : exts = [] <;> by_cases h6 : dirs = [] <;>
    by_cases h7 : l.Level ∈ ["debug".toList, "info".toList, "warn".toList, "error".toList] <;>
    simp only [h1, h2, h3, h4, h5, h6, h7, if_true, if_false] <;> simp

theorem Validate_unwrap (c : Config) : c.Validate.map ValidateErr.unwrap = c.firstViolated := by
  obtain ⟨root, tmp, ⟨cmd, bin, args, delay, kill⟩, ⟨exts, dirs, xd, xf⟩, l⟩ := c
  simp only [Config.Validate, BuildConfig.validate, WatchConfig.validate, LogConfig.validate_eq,
    Config.firstViolated, Config.checks, List.length_eq_zero]
  by_cases h1 : cmd = [] <;> by_cases h2 : bin = [] <;> by_cases h3 : delay < 0 <;>
    by_cases h4 : kill < 0 <;> by_cases h5 : exts = [] <;> by_cases h6 : dirs = [] <;>
    by_cases h7 : l.Level ∈ ["debug".toList, "info".toList, "warn".toList, "error".toList] <;>
    simp only [h1, h2, h3, h4, h5, h6, h7, if_true, if_false, not_true, not_false_iff,
      decide_True, decide_False, List.find?, Option.map, ValidateErr.unwrap]

/-- C23: `Validate` returns nil exactly for the configurations with a
non-empty command, a non-empty binary, non-negative delay and kill delay, at
least one extension, at least one watch directory and a log level among
debug, info, warn and error; for every other configuration it returns an
error, and the sentinel that error wraps is the one of the first violated
check in the order cmd, bin, delay, kill_delay, extensions, dirs, level. -/
theorem Validate_contract (c : Config) :
    (c.Validate = none ↔ c.Valid) ∧
    (¬ c.Valid → ∃ err, c.Validate = some err ∧ c.firstViolated = some err.unwrap) ∧
    c.Validate.map ValidateErr.unwrap = c.firstViolated := by
  refine ⟨Validate_none_iff c, ?_, Validate_unwrap c⟩
  intro hv
  have hu := Validate_unwrap c
  cases hc : c.Validate with
  | none => exact absurd ((Validate_none_iff c).1 hc) hv
  | some err =>
    rw [hc] at hu
    exact ⟨err, rfl, hu.symm⟩

/-- C24: a configuration whose delay and kill delay are both zero, hence not
strictly positive, passes `Validate`: neither `delay must be positive` nor
`kill_delay must be positive` is returned. -/
theorem Validate_zero_delay :
    zeroDelayConfig.Build.Delay = 0 ∧ zeroDelayConfig.Build.KillDelay = 0 ∧
    zeroDelayConfig.Build.validate = none ∧ zeroDelayConfig.Validate = none := by
  refine ⟨rfl, rfl, ?_, ?_⟩
  · decide
  · decide

theorem nonEmptyOr_eq (o : Option Str) (d : Str) :
    nonEmptyOr o d = if o.getD [] = [] then d else o.getD [] := by
  cases o with
  | none => simp [nonEmptyOr]
  | some v => simp [nonEmptyOr]

theorem nonEmptyListOr_eq (o : Option (List Str)) (d : List Str) :
    nonEmptyListOr o d = if o.getD [] = [] then d else o.getD [] := by
  cases o with
  | none => simp [nonEmptyListOr]
  | some v => simp [nonEmptyListOr]

theorem durationOr_eq (parse : Str → Option Duration) (o : Option Str) (d : Duration) :
    durationOr parse o d = if o.getD [] = [] then d else (parse (o.getD [])).getD d := by
  cases o with
  | none => simp [durationOr]
  | some v => simp [durationOr]

theorem parses_iff (parse : Str → Option Duration) (o : Option Str) :
    parses parse o ↔ (o.getD [] ≠ [] → (parse (o.getD [])).isSome = true) := by
  cases o with
  | none => simp [parses]
  | some v => simp [parses]

theorem mergeBuildConfig_spec (parse : Str → Option Duration) (cfg : BuildConfig)
    (raw : rawBuildConfig) :
    (mergeBuildConfig parse cfg raw).2.Cmd = (if raw.Cmd = [] then cfg.Cmd else raw.Cmd) ∧
    (mergeBuildConfig parse cfg raw).2.Bin = (if raw.Bin = [] then cfg.Bin else raw.Bin) ∧
    (mergeBuildConfig parse cfg raw).2.Args = (if raw.Args = [] then cfg.Args else raw.Args) ∧
    ((mergeBuildConfig parse cfg raw).1 = none ↔
      (raw.Delay ≠ [] → (parse raw.Delay).isSome = true) ∧
      (raw.KillDelay ≠ [] → (parse raw.KillDelay).isSome = true)) ∧
    ((mergeBuildConfig parse cfg raw).1 = none →
      (mergeBuildConfig parse cfg raw).2.Delay =
        (if raw.Delay = [] then cfg.Delay else (parse raw.Delay).getD cfg.Delay) ∧
      (mergeBuildConfig parse cfg raw).2.KillDelay =
        (if raw.KillDelay = [] then cfg.KillDelay
          else (parse raw.KillDelay).getD cfg.KillDelay)) := by
  obtain ⟨rc, rb, ra, rd, rk⟩ := raw
  simp only [mergeBuildConfig, List.length_pos, ne_eq]
  by_cases h1 : rc = [] <;> by_cases h2 : rb = [] <;> by_cases h3 : ra = [] <;>
    by_cases h4 : rd = [] <;> by_cases h5 : rk = [] <;>
    cases h6 : parse rd <;> cases h7 : parse rk <;>
    simp [h1, h2, h3, h4, h5, h6, h7]

theorem mergeWatchConfig_spec (cfg raw : WatchConfig) :
    (mergeWatchConfig cfg raw).Extensions =
      (if raw.Extensions = [] then cfg.Extensions else raw.Extensions) ∧
    (mergeWatchConfig cfg raw).Dirs = (if raw.Dirs = [] then cfg.Dirs else raw.Dirs) ∧
    (mergeWatchConfig cfg raw).ExcludeDirs =
      (if raw.ExcludeDirs = [] then cfg.ExcludeDirs else raw.ExcludeDirs) ∧
    (mergeWatchConfig cfg raw).ExcludeFiles =
      (if raw.ExcludeFiles = [] then cfg.ExcludeFiles else raw.ExcludeFiles) := by
  obtain ⟨re, rd, rx, rf⟩ := raw
  simp only [mergeWatchConfig, List.length_pos, ne_eq]
  by_cases h1 : re = [] <;> by_cases h2 : rd = [] <;> by_cases h3 : rx = [] <;>
    by_cases h4 : rf = [] <;> simp [h1, h2, h3, h4]

theorem mergeLogConfig_spec (cfg raw : LogConfig) :
    (mergeLogConfig cfg raw).Color = raw.Color ∧ (mergeLogConfig cfg raw).Time = raw.Time ∧
    (mergeLogConfig cfg raw).Level = (if raw.Level = [] then cfg.Level else raw.Level) := by
  simp only [mergeLogConfig, ne_eq]
  by_cases h : raw.Level = [] <;> simp [h]

theorem mergeConfig_spec (parse : Str → Option Duration) (cfg : Config) (raw : rawConfig) :
    (mergeConfig parse cfg raw).1 = (mergeBuildConfig parse cfg.Build raw.Build).1 ∧
    (mergeConfig parse cfg raw).2.Root = (if raw.Root = [] then cfg.Root else raw.Root) ∧
    (mergeConfig parse cfg raw).2.TmpDir = (if raw.TmpDir = [] then cfg.TmpDir else raw.TmpDir) ∧
    (mergeConfig parse cfg raw).2.Build = (mergeBuildConfig parse cfg.Build raw.Build).2 ∧
    ((mergeConfig parse cfg raw).1 = none →
      (mergeConfig parse cfg raw).2.Watch = mergeWatchConfig cfg.Watch raw.Watch ∧
      (mergeConfig parse cfg raw).2.Log = mergeLogConfig cfg.Log raw.Log) := by
  simp only [mergeConfig, ne_eq]
  by_cases h1 : raw.Root = [] <;> by_cases h2 : raw.TmpDir = [] <;>
    simp only [h1, h2, not_true_eq_false, not_false_eq_true, if_true, if_false] <;>
    rcases hm : mergeBuildConfig parse cfg.Build raw.Build with ⟨e, b⟩ <;>
    cases e <;> simp

/-- C25 (as stated): merging a file that sets no key does not give
`Default()`, since `log.color` and `log.time` come out false where the
default is true; and a key that is present with an empty value is not
replaced by the value of the file. -/
theorem mergeConfig_empty_file_counterexample :
    (mergeFile sampleParse File.empty).1 = none ∧
    (mergeFile sampleParse File.empty).2 ≠ Default ∧
    (mergeFile sampleParse File.empty).2.Log.Color ≠
      fileOrDefault File.empty.color Default.Log.Color ∧
    (mergeFile sampleParse File.empty).2.Log.Time ≠
      fileOrDefault File.empty.time Default.Log.Time ∧
    (mergeFile sampleParse emptyCmdFile).2.Build.Cmd ≠
      fileOrDefault emptyCmdFile.cmd Default.Build.Cmd := by
  decide

/-- C25 (amended): `mergeConfig` on `Default()` and the unmarshalled file
returns no error exactly when the durations of the file, where it has
non-empty ones, parse; root, tmp_dir, cmd, bin and args keep their default
when the key is missing or empty and take the value of the file otherwise;
and when no error is returned the same holds of the two durations (parsed),
the four lists of the watch section and the log level, while `log.color` and
`log.time` are the values of the file, false when the key is missing. A file
that sets no key gives `Default()` with `log.color` and `log.time` false. -/
theorem mergeConfig_file (parse : Str → Option Duration) (f : File) :
    ((mergeFile parse f).1 = none ↔ parses parse f.delay ∧ parses parse f.kill_delay) ∧
    (mergeFile parse f).2.Root = nonEmptyOr f.root Default.Root ∧
    (mergeFile parse f).2.TmpDir = nonEmptyOr f.tmp_dir Default.TmpDir ∧
    (mergeFile parse f).2.Build.Cmd = nonEmptyOr f.cmd Default.Build.Cmd ∧
    (mergeFile parse f).2.Build.Bin = nonEmptyOr f.bin Default.Build.Bin ∧
    (mergeFile parse f).2.Build.Args = nonEmptyListOr f.args Default.Build.Args ∧
    ((mergeFile parse f).1 = none →
      (mergeFile parse f).2.Build.Delay = durationOr parse f.delay Default.Build.Delay ∧
      (mergeFile parse f).2.Build.KillDelay =
        durationOr parse f.kill_delay Default.Build.KillDelay ∧
      (mergeFile parse f).2.Watch.Extensions =
        nonEmptyListOr f.extensions Default.Watch.Extensions ∧
      (mergeFile parse f).2.Watch.Dirs = nonEmptyListOr f.dirs Default.Watch.Dirs ∧
      (mergeFile parse f).2.Watch.ExcludeDirs =
        nonEmptyListOr f.exclude_dirs Default.Watch.ExcludeDirs ∧
      (mergeFile parse f).2.Watch.ExcludeFiles =
        nonEmptyListOr f.exclude_files Default.Watch.ExcludeFiles ∧
      (mergeFile parse f).2.Log.Color = f.color.getD false ∧
      (mergeFile parse f).2.Log.Time = f.time.getD false ∧
      (mergeFile parse f).2.Log.Level = nonEmptyOr f.level Default.Log.Level) ∧
    mergeFile parse File.empty =
      (none, { Default with Log := { Default.Log with Color := false, Time := false } }) := by
  have hc := mergeConfig_spec parse Default (unmarshal f)
  have hb := mergeBuildConfig_spec parse Default.Build (unmarshal f).Build
  have hw := mergeWatchConfig_spec Default.Watch (unmarshal f).Watch
  have hl := mergeLogConfig_spec Default.Log (unmarshal f).Log
  obtain ⟨hc1, hc2, hc3, hc4, hc5⟩ := hc
  obtain ⟨hb1, hb2, hb3, hb4, hb5⟩ := hb
  obtain ⟨hw1, hw2, hw3, hw4⟩ := hw
  obtain ⟨hl1, hl2, hl3⟩ := hl
  simp only [nonEmptyOr_eq, nonEmptyListOr_eq, durationOr_eq, parses_iff, mergeFile]
  refine ⟨?_, hc2, hc3, ?_, ?_, ?_, ?_, ?_⟩
  · rw [hc1]; exact hb4
  · rw [hc4]; exact hb1
  · rw [hc4]; exact hb2
  · rw [hc4]; exact hb3
  · intro h
    obtain ⟨h5, h6⟩ := hc5 h
    rw [hc1] at h
    obtain ⟨h7, h8⟩ := hb5 h
    rw [hc4, h5, h6]
    exact ⟨h7, h8, hw1, hw2, hw3, hw4, hl1, hl2, hl3⟩
  · rfl

end ConfigPkg

/-! ## Logger -/

namespace Logger

theorem log_out (env : Env) (l : logger) (pre text : Str) :
    ∃ line, log env l pre text = { l with out := l.out ++ [line] } :=
  ⟨_, rfl⟩

theorem emit_written (env : Env) (l : logger) (severity : Level) (text : Str)
    (h : l.level.toNat ≤ severity.toNat) :
    ∃ line, emit env severity l text = { l with out := l.out ++ [line] } := by
  cases severity <;>
    simp only [emit, Debug, Info, Warn, Error, Level.toNat] at h ⊢ <;>
    rw [if_neg (by omega)] <;> exact log_out env l _ text

theorem emit_silent (env : Env) (l : logger) (severity : Level) (text : Str)
    (h : severity.toNat < l.level.toNat) : emit env severity l text = l := by
  cases severity <;>
    simp only [emit, Debug, Info, Warn, Error, Level.toNat] at h ⊢ <;>
    rw [if_pos (by omega)]

theorem parseLevel_other (s : Str)
    (h : s ∉ ["debug".toList, "info".toList, "warn".toList, "error".toList]) :
    parseLevel s = Level.LevelInfo := by
  have h2 : ¬ (s = "debug".toList ∨ s = "info".toList ∨ s = "warn".toList ∨
      s = "error".toList) := by simpa using h
  simp only [not_or] at h2
  obtain ⟨a, b, c, d⟩ := h2
  unfold parseLevel
  rw [if_neg a, if_neg b, if_neg c, if_neg d]

/-- C28: with the severities ordered debug < info < warn < error, a logger
whose minimum level is L writes exactly one line for a message of severity S
when S >= L and nothing when S < L, leaving what was written before in
place; `New` takes the level from `parseLevel`, which maps the four names to
their levels and every other string to info; `Success` is the info method
and `Failure` the error method, on the message with its mark in front. -/
theorem logger_levels (env : Env) (l : logger) (severity : Level) (text s : Str)
    (cfg : Config) :
    (Level.LevelDebug.toNat < Level.LevelInfo.toNat ∧
      Level.LevelInfo.toNat < Level.LevelWarn.toNat ∧
      Level.LevelWarn.toNat < Level.LevelError.toNat) ∧
    (l.level.toNat ≤ severity.toNat →
      ∃ line, emit env severity l text = { l with out := l.out ++ [line] }) ∧
    (severity.toNat < l.level.toNat → emit env severity l text = l) ∧
    (emit env severity l text).out.length =
      l.out.length + (if l.level.toNat ≤ severity.toNat then 1 else 0) ∧
    ((New cfg).level = parseLevel cfg.Level ∧ (New cfg).out = []) ∧
    (parseLevel "debug".toList = Level.LevelDebug ∧ parseLevel "info".toList = Level.LevelInfo ∧
      parseLevel "warn".toList = Level.LevelWarn ∧
      parseLevel "error".toList = Level.LevelError) ∧
    (s ∉ ["debug".toList, "info".toList, "warn".toList, "error".toList] →
      parseLevel s = Level.LevelInfo) ∧
    Success env l text = emit env Level.LevelInfo l ("✓ ".toList ++ text) ∧
    Failure env l text = emit env Level.LevelError l ("✗ ".toList ++ text) := by
  refine ⟨by decide, emit_written env l severity text, emit_silent env l severity text, ?_,
    ⟨rfl, rfl⟩, by decide, parseLevel_other s, rfl, rfl⟩
  by_cases h : l.level.toNat ≤ severity.toNat
  · obtain ⟨line, hl⟩ := emit_written env l severity text h
    rw [hl, if_pos h]
    simp
  · rw [emit_silent env l severity text (by omega), if_neg h]
    simp

end Logger

end Goreload
